import Mathlib

/-!
# konfig-syncer: a shallow embedding of the reconcilers

The development follows the Go sources `controller.go`, `namespace.go`,
`configmap.go` and `secret.go`.

* Go strings are `String`; `strings.Split` works on the character list.
* `map[string]string` is `GoMap`: `none` is the nil map, `some l` an association
  list read by first match.
* A ConfigMap and a Secret are a `Resource D`: object metadata and a payload of a
  type `D` with decidable equality (`reflect.DeepEqual`).
* The listers are the informer caches: read-only snapshots during one
  reconciliation, which may answer with an error.  The writes sent through
  `kubeclientset` are recorded, in order, in a trace of `Event`s together with the
  `log.Error` records; the answers of the API server are an input
  (`Controller.kubeclientset`), so that a failing write is part of the model.
  `Store.apply` is the effect of a write that succeeds.
* The deletion trackers are `cache.Indexer`s with the key function
  `DeletionHandlingMetaNamespaceKeyFunc`; `Add`, `GetByKey` and `Delete` follow
  client-go.
* `sets.String.UnsortedList` iterates in an unspecified order, `time.Now()` is
  read from the environment, and the table of printable characters of `strconv`
  is not reproduced: these are the fields of `Env`.
* `labels.SelectorFromSet` is the one of the API machinery that goes with clients
  whose calls take no context: it validates the pair with `NewRequirement` and
  falls back to the selector without requirements.
* `fmt.Sprintf` with `%q` is `strconv.Quote`; `json.Unmarshal` into a
  `map[string]string` is a parser of the JSON grammar that keeps string members.
* A run-time panic (index out of range) ends a namespace reconciler and is
  reported in `NsResult.panicked`.
-/

namespace KonfigSyncer

/-! ## Go strings -/

/-- The pieces of a character list between the occurrences of `sep`
(`strings.Split` with a one-character separator; always at least one piece). -/
def splitChars (sep : Char) : List Char → List (List Char)
  | [] => [[]]
  | c :: cs =>
    if c = sep then [] :: splitChars sep cs
    else
      match splitChars sep cs with
      | [] => [[c]]
      | h :: t => (c :: h) :: t

/-- Go `strings.Split(s, sep)` for a separator of one character. -/
def strings.Split (s : String) (sep : Char) : List String :=
  (splitChars sep s.data).map String.mk

/-- Go indexing `l[i]` of a slice of strings; `none` stands for the run-time panic
"index out of range". -/
def sliceIndex (l : List String) (i : Nat) : Option String := l.get? i

/-! ## Go maps -/

/-- Go `map[string]string`: `none` is the nil map. -/
abbrev GoMap := Option (List (String × String))

/-- First value bound to `k` in an association list. -/
def assocGet (k : String) : List (String × String) → Option String
  | [] => none
  | (k', v) :: rest => if k' = k then some v else assocGet k rest

/-- The two-valued read `v, ok := m[k]`. -/
def GoMap.get? (m : GoMap) (k : String) : Option String :=
  match m with
  | none => none
  | some l => assocGet k l

/-- The one-valued read `m[k]`: the zero value `""` when the key is missing. -/
def GoMap.index (m : GoMap) (k : String) : String :=
  (m.get? k).getD ""

/-- Go `delete(m, k)`; a no-op on the nil map. -/
def GoMap.delete (m : GoMap) (k : String) : GoMap :=
  m.map (fun l => l.filter (fun p => p.1 ≠ k))

/-- Go `m[k] = v` on a map that is not nil. -/
def GoMap.set (m : GoMap) (k v : String) : GoMap :=
  some ((k, v) :: (m.getD []).filter (fun p => p.1 ≠ k))

/-! ## Errors -/

/-- The Go `error` values that occur: the API machinery's NotFound status, the
error built by `namespacesForLabel`, and any other failure of a collaborator. -/
inductive Err where
  | notFound
  | notValidLabel (label : String)
  | other (msg : String)
  deriving DecidableEq, Repr

/-- Go `errors.IsNotFound`. -/
def errors.IsNotFound : Err → Bool
  | .notFound => true
  | _ => false

/-! ## API objects -/

/-- The fields of `metav1.ObjectMeta` that the program reads or writes.
`CreationTimestamp = none` is the zero time. -/
structure ObjectMeta where
  Name : String
  Namespace : String
  UID : String
  ResourceVersion : String
  GenerateName : String
  SelfLink : String
  CreationTimestamp : Option Nat
  Labels : GoMap
  Annotations : GoMap
  deriving DecidableEq, Repr

/-- A `corev1.ConfigMap` or `corev1.Secret`: object metadata and the `Data`
payload.  The payload type is a parameter: the program only copies it and
compares it with `reflect.DeepEqual`, which is the decidable equality of `D`. -/
structure Resource (D : Type) extends ObjectMeta where
  Data : D
  deriving DecidableEq, Repr

/-- A `corev1.Namespace`, as far as it is read: name and labels. -/
structure v1.Namespace where
  Name : String
  Labels : GoMap
  deriving DecidableEq, Repr

/-- The annotation key of `controller.go`. -/
def syncAnnotation : String := "konfig-syncer"

/-- The provenance key, `fmt.Sprintf("%s-%s", syncAnnotation, "metadata")`. -/
def metadataAnnotation : String := syncAnnotation ++ "-" ++ "metadata"

/-! ## Label selectors and listers -/

/-- The class `[A-Za-z0-9]` (`qnameCharFmt` of `k8s.io/apimachinery`, package
`util/validation`). -/
def validation.isQnameChar (c : Char) : Bool :=
  ('A' ≤ c ∧ c ≤ 'Z') ∨ ('a' ≤ c ∧ c ≤ 'z') ∨ ('0' ≤ c ∧ c ≤ '9')

/-- The class `[-A-Za-z0-9_.]` (`qnameExtCharFmt`). -/
def validation.isQnameExtChar (c : Char) : Bool :=
  validation.isQnameChar c || c = '-' || c = '_' || c = '.'

/-- A match of `qualifiedNameRegexp`, the anchored expression
`^([A-Za-z0-9][-A-Za-z0-9_.]*)?[A-Za-z0-9]$`: at least one character, all of the
extended class, the first and the last of `[A-Za-z0-9]`. -/
def validation.matchesQualifiedName (cs : List Char) : Bool :=
  cs.head?.any validation.isQnameChar && cs.getLast?.any validation.isQnameChar &&
    cs.all validation.isQnameExtChar

/-- The class `[a-z0-9]`. -/
def validation.isDNS1123Char (c : Char) : Bool :=
  ('a' ≤ c ∧ c ≤ 'z') ∨ ('0' ≤ c ∧ c ≤ '9')

/-- A match of `dns1123LabelFmt`, `[a-z0-9]([-a-z0-9]*[a-z0-9])?`, on the whole
list. -/
def validation.matchesDNS1123Label (cs : List Char) : Bool :=
  cs.head?.any validation.isDNS1123Char && cs.getLast?.any validation.isDNS1123Char &&
    cs.all (fun c => validation.isDNS1123Char c || c = '-')

/-- Whether `validation.IsDNS1123Subdomain(value)` returns no message: at most 253
bytes, and a match of `^label(\.label)*$`, that is, every piece between the dots is
a DNS-1123 label. -/
def validation.IsDNS1123Subdomain (value : String) : Bool :=
  value.utf8ByteSize ≤ 253 && (splitChars '.' value.data).all validation.matchesDNS1123Label

/-- The checks of `validation.IsQualifiedName` on the name part: not empty, at most
63 bytes, a match of `qualifiedNameRegexp`. -/
def validation.qualifiedNamePart (name : String) : Bool :=
  name ≠ "" && name.utf8ByteSize ≤ 63 && validation.matchesQualifiedName name.data

/-- Whether `validation.IsQualifiedName(value)` returns no message: the value is a
name part, or a DNS subdomain that is not empty, a `/` and a name part. -/
def validation.IsQualifiedName (value : String) : Bool :=
  match strings.Split value '/' with
  | [name] => validation.qualifiedNamePart name
  | [pfx, name] =>
    pfx ≠ "" && validation.IsDNS1123Subdomain pfx && validation.qualifiedNamePart name
  | _ => false

/-- Whether `validation.IsValidLabelValue(value)` returns no message: at most 63
bytes, and a match of `^(qualifiedNameFmt)?$`. -/
def validation.IsValidLabelValue (value : String) : Bool :=
  value.utf8ByteSize ≤ 63 && (value.data.isEmpty || validation.matchesQualifiedName value.data)

/-- A `labels.Selector` as `labels.Everything` and `labels.SelectorFromSet` build
it (`internalSelector`): the exact-match requirements `key = value`, all of which a
label set has to meet. -/
structure Selector where
  requirements : List (String × String)
  deriving DecidableEq, Repr

/-- Go `labels.Everything()`: the selector without requirements. -/
def labels.Everything : Selector := { requirements := [] }

/-- Go `labels.NewRequirement(key, selection.Equals, []string{value})`: the
requirement, or `none` for the error of `validateLabelKey` (the key is no
qualified name) or of `validateLabelValue`. -/
def labels.NewRequirement (key value : String) : Option (String × String) :=
  if validation.IsQualifiedName key = true ∧ validation.IsValidLabelValue value = true then
    some (key, value)
  else none

/-- Go `labels.SelectorFromSet(labels.Set{k: v})` of the API machinery that the
program is built against (its clients take no context): the requirement `k = v`,
and, when `NewRequirement` answers with an error, `internalSelector{}`, the
selector without requirements. -/
def labels.SelectorFromSet (k v : String) : Selector :=
  match labels.NewRequirement k v with
  | some r => { requirements := [r] }
  | none => { requirements := [] }

/-- Go `Selector.Matches`: every requirement holds; an exact-match requirement
holds of a label set that has the key (`ls.Has`) with that value (`ls.Get`). -/
def Selector.Matches (sel : Selector) (lbls : GoMap) : Bool :=
  sel.requirements.all (fun r => lbls.get? r.1 = some r.2)

/-- The namespace lister: the cached namespaces, and a failure of `List` when
`listFault` is set. -/
structure NamespaceLister where
  items : List v1.Namespace
  listFault : Option String

/-- The call `namespacesLister.List(selector)`. -/
def NamespaceLister.list (l : NamespaceLister) (sel : Selector) :
    Except Err (List v1.Namespace) :=
  match l.listFault with
  | some msg => .error (.other msg)
  | none => .ok (l.items.filter (fun n => sel.Matches n.Labels))

/-- The call `namespacesLister.Get(name)`. -/
def NamespaceLister.Get (l : NamespaceLister) (name : String) : Except Err v1.Namespace :=
  match l.items.find? (fun n => n.Name = name) with
  | some n => .ok n
  | none => .error .notFound

/-- A ConfigMap or Secret lister: the cached objects, the lookups that fail with
an error other than NotFound (`getFault`), and a failure of `List`. -/
structure ResourceLister (D : Type) where
  items : List (Resource D)
  getFault : String → String → Option String
  listFault : Option String

/-- Whether an object is the one of namespace `ns` and name `name`. -/
def atKey {D : Type} (ns name : String) (o : Resource D) : Bool :=
  o.Namespace = ns ∧ o.Name = name

/-- The call `lister.ConfigMaps(ns).Get(name)` (or `Secrets(ns).Get(name)`). -/
def ResourceLister.Get {D : Type} (l : ResourceLister D) (ns name : String) :
    Except Err (Resource D) :=
  match l.getFault ns name with
  | some msg => .error (.other msg)
  | none =>
    match l.items.find? (atKey ns name) with
    | some o => .ok o
    | none => .error .notFound

/-- The call `lister.List(labels.Everything())` over all namespaces. -/
def ResourceLister.listAll {D : Type} (l : ResourceLister D) : Except Err (List (Resource D)) :=
  match l.listFault with
  | some msg => .error (.other msg)
  | none => .ok l.items

/-- The call `lister.ConfigMaps(ns).List(labels.Everything())`. -/
def ResourceLister.listIn {D : Type} (l : ResourceLister D) (ns : String) :
    Except Err (List (Resource D)) :=
  match l.listFault with
  | some msg => .error (.other msg)
  | none => .ok (l.items.filter (fun o => o.Namespace = ns))

/-- A lister that shows exactly the objects of `store`, without faults. -/
def ResourceLister.ofStore {D : Type} (store : List (Resource D)) : ResourceLister D :=
  { items := store, getFault := fun _ _ => none, listFault := none }

/-! ## Sets of strings -/

/-- Go `sets.String`: the inserted strings without repetition. -/
abbrev StringSet := List String

/-- Go `sets.NewString()` followed by `Insert` of every element of `l`. -/
def StringSet.ofList (l : List String) : StringSet := l.dedup

/-- The iteration order of a Go map: some permutation of the elements. -/
structure IterOrder where
  fn : List String → List String
  perm : ∀ l, (fn l).Perm l

/-- The order that leaves every list as it is. -/
def IterOrder.id : IterOrder := { fn := fun l => l, perm := fun l => List.Perm.refl l }

/-- Go `s.UnsortedList()`. -/
def StringSet.UnsortedList (s : StringSet) (order : IterOrder) : List String := order.fn s

/-! ## Object keys and the deletion tracker (`cache.Indexer`) -/

/-- The dynamic types of the values passed where client-go takes an
`interface{}` and computes a key: a pointer to an API object, the tombstone
`cache.DeletedFinalStateUnknown`, a `cache.ExplicitKey`, or a plain Go `string`. -/
inductive KeyArg (D : Type) where
  | object (o : Resource D)
  | deletedFinalStateUnknown (key : String) (o : Resource D)
  | explicitKey (key : String)
  | plainString (s : String)

/-- The client-go key function `cache.MetaNamespaceKeyFunc`: an `ExplicitKey` is
its own key; for an API object the key is `<namespace>/<name>`, or `<name>` when
the namespace is empty; for any other value `meta.Accessor` fails ("object has no
meta").  A plain `string` is such a value: it is not of the type `ExplicitKey`
and has no metadata. -/
def MetaNamespaceKeyFunc {D : Type} : KeyArg D → Except Err String
  | .explicitKey key => .ok key
  | .object o =>
    if o.Namespace.length > 0 then .ok (o.Namespace ++ "/" ++ o.Name) else .ok o.Name
  | .deletedFinalStateUnknown _ _ => .error (.other "object has no meta")
  | .plainString _ => .error (.other "object has no meta")

/-- The client-go key function `cache.DeletionHandlingMetaNamespaceKeyFunc`: the
recorded key of a tombstone, `MetaNamespaceKeyFunc` otherwise. -/
def DeletionHandlingMetaNamespaceKeyFunc {D : Type} : KeyArg D → Except Err String
  | .deletedFinalStateUnknown key _ => .ok key
  | .object o => MetaNamespaceKeyFunc (.object o)
  | .explicitKey key => MetaNamespaceKeyFunc (.explicitKey key : KeyArg D)
  | .plainString s => MetaNamespaceKeyFunc (.plainString s : KeyArg D)

/-- The client-go function `cache.SplitMetaNamespaceKey`. -/
def SplitMetaNamespaceKey (key : String) : Except Err (String × String) :=
  match strings.Split key '/' with
  | [name] => .ok ("", name)
  | [ns, name] => .ok (ns, name)
  | _ => .error (.other ("unexpected key format: " ++ key))

/-- The store behind `cache.NewIndexer(DeletionHandlingMetaNamespaceKeyFunc, ...)`:
the stored objects, each under the key that the key function computes for it. -/
abbrev Indexer (D : Type) := List (Resource D)

/-- Whether a stored object is the one under `key`. -/
def hasKey {D : Type} (key : String) (o : Resource D) : Bool :=
  match DeletionHandlingMetaNamespaceKeyFunc (.object o) with
  | .ok k => k = key
  | .error _ => false

/-- The call `indexer.GetByKey(key)`: the item, if it exists. -/
def Indexer.GetByKey {D : Type} (ix : Indexer D) (key : String) : Option (Resource D) :=
  ix.find? (hasKey key)

/-- The call `indexer.Add(obj)` of client-go's `cache` for an API object: store
it under the key computed for it, in place of what was there. -/
def Indexer.Add {D : Type} (ix : Indexer D) (o : Resource D) : Indexer D :=
  match DeletionHandlingMetaNamespaceKeyFunc (.object o) with
  | .ok key => o :: ix.filter (fun e => !hasKey key e)
  | .error _ => ix

/-- The call `indexer.Delete(obj)` of client-go's `cache`:
`key, err := c.keyFunc(obj); if err != nil { return KeyError{obj, err} };
c.cacheStorage.Delete(key); return nil`.  The argument is an object, from which
the key is computed; when the key function fails, nothing is removed. -/
def Indexer.Delete {D : Type} (ix : Indexer D) (obj : KeyArg D) : Indexer D × Option Err :=
  match DeletionHandlingMetaNamespaceKeyFunc obj with
  | .error e => (ix, some e)
  | .ok key => (ix.filter (fun e => !hasKey key e), none)

/-! ## The client, the controller and the trace -/

/-- A write through `kubeclientset.CoreV1().ConfigMaps(ns)` or `.Secrets(ns)`. -/
inductive Op (D : Type) where
  | Create (ns : String) (obj : Resource D)
  | Update (ns : String) (obj : Resource D)
  | Delete (ns : String) (name : String)
  deriving DecidableEq, Repr

/-- The namespace a write is addressed to. -/
def Op.ns {D : Type} : Op D → String
  | .Create ns _ => ns
  | .Update ns _ => ns
  | .Delete ns _ => ns

/-- What a reconciler does that can be observed: a write sent to the API server,
or a `log.Error` / `runtime.HandleError` record. -/
inductive Event (D : Type) where
  | call (op : Op D)
  | logError (e : Err)
  deriving DecidableEq, Repr

/-- The answers of the API server: the error of each write, if any. -/
structure KubeClient (CD SD : Type) where
  ConfigMaps : Op CD → Option Err
  Secrets : Op SD → Option Err

/-- The `Controller` struct of `controller.go` (work queues and the `HasSynced`
functions are not part of the reconcilers). -/
structure Controller (CD SD : Type) where
  kubeclientset : KubeClient CD SD
  configMapsLister : ResourceLister CD
  deletedConfigMapIndexer : Indexer CD
  secretsLister : ResourceLister SD
  deletedSecretIndexer : Indexer SD
  namespacesLister : NamespaceLister

/-- What the Go runtime and library decide for the program: the iteration order
of sets, the successive readings of `time.Now().String()`, and the Unicode table
of `strconv.IsPrint` above U+00FF. -/
structure Env where
  mapOrder : IterOrder
  clock : Nat → String
  isPrintTable : Char → Bool

/-- One write and the error record that follows when the server refuses it:
`_, err = client.Op(...); if err != nil { log.Error(err) }`. -/
def issue {D : Type} (client : Op D → Option Err) (op : Op D) : List (Event D) :=
  match client op with
  | some e => [.call op, .logError e]
  | none => [.call op]

/-- The writes of a trace, in order. -/
def calls {D : Type} : List (Event D) → List (Op D)
  | [] => []
  | .call op :: rest => op :: calls rest
  | .logError _ :: rest => calls rest

/-! ## `strconv.Quote` (the verb `%q`) -/

/-- The digit `lowerhex[n]` of `strconv`. -/
def lowerhex (n : Nat) : Char :=
  "0123456789abcdef".data.getD (n % 16) '0'

/-- Go `strconv.IsPrint`: the explicit test for Latin-1 and the Unicode table
beyond. -/
def strconv.IsPrint (tbl : Char → Bool) (r : Char) : Bool :=
  if r.toNat ≤ 0xFF then
    if 0x20 ≤ r.toNat ∧ r.toNat ≤ 0x7E then true
    else if 0xA1 ≤ r.toNat ∧ r.toNat ≤ 0xFF then r.toNat ≠ 0xAD
    else false
  else tbl r

/-- Go `strconv.appendEscapedRune` for the double quote, not ASCII-only. -/
def appendEscapedRune (tbl : Char → Bool) (r : Char) : List Char :=
  if r = '"' ∨ r = '\\' then ['\\', r]
  else if strconv.IsPrint tbl r then [r]
  else if r.toNat = 7 then ['\\', 'a']
  else if r.toNat = 8 then ['\\', 'b']
  else if r.toNat = 12 then ['\\', 'f']
  else if r.toNat = 10 then ['\\', 'n']
  else if r.toNat = 13 then ['\\', 'r']
  else if r.toNat = 9 then ['\\', 't']
  else if r.toNat = 11 then ['\\', 'v']
  else if r.toNat < 0x20 ∨ r.toNat = 0x7F then
    ['\\', 'x', lowerhex (r.toNat / 16), lowerhex r.toNat]
  else if r.toNat < 0x10000 then
    ['\\', 'u', lowerhex (r.toNat / 4096), lowerhex (r.toNat / 256),
      lowerhex (r.toNat / 16), lowerhex r.toNat]
  else
    ['\\', 'U', lowerhex (r.toNat / 268435456), lowerhex (r.toNat / 16777216),
      lowerhex (r.toNat / 1048576), lowerhex (r.toNat / 65536),
      lowerhex (r.toNat / 4096), lowerhex (r.toNat / 256),
      lowerhex (r.toNat / 16), lowerhex r.toNat]

/-- Go `strconv.Quote(s)`, which is what `fmt.Sprintf` writes for `%q`. -/
def strconv.Quote (tbl : Char → Bool) (s : String) : String :=
  String.mk ('"' :: (s.data.flatMap (appendEscapedRune tbl)) ++ ['"'])

/-! ## Building a copy -/

/-- The value written under the provenance key:
`fmt.Sprintf` with the format
`{"namespace":%q,"name":%q,"uid":%q,"resourceVersion":%q,"label":%q,"last-update":%q}`. -/
def kubeSyncAnnotationValue {D : Type} (env : Env) (now : String) (source : Resource D) :
    String :=
  "\x7b\"namespace\":" ++ strconv.Quote env.isPrintTable source.Namespace
    ++ ",\"name\":" ++ strconv.Quote env.isPrintTable source.Name
    ++ ",\"uid\":" ++ strconv.Quote env.isPrintTable source.UID
    ++ ",\"resourceVersion\":" ++ strconv.Quote env.isPrintTable source.ResourceVersion
    ++ ",\"label\":"
    ++ strconv.Quote env.isPrintTable (source.Annotations.index syncAnnotation)
    ++ ",\"last-update\":" ++ strconv.Quote env.isPrintTable now ++ "\x7d"

/-- The function `createNewConfigMap` of `configmap.go`; `now` is the reading of
`time.Now().String()`. -/
def createNewConfigMap {D : Type} (env : Env) (now : String) (sourceConfigMap : Resource D) :
    Resource D :=
  let newConfigMap := sourceConfigMap
  let annotations := newConfigMap.Annotations.delete syncAnnotation
  let annotations : GoMap :=
    match annotations with
    | none => some []
    | some l => some l
  { newConfigMap with
    ResourceVersion := ""
    Namespace := ""
    UID := ""
    GenerateName := ""
    SelfLink := ""
    CreationTimestamp := none
    Annotations :=
      annotations.set metadataAnnotation (kubeSyncAnnotationValue env now sourceConfigMap) }

/-- The function `createNewSecret` of `secret.go`. -/
def createNewSecret {D : Type} (env : Env) (now : String) (sourceSecret : Resource D) :
    Resource D :=
  let newSecret := sourceSecret
  let annotations := newSecret.Annotations.delete syncAnnotation
  let annotations : GoMap :=
    match annotations with
    | none => some []
    | some l => some l
  { newSecret with
    ResourceVersion := ""
    Namespace := ""
    UID := ""
    GenerateName := ""
    SelfLink := ""
    CreationTimestamp := none
    Annotations :=
      annotations.set metadataAnnotation (kubeSyncAnnotationValue env now sourceSecret) }

/-! ## The selector resolver -/

/-- The tail of `namespacesForLabel`: the error of the listing, or the set of the
names listed. -/
def namespaceNames (listed : Except Err (List v1.Namespace)) : Except Err StringSet :=
  match listed with
  | .error e => .error e
  | .ok namespaces => .ok (StringSet.ofList (namespaces.map (fun obj => obj.Name)))

/-- The method `namespacesForLabel` of `namespace.go`.  The pattern `[k, v]` is
`len(l) == 2` with `l[0]` and `l[1]`. -/
def namespacesForLabel {CD SD : Type} (c : Controller CD SD) (label : String) :
    Except Err StringSet :=
  if label ≠ "" then
    match strings.Split label '=' with
    | [k, v] => namespaceNames (c.namespacesLister.list (labels.SelectorFromSet k v))
    | _ => .error (.notValidLabel label)
  else
    namespaceNames (c.namespacesLister.list labels.Everything)

/-! ## `encoding/json`: decoding into a `map[string]string` -/

/-- The white space of JSON. -/
def json.isSpace (c : Char) : Bool :=
  c = ' ' ∨ c = '\t' ∨ c = '\r' ∨ c = '\n'

/-- Drop leading white space. -/
def json.skipSpace : List Char → List Char
  | [] => []
  | c :: cs => if json.isSpace c then json.skipSpace cs else c :: cs

/-- The value of a hexadecimal digit. -/
def json.hexVal (c : Char) : Option Nat :=
  if '0' ≤ c ∧ c ≤ '9' then some (c.toNat - '0'.toNat)
  else if 'a' ≤ c ∧ c ≤ 'f' then some (c.toNat - 'a'.toNat + 10)
  else if 'A' ≤ c ∧ c ≤ 'F' then some (c.toNat - 'A'.toNat + 10)
  else none

/-- The number written by four hexadecimal digits (`getu4`). -/
def json.hex4 (a b c d : Char) : Option Nat :=
  match json.hexVal a, json.hexVal b, json.hexVal c, json.hexVal d with
  | some x, some y, some z, some w => some (x * 4096 + y * 256 + z * 16 + w)
  | _, _, _, _ => none

/-- The character of a one-letter escape of JSON; `\a`, `\v`, `\x` and `\U` of Go
syntax are not among them. -/
def json.simpleEscape (e : Char) : Option Char :=
  if e = '"' then some '"'
  else if e = '\\' then some '\\'
  else if e = '/' then some '/'
  else if e = 'b' then some (Char.ofNat 8)
  else if e = 'f' then some (Char.ofNat 12)
  else if e = 'n' then some '\n'
  else if e = 'r' then some '\r'
  else if e = 't' then some '\t'
  else none

/-- The low half of a surrogate pair at the head of the input, written `\uXXXX`. -/
def json.lowSurrogate : List Char → Option Nat
  | '\\' :: 'u' :: a :: b :: c :: d :: _ =>
    match json.hex4 a b c d with
    | some n => if 0xDC00 ≤ n ∧ n < 0xE000 then some n else none
    | none => none
  | _ => none

/-- The rest of a string literal after its opening quote: the decoded characters
and the input after the closing quote.  Control characters and escapes that JSON
does not know are syntax errors; a `\u` escape that is half of a surrogate pair
is joined with its other half or replaced by U+FFFD.  `fuel` bounds the number
of characters read. -/
def json.parseStringAux : Nat → List Char → Option (List Char × List Char)
  | 0, _ => none
  | _, [] => none
  | fuel + 1, c :: cs =>
    if c = '"' then some ([], cs)
    else if c = '\\' then
      match cs with
      | [] => none
      | e :: cs1 =>
        if e = 'u' then
          match cs1 with
          | h1 :: h2 :: h3 :: h4 :: cs2 =>
            match json.hex4 h1 h2 h3 h4 with
            | none => none
            | some n =>
              if 0xD800 ≤ n ∧ n < 0xDC00 then
                match json.lowSurrogate cs2 with
                | some m =>
                  (json.parseStringAux fuel (cs2.drop 6)).map (fun r =>
                    (Char.ofNat (0x10000 + (n - 0xD800) * 1024 + (m - 0xDC00)) :: r.1, r.2))
                | none =>
                  (json.parseStringAux fuel cs2).map (fun r => (Char.ofNat 0xFFFD :: r.1, r.2))
              else if 0xDC00 ≤ n ∧ n < 0xE000 then
                (json.parseStringAux fuel cs2).map (fun r => (Char.ofNat 0xFFFD :: r.1, r.2))
              else
                (json.parseStringAux fuel cs2).map (fun r => (Char.ofNat n :: r.1, r.2))
          | _ => none
        else
          match json.simpleEscape e with
          | none => none
          | some ch => (json.parseStringAux fuel cs1).map (fun r => (ch :: r.1, r.2))
    else if c.toNat < 0x20 then none
    else (json.parseStringAux fuel cs).map (fun r => (c :: r.1, r.2))

/-- A string literal after its opening quote. -/
def json.parseString (cs : List Char) : Option (List Char × List Char) :=
  json.parseStringAux cs.length cs

/-- Drop leading decimal digits. -/
def json.skipDigits : List Char → List Char
  | [] => []
  | c :: cs => if c.isDigit then json.skipDigits cs else c :: cs

/-- One digit at least, then the digits that follow. -/
def json.digits1 : List Char → Option (List Char)
  | [] => none
  | c :: cs => if c.isDigit then some (json.skipDigits cs) else none

/-- The exponent of a number, if there is one. -/
def json.exponent : List Char → Option (List Char)
  | c :: cs =>
    if c = 'e' ∨ c = 'E' then
      match cs with
      | s :: cs1 => if s = '+' ∨ s = '-' then json.digits1 cs1 else json.digits1 cs
      | [] => none
    else some (c :: cs)
  | [] => some []

/-- The fraction and the exponent of a number, if there are any. -/
def json.fraction : List Char → Option (List Char)
  | c :: cs =>
    if c = '.' then (json.digits1 cs).bind json.exponent else json.exponent (c :: cs)
  | [] => some []

/-- A number without its sign: the input after it. -/
def json.unsignedNumber : List Char → Option (List Char)
  | [] => none
  | c :: cs =>
    if c = '0' then json.fraction cs
    else if c.isDigit then json.fraction (json.skipDigits cs)
    else none

/-- What the decoder needs to know of a value that is to be stored in a Go
`string`: a string, `null`, or a value of another JSON type. -/
inductive json.Kind where
  | str (s : String)
  | null
  | mismatch
  deriving DecidableEq, Repr

mutual
/-- A JSON value at the head of the input (white space already skipped), with the
input after it.  `fuel` bounds the nesting and the number of members. -/
def json.parseValue : Nat → List Char → Option (json.Kind × List Char)
  | 0, _ => none
  | _, [] => none
  | fuel + 1, c :: cs =>
    if c = '"' then
      (json.parseString cs).map (fun r => (json.Kind.str (String.mk r.1), r.2))
    else if c = '\x7b' then
      (json.parseObject fuel (json.skipSpace cs)).map (fun r => (json.Kind.mismatch, r.2))
    else if c = '[' then
      (json.parseArray fuel (json.skipSpace cs)).map (fun r => (json.Kind.mismatch, r))
    else if c = 'n' then
      match cs with
      | 'u' :: 'l' :: 'l' :: rest => some (json.Kind.null, rest)
      | _ => none
    else if c = 't' then
      match cs with
      | 'r' :: 'u' :: 'e' :: rest => some (json.Kind.mismatch, rest)
      | _ => none
    else if c = 'f' then
      match cs with
      | 'a' :: 'l' :: 's' :: 'e' :: rest => some (json.Kind.mismatch, rest)
      | _ => none
    else if c = '-' then (json.unsignedNumber cs).map (fun r => (json.Kind.mismatch, r))
    else (json.unsignedNumber (c :: cs)).map (fun r => (json.Kind.mismatch, r))
/-- The members of an object after its opening brace (white space skipped), up to
and including the closing brace. -/
def json.parseObject : Nat → List Char → Option (List (String × json.Kind) × List Char)
  | 0, _ => none
  | _, [] => none
  | fuel + 1, c :: cs =>
    if c = '\x7d' then some ([], cs) else json.parseMembers fuel (c :: cs)
/-- One member `"key": value` and what follows it: a comma and more members, or
the closing brace. -/
def json.parseMembers : Nat → List Char → Option (List (String × json.Kind) × List Char)
  | 0, _ => none
  | _, [] => none
  | fuel + 1, c :: cs =>
    if c = '"' then
      match json.parseString cs with
      | none => none
      | some (key, rest) =>
        match json.skipSpace rest with
        | ':' :: rest1 =>
          match json.parseValue fuel (json.skipSpace rest1) with
          | none => none
          | some (v, rest2) =>
            match json.skipSpace rest2 with
            | ',' :: rest3 =>
              (json.parseMembers fuel (json.skipSpace rest3)).map
                (fun r => ((String.mk key, v) :: r.1, r.2))
            | '\x7d' :: rest3 => some ([(String.mk key, v)], rest3)
            | _ => none
        | _ => none
    else none
/-- The elements of an array after its opening bracket (white space skipped), up
to and including the closing bracket. -/
def json.parseArray : Nat → List Char → Option (List Char)
  | 0, _ => none
  | _, [] => none
  | fuel + 1, c :: cs =>
    if c = ']' then some cs else json.parseElements fuel (c :: cs)
/-- One element and what follows it: a comma and more elements, or the closing
bracket. -/
def json.parseElements : Nat → List Char → Option (List Char)
  | 0, _ => none
  | fuel + 1, cs =>
    match json.parseValue fuel cs with
    | none => none
    | some (_, rest) =>
      match json.skipSpace rest with
      | ',' :: rest1 => json.parseElements fuel (json.skipSpace rest1)
      | ']' :: rest1 => some rest1
      | _ => none
end

/-- Store the members of the decoded object in the map, in order, so that a
repeated key keeps its last value; `null` stores the zero value.  A member that
is not a string is an `UnmarshalTypeError`: `none`. -/
def json.storeMembers : List (String × json.Kind) → GoMap → Option GoMap
  | [], m => some m
  | (k, .str s) :: rest, m => json.storeMembers rest (m.set k s)
  | (k, .null) :: rest, m => json.storeMembers rest (m.set k "")
  | (_, .mismatch) :: _, _ => none

/-- Go `json.Unmarshal([]byte(data), &m)` for `m := make(map[string]string)`:
the map after the call, or `none` when an error is returned (a syntax error, or
a value that cannot be stored in a `map[string]string`). -/
def json.Unmarshal (data : String) : Option GoMap :=
  let fuel := data.data.length + 2
  match json.skipSpace data.data with
  | [] => none
  | c :: cs =>
    if c = '\x7b' then
      match json.parseObject fuel (json.skipSpace cs) with
      | none => none
      | some (members, rest) =>
        if json.skipSpace rest = [] then json.storeMembers members (some []) else none
    else
      match json.parseValue fuel (c :: cs) with
      | some (.null, rest) => if json.skipSpace rest = [] then some (some []) else none
      | _ => none

/-- The function `jsonLabelToArray` of `namespace.go`. -/
def jsonLabelToArray (jsonLabel : String) : List String × Bool :=
  match json.Unmarshal jsonLabel with
  | none => ([], false)
  | some m =>
    if m.index "label" = "" then ([], true)
    else
      let label := strings.Split (m.index "label") '='
      if label.length > 2 then ([], false) else (label, true)

/-! ## The key reconcilers -/

/-- What a key reconciler returns and leaves behind: the returned error (`none`
is `nil`), the trace, and the controller with its deletion tracker. -/
structure SyncResult (CD SD D : Type) where
  ret : Option Err
  trace : List (Event D)
  controller : Controller CD SD

/-- The method `deleteSyncedConfigMaps` of `configmap.go`. -/
def deleteSyncedConfigMaps {CD SD : Type} (env : Env) (c : Controller CD SD)
    (s : Resource CD) : List (Event CD) :=
  match namespacesForLabel c (s.Annotations.index syncAnnotation) with
  | .error e => [.logError e]
  | .ok namespaces =>
    (namespaces.UnsortedList env.mapOrder).flatMap (fun ns =>
      if ns = s.Namespace then []
      else issue c.kubeclientset.ConfigMaps (.Delete ns s.Name))

/-- The method `deleteSyncedSecrets` of `secret.go`. -/
def deleteSyncedSecrets {CD SD : Type} (env : Env) (c : Controller CD SD)
    (s : Resource SD) : List (Event SD) :=
  match namespacesForLabel c (s.Annotations.index syncAnnotation) with
  | .error e => [.logError e]
  | .ok namespaces =>
    (namespaces.UnsortedList env.mapOrder).flatMap (fun ns =>
      if ns = s.Namespace then []
      else issue c.kubeclientset.Secrets (.Delete ns s.Name))

/-- The body of the converge loop of `syncConfigMap` for one namespace. -/
def convergeConfigMap {CD SD : Type} [DecidableEq CD] (c : Controller CD SD)
    (sourceConfigMap newConfigMap : Resource CD) (ns : String) : List (Event CD) :=
  if ns = sourceConfigMap.Namespace then []
  else
    match c.configMapsLister.Get ns newConfigMap.Name with
    | .error err =>
      if errors.IsNotFound err then issue c.kubeclientset.ConfigMaps (.Create ns newConfigMap)
      else [.logError err]
    | .ok targetConfigMap =>
      if targetConfigMap.Data = newConfigMap.Data then []
      else issue c.kubeclientset.ConfigMaps (.Update ns newConfigMap)

/-- The body of the converge loop of `syncSecret` for one namespace. -/
def convergeSecret {CD SD : Type} [DecidableEq SD] (c : Controller CD SD)
    (sourceSecret newSecret : Resource SD) (ns : String) : List (Event SD) :=
  if ns = sourceSecret.Namespace then []
  else
    match c.secretsLister.Get ns newSecret.Name with
    | .error err =>
      if errors.IsNotFound err then issue c.kubeclientset.Secrets (.Create ns newSecret)
      else [.logError err]
    | .ok targetSecret =>
      if targetSecret.Data = newSecret.Data then []
      else issue c.kubeclientset.Secrets (.Update ns newSecret)

/-- The cleanup pass that opens `syncConfigMap`: when the tracker has an item
under `key`, call `deletedConfigMapIndexer.Delete(key)` (with the key, a plain
string, as argument; the returned error is dropped) and then
`deleteSyncedConfigMaps`. -/
def cleanupConfigMap {CD SD : Type} (env : Env) (c : Controller CD SD) (key : String) :
    Controller CD SD × List (Event CD) :=
  match c.deletedConfigMapIndexer.GetByKey key with
  | some s =>
    let c1 := { c with
      deletedConfigMapIndexer := (c.deletedConfigMapIndexer.Delete (.plainString key)).1 }
    (c1, deleteSyncedConfigMaps env c1 s)
  | none => (c, [])

/-- The cleanup pass that opens `syncSecret`. -/
def cleanupSecret {CD SD : Type} (env : Env) (c : Controller CD SD) (key : String) :
    Controller CD SD × List (Event SD) :=
  match c.deletedSecretIndexer.GetByKey key with
  | some s =>
    let c1 := { c with
      deletedSecretIndexer := (c.deletedSecretIndexer.Delete (.plainString key)).1 }
    (c1, deleteSyncedSecrets env c1 s)
  | none => (c, [])

/-- The method `syncConfigMap` of `configmap.go`. -/
def syncConfigMap {CD SD : Type} [DecidableEq CD] (env : Env) (c : Controller CD SD)
    (key : String) : SyncResult CD SD CD :=
  let (c1, cleanup) := cleanupConfigMap env c key
  match SplitMetaNamespaceKey key with
  | .error _ =>
    { ret := none
      trace := cleanup ++ [.logError (.other ("invalid resource key: " ++ key))]
      controller := c1 }
  | .ok (ns0, name) =>
    match c1.configMapsLister.Get ns0 name with
    | .error err =>
      if errors.IsNotFound err then { ret := none, trace := cleanup, controller := c1 }
      else { ret := some err, trace := cleanup, controller := c1 }
    | .ok sourceConfigMap =>
      match namespacesForLabel c1 (sourceConfigMap.Annotations.index syncAnnotation) with
      | .error _ => { ret := none, trace := cleanup, controller := c1 }
      | .ok namespaces =>
        let newConfigMap := createNewConfigMap env (env.clock 0) sourceConfigMap
        { ret := none
          trace := cleanup ++ (namespaces.UnsortedList env.mapOrder).flatMap
            (convergeConfigMap c1 sourceConfigMap newConfigMap)
          controller := c1 }

/-- The method `syncSecret` of `secret.go`. -/
def syncSecret {CD SD : Type} [DecidableEq SD] (env : Env) (c : Controller CD SD)
    (key : String) : SyncResult CD SD SD :=
  let (c1, cleanup) := cleanupSecret env c key
  match SplitMetaNamespaceKey key with
  | .error _ =>
    { ret := none
      trace := cleanup ++ [.logError (.other ("invalid resource key: " ++ key))]
      controller := c1 }
  | .ok (ns0, name) =>
    match c1.secretsLister.Get ns0 name with
    | .error err =>
      if errors.IsNotFound err then { ret := none, trace := cleanup, controller := c1 }
      else { ret := some err, trace := cleanup, controller := c1 }
    | .ok sourceSecret =>
      match namespacesForLabel c1 (sourceSecret.Annotations.index syncAnnotation) with
      | .error _ => { ret := none, trace := cleanup, controller := c1 }
      | .ok namespaces =>
        let newSecret := createNewSecret env (env.clock 0) sourceSecret
        { ret := none
          trace := cleanup ++ (namespaces.UnsortedList env.mapOrder).flatMap
            (convergeSecret c1 sourceSecret newSecret)
          controller := c1 }

/-- The controller with the ConfigMap and the Secret side exchanged. -/
def Controller.swap {CD SD : Type} (c : Controller CD SD) : Controller SD CD :=
  { kubeclientset := { ConfigMaps := c.kubeclientset.Secrets, Secrets := c.kubeclientset.ConfigMaps }
    configMapsLister := c.secretsLister
    deletedConfigMapIndexer := c.deletedSecretIndexer
    secretsLister := c.configMapsLister
    deletedSecretIndexer := c.deletedConfigMapIndexer
    namespacesLister := c.namespacesLister }

/-! ## The namespace reconcilers -/

/-- What a namespace reconciler does: the trace, and whether it stopped in a
run-time panic (index out of range). -/
structure NsResult (D : Type) where
  trace : List (Event D)
  panicked : Bool
  deriving DecidableEq, Repr

/-- The condition `anno == "" || nsLabels[l[0]] == l[1]` of the namespace
reconcilers, evaluated from left to right; `none` is the panic of an index out of
range. -/
def labelCondition (anno : String) (l : List String) (nsLabels : GoMap) : Option Bool :=
  if anno = "" then some true
  else
    match sliceIndex l 0, sliceIndex l 1 with
    | some l0, some l1 => some (nsLabels.index l0 = l1)
    | _, _ => none

/-- Run the body of a `for _, x := range xs` loop on the elements in order;
`none` from the body is a panic, which ends the loop.  The index of the element
is passed to the body. -/
def rangeLoop {α ε : Type} (body : Nat → α → Option (List ε)) :
    Nat → List α → List ε × Bool
  | _, [] => ([], false)
  | i, x :: xs =>
    match body i x with
    | none => ([], true)
    | some evs => (evs ++ (rangeLoop body (i + 1) xs).1, (rangeLoop body (i + 1) xs).2)

/-- The body of the loop of `syncConfigMapsToNamespace` for one listed ConfigMap;
the reading of the clock for a new copy is that of the iteration. -/
def addConfigMapToNamespace {CD SD : Type} (env : Env) (c : Controller CD SD) (ns : String)
    (nsLabels : GoMap) (i : Nat) (cm : Resource CD) : Option (List (Event CD)) :=
  match cm.Annotations.get? syncAnnotation with
  | none => some []
  | some _ =>
    let l := strings.Split (cm.Annotations.index syncAnnotation) '='
    if l.length > 2 then some []
    else
      match labelCondition (cm.Annotations.index syncAnnotation) l nsLabels with
      | none => none
      | some false => some []
      | some true =>
        match c.configMapsLister.Get ns cm.Name with
        | .error err =>
          if errors.IsNotFound err then
            some (issue c.kubeclientset.ConfigMaps
              (.Create ns (createNewConfigMap env (env.clock i) cm)))
          else some [.logError err]
        | .ok _ => some []

/-- The body of the loop of `syncSecretsToNamespace` for one listed Secret. -/
def addSecretToNamespace {CD SD : Type} (env : Env) (c : Controller CD SD) (ns : String)
    (nsLabels : GoMap) (i : Nat) (s : Resource SD) : Option (List (Event SD)) :=
  match s.Annotations.get? syncAnnotation with
  | none => some []
  | some _ =>
    let l := strings.Split (s.Annotations.index syncAnnotation) '='
    if l.length > 2 then some []
    else
      match labelCondition (s.Annotations.index syncAnnotation) l nsLabels with
      | none => none
      | some false => some []
      | some true =>
        match c.secretsLister.Get ns s.Name with
        | .error err =>
          if errors.IsNotFound err then
            some (issue c.kubeclientset.Secrets
              (.Create ns (createNewSecret env (env.clock i) s)))
          else some [.logError err]
        | .ok _ => some []

/-- The body of the loop of `deleteDeprecatedConfigMapsFromNs` for one ConfigMap
found in the namespace; the pattern `[l0, l1]` is `len(l) == 2`. -/
def deleteDeprecatedConfigMap {CD SD : Type} (c : Controller CD SD) (ns : String)
    (nsLabels : GoMap) (configMap : Resource CD) : List (Event CD) :=
  match configMap.Annotations.get? metadataAnnotation with
  | none => []
  | some cma =>
    let (l, succeed) := jsonLabelToArray cma
    if !succeed ∨ l.length = 0 then []
    else
      match l with
      | [l0, l1] =>
        if nsLabels.index l0 = l1 then []
        else issue c.kubeclientset.ConfigMaps (.Delete ns configMap.Name)
      | _ => issue c.kubeclientset.ConfigMaps (.Delete ns configMap.Name)

/-- The body of the loop of `deleteDeprecatedSecretsFromNs` for one Secret found
in the namespace. -/
def deleteDeprecatedSecret {CD SD : Type} (c : Controller CD SD) (ns : String)
    (nsLabels : GoMap) (secret : Resource SD) : List (Event SD) :=
  match secret.Annotations.get? metadataAnnotation with
  | none => []
  | some sa =>
    let (l, succeed) := jsonLabelToArray sa
    if !succeed ∨ l.length = 0 then []
    else
      match l with
      | [l0, l1] =>
        if nsLabels.index l0 = l1 then []
        else issue c.kubeclientset.Secrets (.Delete ns secret.Name)
      | _ => issue c.kubeclientset.Secrets (.Delete ns secret.Name)

/-- The method `deleteDeprecatedConfigMapsFromNs` of `namespace.go`; the error of
the listing is dropped and the loop runs over what was listed (nothing, on an
error). -/
def deleteDeprecatedConfigMapsFromNs {CD SD : Type} (c : Controller CD SD) (ns : String)
    (nsLabels : GoMap) : List (Event CD) :=
  match c.configMapsLister.listIn ns with
  | .error _ => []
  | .ok configMaps => configMaps.flatMap (deleteDeprecatedConfigMap c ns nsLabels)

/-- The method `deleteDeprecatedSecretsFromNs` of `namespace.go`. -/
def deleteDeprecatedSecretsFromNs {CD SD : Type} (c : Controller CD SD) (ns : String)
    (nsLabels : GoMap) : List (Event SD) :=
  match c.secretsLister.listIn ns with
  | .error _ => []
  | .ok secrets => secrets.flatMap (deleteDeprecatedSecret c ns nsLabels)

/-- The method `syncConfigMapsToNamespace` of `namespace.go`. -/
def syncConfigMapsToNamespace {CD SD : Type} (env : Env) (c : Controller CD SD) (ns : String)
    (nsLabels : GoMap) : NsResult CD :=
  let listed : List (Resource CD) × List (Event CD) :=
    match c.configMapsLister.listAll with
    | .error err => ([], [.logError err])
    | .ok configMaps => (configMaps, [])
  let added := rangeLoop (addConfigMapToNamespace env c ns nsLabels) 0 listed.1
  if added.2 then { trace := listed.2 ++ added.1, panicked := true }
  else
    { trace := listed.2 ++ added.1 ++ deleteDeprecatedConfigMapsFromNs c ns nsLabels
      panicked := false }

/-- The method `syncSecretsToNamespace` of `namespace.go`. -/
def syncSecretsToNamespace {CD SD : Type} (env : Env) (c : Controller CD SD) (ns : String)
    (nsLabels : GoMap) : NsResult SD :=
  let listed : List (Resource SD) × List (Event SD) :=
    match c.secretsLister.listAll with
    | .error err => ([], [.logError err])
    | .ok secrets => (secrets, [])
  let added := rangeLoop (addSecretToNamespace env c ns nsLabels) 0 listed.1
  if added.2 then { trace := listed.2 ++ added.1, panicked := true }
  else
    { trace := listed.2 ++ added.1 ++ deleteDeprecatedSecretsFromNs c ns nsLabels
      panicked := false }

/-! ## The API server -/

/-- The objects of one kind held by the API server. -/
abbrev Store (D : Type) := List (Resource D)

/-- The effect of a write that succeeds: `Create` stores the object in the
namespace of the request, `Update` replaces the object of that name there,
`Delete` removes it. -/
def Store.apply {D : Type} (store : Store D) : Op D → Store D
  | .Create ns obj => { obj with Namespace := ns } :: store
  | .Update ns obj => { obj with Namespace := ns } :: store.filter (fun o => !atKey ns obj.Name o)
  | .Delete ns name => store.filter (fun o => !atKey ns name o)

/-- The store after a sequence of writes that all succeed. -/
def Store.applyAll {D : Type} (store : Store D) (ops : List (Op D)) : Store D :=
  ops.foldl Store.apply store

/-! ## The worker -/

/-- What the worker does with the key after the reconciliation. -/
inductive QueueAction where
  | AddRateLimited (key : String)
  | Forget (key : String)
  deriving DecidableEq, Repr

/-- The inner function of `processNextConfigMap` for a string key: requeue with
rate limiting when `syncConfigMap` returns an error, forget the key otherwise. -/
def processConfigMapKey {CD SD : Type} [DecidableEq CD] (env : Env) (c : Controller CD SD)
    (key : String) : QueueAction :=
  match (syncConfigMap env c key).ret with
  | some _ => .AddRateLimited key
  | none => .Forget key

/-- The inner function of `processNextSecret` for a string key. -/
def processSecretKey {CD SD : Type} [DecidableEq SD] (env : Env) (c : Controller CD SD)
    (key : String) : QueueAction :=
  match (syncSecret env c key).ret with
  | some _ => .AddRateLimited key
  | none => .Forget key

/-! ## A small cluster for the examples -/

/-- The namespaces `a` (tier=prod), `b` (tier=dev), `c` (tier=prod) and `src`. -/
def Example.namespaces : List v1.Namespace :=
  [ { Name := "a", Labels := some [("tier", "prod")] },
    { Name := "b", Labels := some [("tier", "dev")] },
    { Name := "c", Labels := some [("tier", "prod")] },
    { Name := "src", Labels := none } ]

/-- Sets are iterated in the order of insertion, the clock always reads `t0`,
every character above U+00FF counts as printable. -/
def Example.env : Env :=
  { mapOrder := IterOrder.id, clock := fun _ => "t0", isPrintTable := fun _ => true }

/-- An object `cfg` in namespace `ns` with the given annotations and payload. -/
def Example.object (ns : String) (annotations : GoMap) (data : String) : Resource String :=
  { Name := "cfg", Namespace := ns, UID := "u1", ResourceVersion := "7", GenerateName := "",
    SelfLink := "", CreationTimestamp := some 5, Labels := none, Annotations := annotations,
    Data := data }

/-- The source `src/cfg` with the sync annotation `sel`. -/
def Example.source (sel : String) : Resource String :=
  Example.object "src" (some [( syncAnnotation, sel)]) "payload"

/-- The source `src/cfg` without the sync annotation. -/
def Example.bare : Resource String :=
  Example.object "src" (some []) "payload"

/-- A controller whose two listers show `objects`, whose two trackers hold
`tracked`, whose namespace lister shows the example namespaces, and whose writes
all succeed. -/
def Example.controller (objects tracked : List (Resource String)) :
    Controller String String :=
  { kubeclientset := { ConfigMaps := fun _ => none, Secrets := fun _ => none }
    configMapsLister := ResourceLister.ofStore objects
    deletedConfigMapIndexer := tracked
    secretsLister := ResourceLister.ofStore objects
    deletedSecretIndexer := tracked
    namespacesLister := { items := Example.namespaces, listFault := none } }

/-- The namespaces that a list of writes is addressed to. -/
def targets {D : Type} (ops : List (Op D)) : List String := ops.map Op.ns


/-! ## Well-formed names -/

/-- The names that the API server accepts for a namespaced object, as far as keys
are concerned: the namespace is not empty, and neither the namespace nor the name
has a `/`. -/
def ValidNames (m : ObjectMeta) : Prop :=
  m.Namespace ≠ "" ∧ '/' ∉ m.Namespace.data ∧ '/' ∉ m.Name.data

instance (m : ObjectMeta) : Decidable (ValidNames m) := by
  unfold ValidNames
  infer_instance

/-- The copy of the example source with selector `sel`, as it is stored in
namespace `ns`. -/
def Example.copy (sel ns : String) : Resource String :=
  { createNewConfigMap Example.env "t0" (Example.source sel) with Namespace := ns }

/-- The controller at the start of a second run of the ConfigMap reconciler: as
the first run left it, with a lister that shows the store after the writes of the
first run, all of which succeeded. -/
def afterConfigMapRun {CD SD : Type} (store : Store CD) (r : SyncResult CD SD CD) :
    Controller CD SD :=
  { r.controller with configMapsLister := ResourceLister.ofStore (store.applyAll (calls r.trace)) }

/-- The controller at the start of a second run of the Secret reconciler. -/
def afterSecretRun {CD SD : Type} (store : Store SD) (r : SyncResult CD SD SD) :
    Controller CD SD :=
  { r.controller with secretsLister := ResourceLister.ofStore (store.applyAll (calls r.trace)) }

/-- The example store after the selector of `src/cfg` was changed from `tier=prod`
to the empty selector: the source, and its copies in `a` and `c`. -/
def Example.widenedStore : Store String :=
  [Example.source "", Example.copy "tier=prod" "a", Example.copy "tier=prod" "c"]

/-- The controller that sees `Example.widenedStore` and tracks the snapshot of the
source with its old selector `tier=prod`. -/
def Example.widened : Controller String String :=
  Example.controller Example.widenedStore [Example.source "tier=prod"]

/-- The selector recorded in the provenance annotation of an object: the field
`label` of the decoded value, when the annotation is there and decodes. -/
def recordedSelector {D : Type} (o : Resource D) : Option String :=
  match o.Annotations.get? metadataAnnotation with
  | none => none
  | some value => (json.Unmarshal value).map (fun m => m.index "label")

/-- An object `cfg` in namespace `ns` whose provenance annotation is `value`. -/
def Example.foreign (ns value : String) : Resource String :=
  Example.object ns (some [( metadataAnnotation, value)]) "payload"

/-! ## The event handlers of `NewController` -/

/-- What an event handler leaves behind: the controller with its deletion
trackers, and the keys it has put on the work queue of its kind with
`AddRateLimited`, in order. -/
structure HandlerResult (CD SD : Type) where
  controller : Controller CD SD
  enqueued : List String

/-- The method `enqueueSecret`: the key of the object is put on the queue; when
the key function fails the error is handed to `runtime.HandleError` and nothing
is queued. -/
def enqueueSecret {D : Type} (obj : KeyArg D) : List String :=
  match DeletionHandlingMetaNamespaceKeyFunc obj with
  | .error _ => []
  | .ok key => [key]

/-- The method `enqueueConfigMap`. -/
def enqueueConfigMap {D : Type} (obj : KeyArg D) : List String :=
  match DeletionHandlingMetaNamespaceKeyFunc obj with
  | .error _ => []
  | .ok key => [key]

/-- The `AddFunc` of the Secret informer. -/
def secretAddFunc {CD SD : Type} (c : Controller CD SD) (s : Resource SD) :
    HandlerResult CD SD :=
  match s.Annotations.get? syncAnnotation with
  | some _ => { controller := c, enqueued := enqueueSecret (.object s) }
  | none => { controller := c, enqueued := [] }

/-- The `UpdateFunc` of the Secret informer; `nanno, newHasAnno` and
`oanno, oldHasAnno` are the two-valued reads of the sync annotation. -/
def secretUpdateFunc {CD SD : Type} [DecidableEq SD] (c : Controller CD SD)
    (olds news : Resource SD) : HandlerResult CD SD :=
  let nanno := news.Annotations.index syncAnnotation
  let newHasAnno := (news.Annotations.get? syncAnnotation).isSome
  let oanno := olds.Annotations.index syncAnnotation
  let oldHasAnno := (olds.Annotations.get? syncAnnotation).isSome
  if newHasAnno ∧ (¬ oldHasAnno ∨ ¬ news.Data = olds.Data) then
    { controller := c, enqueued := enqueueSecret (.object news) }
  else if ¬ newHasAnno ∧ oldHasAnno then
    { controller := { c with deletedSecretIndexer := c.deletedSecretIndexer.Add olds }
      enqueued := enqueueSecret (.object news) }
  else if ¬ nanno = oanno then
    { controller := { c with deletedSecretIndexer := c.deletedSecretIndexer.Add olds }
      enqueued := enqueueSecret (.object news) }
  else { controller := c, enqueued := [] }

/-- The `DeleteFunc` of the Secret informer, for an object that is a Secret. -/
def secretDeleteFunc {CD SD : Type} (c : Controller CD SD) (s : Resource SD) :
    HandlerResult CD SD :=
  match s.Annotations.get? syncAnnotation with
  | some _ =>
    { controller := { c with deletedSecretIndexer := c.deletedSecretIndexer.Add s }
      enqueued := enqueueSecret (.object s) }
  | none => { controller := c, enqueued := [] }

/-- The `AddFunc` of the ConfigMap informer. -/
def configMapAddFunc {CD SD : Type} (c : Controller CD SD) (s : Resource CD) :
    HandlerResult CD SD :=
  match s.Annotations.get? syncAnnotation with
  | some _ => { controller := c, enqueued := enqueueConfigMap (.object s) }
  | none => { controller := c, enqueued := [] }

/-- The `UpdateFunc` of the ConfigMap informer. -/
def configMapUpdateFunc {CD SD : Type} [DecidableEq CD] (c : Controller CD SD)
    (olds news : Resource CD) : HandlerResult CD SD :=
  let nanno := news.Annotations.index syncAnnotation
  let newHasAnno := (news.Annotations.get? syncAnnotation).isSome
  let oanno := olds.Annotations.index syncAnnotation
  let oldHasAnno := (olds.Annotations.get? syncAnnotation).isSome
  if newHasAnno ∧ (¬ oldHasAnno ∨ ¬ news.Data = olds.Data) then
    { controller := c, enqueued := enqueueConfigMap (.object news) }
  else if ¬ newHasAnno ∧ oldHasAnno then
    { controller := { c with deletedConfigMapIndexer := c.deletedConfigMapIndexer.Add olds }
      enqueued := [] }
  else if ¬ nanno = oanno then
    { controller := { c with deletedConfigMapIndexer := c.deletedConfigMapIndexer.Add olds }
      enqueued := enqueueConfigMap (.object news) }
  else { controller := c, enqueued := [] }

/-- The `DeleteFunc` of the ConfigMap informer, for an object that is a
ConfigMap. -/
def configMapDeleteFunc {CD SD : Type} (c : Controller CD SD) (s : Resource CD) :
    HandlerResult CD SD :=
  match s.Annotations.get? syncAnnotation with
  | some _ =>
    { controller := { c with deletedConfigMapIndexer := c.deletedConfigMapIndexer.Add s }
      enqueued := enqueueConfigMap (.object s) }
  | none => { controller := c, enqueued := [] }

/-! ## The namespace key reconciler -/

/-- What `syncNamespace` returns and starts: the returned error, and the results
of the two reconcilers that it starts with `go`, each of which runs on its own
over the same caches. -/
structure NamespaceSync (CD SD : Type) where
  ret : Option Err
  secrets : Option (NsResult SD)
  configMaps : Option (NsResult CD)

/-- The method `syncNamespace` of `namespace.go`. -/
def syncNamespace {CD SD : Type} (env : Env) (c : Controller CD SD) (key : String) :
    NamespaceSync CD SD :=
  match SplitMetaNamespaceKey key with
  | .error _ => { ret := none, secrets := none, configMaps := none }
  | .ok (_, name) =>
    match c.namespacesLister.Get name with
    | .error err => { ret := some err, secrets := none, configMaps := none }
    | .ok ns =>
      let nsLabels := ns.Labels
      { ret := none
        secrets := some (syncSecretsToNamespace env c name nsLabels)
        configMaps := some (syncConfigMapsToNamespace env c name nsLabels) }

/-! ## Stores that differ in annotations only -/

/-- The object `o'` is the object `o` with, possibly, other annotations; an
object of the namespace `own` is left as it is. -/
def SameButAnnotations {D : Type} (own : String) (o o' : Resource D) : Prop :=
  o' = { o with Annotations := o'.Annotations } ∧ (o.Namespace = own → o' = o)

/-- The lister `l'` shows the objects of `l`, in the same order and with the same
faults, where the objects outside the namespace `own` may have other
annotations. -/
def ListersDifferInAnnotations {D : Type} (own : String) (l l' : ResourceLister D) : Prop :=
  l'.getFault = l.getFault ∧ l'.listFault = l.listFault ∧
    List.Forall₂ (SameButAnnotations own) l.items l'.items

/-- More objects for the examples. -/
def Example.named (name ns : String) (annotations : GoMap) (data : String) : Resource String :=
  { Example.object ns annotations data with Name := name }

/-- A store in which the target namespace `a` holds an object `cfg` with another
payload than the source and without annotations. -/
def Example.unmarkedStore : Store String :=
  [Example.source "tier=prod", Example.object "a" none "old"]

/-- The store `Example.unmarkedStore`, with a provenance annotation on the object
in `a`. -/
def Example.markedStore : Store String :=
  [Example.source "tier=prod", Example.object "a" (some [( metadataAnnotation, "x")]) "old"]

/-! ## Characters that survive the round trip through `%q` and JSON -/

/-- The characters that `%q` writes in a way that JSON reads back: the quote and
the backslash, the printable characters, the five control characters with a
common escape, and the characters of the basic plane that `%q` writes as
`\uXXXX`. -/
def jsonCompatible (tbl : Char → Bool) (c : Char) : Bool :=
  c = '"' ∨ c = '\\' ∨ strconv.IsPrint tbl c ∨ c.toNat = 8 ∨ c.toNat = 9 ∨ c.toNat = 10 ∨
    c.toNat = 12 ∨ c.toNat = 13 ∨ (0x7F < c.toNat ∧ c.toNat < 0x10000)

/-- A character that stands for itself in a JSON string. -/
def json.plain (c : Char) : Bool :=
  c ≠ '"' ∧ c ≠ '\\' ∧ ¬ c.toNat < 0x20

/-- One member `"key":"value"` of an object. -/
def json.member (tbl : Char → Bool) (key value : List Char) : List Char :=
  '"' :: key ++ '"' :: ':' :: '"' :: value.flatMap (appendEscapedRune tbl) ++ ['"']

/-! ## Lemmas on `strings.Split` -/

theorem splitChars_ne_nil (sep : Char) (l : List Char) : splitChars sep l ≠ [] := by
  cases l with
  | nil => simp [splitChars]
  | cons c cs =>
    unfold splitChars
    split
    · simp
    · split <;> simp

theorem splitChars_length (sep : Char) (l : List Char) :
    (splitChars sep l).length = l.count sep + 1 := by
  induction l with
  | nil => simp [splitChars]
  | cons c cs ih =>
    unfold splitChars
    by_cases h : c = sep
    · subst h
      simp [ih]
    · have hc : (c == sep) = false := by simpa using h
      rw [if_neg h, List.count_cons, hc]
      split
      · rename_i heq
        exact absurd heq (splitChars_ne_nil sep cs)
      · rename_i hd tl heq
        rw [heq] at ih
        simpa using ih

theorem splitChars_of_not_mem (sep : Char) (l : List Char) (h : sep ∉ l) :
    splitChars sep l = [l] := by
  induction l with
  | nil => simp [splitChars]
  | cons c cs ih =>
    have hc : c ≠ sep := fun e => h (by simp [e])
    have hcs : sep ∉ cs := fun e => h (by simp [e])
    unfold splitChars
    rw [if_neg hc, ih hcs]

theorem splitChars_append_sep (sep : Char) (a b : List Char) (h : sep ∉ a) :
    splitChars sep (a ++ sep :: b) = a :: splitChars sep b := by
  induction a with
  | nil => simp [splitChars]
  | cons c cs ih =>
    have hc : c ≠ sep := fun e => h (by simp [e])
    have hcs : sep ∉ cs := fun e => h (by simp [e])
    rw [List.cons_append, splitChars, if_neg hc, ih hcs]

theorem splitChars_cons_inv (sep : Char) (l h : List Char) (t : List (List Char))
    (e : splitChars sep l = h :: t) :
    sep ∉ h ∧ ((t = [] ∧ l = h) ∨ ∃ rest, l = h ++ sep :: rest ∧ splitChars sep rest = t) := by
  induction l generalizing h t with
  | nil =>
    simp [splitChars] at e
    obtain ⟨rfl, rfl⟩ := e
    simp
  | cons c cs ih =>
    unfold splitChars at e
    by_cases hc : c = sep
    · subst hc
      rw [if_pos rfl] at e
      simp only [List.cons.injEq] at e
      obtain ⟨rfl, rfl⟩ := e
      refine ⟨by simp, Or.inr ⟨cs, by simp, rfl⟩⟩
    · rw [if_neg hc] at e
      cases hs : splitChars sep cs with
      | nil => exact absurd hs (splitChars_ne_nil sep cs)
      | cons h0 t0 =>
        rw [hs] at e
        simp only [List.cons.injEq] at e
        obtain ⟨rfl, rfl⟩ := e
        obtain ⟨hn, hrest⟩ := ih h0 t0 hs
        refine ⟨?_, ?_⟩
        · intro hm
          rcases List.mem_cons.1 hm with e1 | e1
          · exact hc e1.symm
          · exact hn e1
        · rcases hrest with ⟨rfl, rfl⟩ | ⟨rest, rfl, hr⟩
          · exact Or.inl ⟨rfl, rfl⟩
          · exact Or.inr ⟨rest, by simp, hr⟩

theorem splitChars_pair_inv (sep : Char) (l a b : List Char)
    (e : splitChars sep l = [a, b]) : l = a ++ sep :: b ∧ sep ∉ a ∧ sep ∉ b := by
  obtain ⟨ha, h⟩ := splitChars_cons_inv sep l a [b] e
  rcases h with ⟨h1, _⟩ | ⟨rest, rfl, hr⟩
  · exact absurd h1 (by simp)
  · obtain ⟨hb, h2⟩ := splitChars_cons_inv sep rest b [] hr
    rcases h2 with ⟨_, rfl⟩ | ⟨r2, _, hr2⟩
    · exact ⟨rfl, ha, hb⟩
    · exact absurd hr2 (splitChars_ne_nil sep r2)

theorem Split_length (s : String) (sep : Char) :
    (strings.Split s sep).length = s.data.count sep + 1 := by
  simp [strings.Split, splitChars_length]

theorem Split_pair_inv (s k v : String) (sep : Char) (e : strings.Split s sep = [k, v]) :
    s = k ++ String.singleton sep ++ v ∧ sep ∉ k.data ∧ sep ∉ v.data := by
  unfold strings.Split at e
  match hs : splitChars sep s.data, e with
  | [a, b], e =>
    simp only [List.map_cons, List.map_nil, List.cons.injEq, and_true] at e
    obtain ⟨rfl, rfl⟩ := e
    obtain ⟨h1, h2, h3⟩ := splitChars_pair_inv sep s.data a b hs
    refine ⟨?_, h2, h3⟩
    apply String.ext
    simp [h1, String.singleton]

theorem Split_pair (k v : String) (sep : Char) (hk : sep ∉ k.data) (hv : sep ∉ v.data) :
    strings.Split (k ++ String.singleton sep ++ v) sep = [k, v] := by
  unfold strings.Split
  have : (k ++ String.singleton sep ++ v).data = k.data ++ sep :: v.data := by
    simp [String.singleton]
  rw [this, splitChars_append_sep sep _ _ hk, splitChars_of_not_mem sep _ hv]
  rfl


theorem mem_namespaceNames (items : List v1.Namespace) (n : String) :
    n ∈ StringSet.ofList (items.map (fun obj => obj.Name)) ↔ ∃ x ∈ items, x.Name = n := by
  simp [StringSet.ofList]

theorem namespacesForLabel_empty {CD SD : Type} (c : Controller CD SD) :
    namespacesForLabel c "" = namespaceNames (c.namespacesLister.list labels.Everything) := by
  simp [namespacesForLabel]

theorem namespacesForLabel_pair {CD SD : Type} (c : Controller CD SD) (label k v : String)
    (h : strings.Split label '=' = [k, v]) :
    namespacesForLabel c label =
      namespaceNames (c.namespacesLister.list (labels.SelectorFromSet k v)) := by
  have hne : label ≠ "" := by
    rintro rfl
    simp [strings.Split, splitChars] at h
  simp [namespacesForLabel, hne, h]

theorem namespacesForLabel_invalid {CD SD : Type} (c : Controller CD SD) (label : String)
    (hne : label ≠ "") (h : (strings.Split label '=').length ≠ 2) :
    namespacesForLabel c label = .error (.notValidLabel label) := by
  unfold namespacesForLabel
  rw [if_pos hne]
  split
  · rename_i k v heq
    rw [heq] at h
    exact absurd rfl h
  · rfl

theorem namespaceNames_ne_notValid (listed : NamespaceLister) (sel : Selector) (l : String) :
    namespaceNames (listed.list sel) ≠ .error (.notValidLabel l) := by
  unfold namespaceNames NamespaceLister.list
  cases listed.listFault <;> simp

theorem Split_eq_pair_of_length (s : String) (sep : Char)
    (h : (strings.Split s sep).length = 2) : ∃ k v, strings.Split s sep = [k, v] := by
  match hs : strings.Split s sep, h with
  | [k, v], _ => exact ⟨k, v, rfl⟩

/-- The selector of `labels.SelectorFromSet` asks for the pair only when
`NewRequirement` accepts key and value; otherwise it matches every label set. -/
theorem Matches_SelectorFromSet (k v : String) (lbls : GoMap) :
    (labels.SelectorFromSet k v).Matches lbls = true ↔
      (validation.IsQualifiedName k = true ∧ validation.IsValidLabelValue v = true →
        lbls.get? k = some v) := by
  unfold labels.SelectorFromSet labels.NewRequirement
  by_cases h : validation.IsQualifiedName k = true ∧ validation.IsValidLabelValue v = true
  · simp [h, Selector.Matches]
  · simp [h, Selector.Matches]

/-- The cases of `namespacesForLabel`: parse error, all namespaces, and, for one
pair, the namespaces carrying the pair when key and value are valid for a label,
and all namespaces when they are not. -/
theorem namespacesForLabel_cases {CD SD : Type} (c : Controller CD SD)
    (label : String) :
    ((∃ l, namespacesForLabel c label = .error (.notValidLabel l)) ↔
      (label ≠ "" ∧ label.data.count '=' ≠ 1)) ∧
    (c.namespacesLister.listFault = none →
      (label = "" →
        ∃ s, namespacesForLabel c label = .ok s ∧
          ∀ n, n ∈ s ↔ ∃ x ∈ c.namespacesLister.items, x.Name = n) ∧
      (∀ k v, label = k ++ "=" ++ v → label.data.count '=' = 1 →
        ∃ s, namespacesForLabel c label = .ok s ∧
          ∀ n, n ∈ s ↔
            ∃ x ∈ c.namespacesLister.items, x.Name = n ∧
              (validation.IsQualifiedName k = true ∧ validation.IsValidLabelValue v = true →
                x.Labels.get? k = some v))) := by
  refine ⟨⟨?_, ?_⟩, ?_⟩
  · rintro ⟨l, hl⟩
    by_cases hne : label = ""
    · subst hne
      rw [namespacesForLabel_empty] at hl
      exact absurd hl (namespaceNames_ne_notValid _ _ _)
    · refine ⟨hne, fun hc => ?_⟩
      have hlen : (strings.Split label '=').length = 2 := by rw [Split_length, hc]
      obtain ⟨k, v, hkv⟩ := Split_eq_pair_of_length _ _ hlen
      rw [namespacesForLabel_pair c label k v hkv] at hl
      exact absurd hl (namespaceNames_ne_notValid _ _ _)
  · rintro ⟨hne, hc⟩
    refine ⟨label, namespacesForLabel_invalid c label hne ?_⟩
    rw [Split_length]
    omega
  · intro hf
    refine ⟨?_, ?_⟩
    · rintro rfl
      refine ⟨_, ?_, fun n => mem_namespaceNames c.namespacesLister.items n⟩
      rw [namespacesForLabel_empty]
      simp [namespaceNames, NamespaceLister.list, hf, Selector.Matches, labels.Everything]
    · intro k v hkv hc
      have hd : label.data = k.data ++ '=' :: v.data := by
        rw [hkv]
        simp
      rw [hd, List.count_append, List.count_cons_self] at hc
      have hk : '=' ∉ k.data := fun hm => by
        have := List.count_pos_iff.2 hm
        omega
      have hv : '=' ∉ v.data := fun hm => by
        have := List.count_pos_iff.2 hm
        omega
      have hs : strings.Split label '=' = [k, v] := by
        rw [hkv]
        exact Split_pair k v '=' hk hv
      refine ⟨StringSet.ofList ((c.namespacesLister.items.filter
        (fun x => (labels.SelectorFromSet k v).Matches x.Labels)).map (fun obj => obj.Name)),
        ?_, fun n => ?_⟩
      · rw [namespacesForLabel_pair c label k v hs]
        simp only [namespaceNames, NamespaceLister.list, hf]
      · rw [mem_namespaceNames]
        simp only [List.mem_filter, Matches_SelectorFromSet]
        constructor
        · rintro ⟨x, ⟨hx, hm⟩, hn⟩
          exact ⟨x, hx, hn, hm⟩
        · rintro ⟨x, hx, hn, hm⟩
          exact ⟨x, ⟨hx, hm⟩, hn⟩

/-- C1 fails on the code for a pair that is not valid for a label.
`namespacesForLabel` gives its error `not valid label` only by the number of
pieces; a selector with one `=` goes to `labels.SelectorFromSet`, which drops a
requirement that `NewRequirement` rejects and returns the selector without
requirements.  In the example cluster the selectors `tier=pr od` (a blank in the
value), `=prod` (an empty key) and `tier=dev!` are not read as the equality of a
label: they list every namespace, as the empty selector does, although no
namespace has such a label.  The namespace reconciler, which compares
`nsLabels[l[0]] == l[1]`, does not take `a` for a target of `tier=pr od`.  The
selector `tier=prod` lists `a` and `c`, `tier=dev` lists `b`. -/
theorem namespacesForLabel_invalid_pair_lists_every_namespace :
    namespacesForLabel (Example.controller [] []) "tier=pr od" = .ok ["a", "b", "c", "src"] ∧
    namespacesForLabel (Example.controller [] []) "=prod" = .ok ["a", "b", "c", "src"] ∧
    namespacesForLabel (Example.controller [] []) "tier=dev!" = .ok ["a", "b", "c", "src"] ∧
    namespacesForLabel (Example.controller [] []) "" = .ok ["a", "b", "c", "src"] ∧
    (∀ x ∈ Example.namespaces,
      x.Labels.get? "tier" ≠ some "pr od" ∧ x.Labels.get? "" ≠ some "prod" ∧
        x.Labels.get? "tier" ≠ some "dev!") ∧
    labelCondition "tier=pr od" (strings.Split "tier=pr od" '=') (some [("tier", "prod")]) =
      some false ∧
    namespacesForLabel (Example.controller [] []) "tier=prod" = .ok ["a", "c"] ∧
    namespacesForLabel (Example.controller [] []) "tier=dev" = .ok ["b"] := by
  refine ⟨rfl, rfl, rfl, rfl, by decide, by decide, rfl, rfl⟩

/-! ## Lemmas on traces -/

theorem calls_append {D : Type} (a b : List (Event D)) :
    calls (a ++ b) = calls a ++ calls b := by
  induction a with
  | nil => rfl
  | cons e rest ih => cases e <;> simp [calls, ih]

theorem calls_issue {D : Type} (client : Op D → Option Err) (op : Op D) :
    calls (issue client op) = [op] := by
  unfold issue
  cases client op <;> rfl

theorem calls_logError {D : Type} (e : Err) : calls [(Event.logError e : Event D)] = [] := rfl

theorem calls_flatMap {α D : Type} (l : List α) (f : α → List (Event D)) :
    calls (l.flatMap f) = l.flatMap (fun x => calls (f x)) := by
  induction l with
  | nil => rfl
  | cons x xs ih => simp [List.flatMap_cons, calls_append, ih]

theorem mem_UnsortedList (s : StringSet) (order : IterOrder) (n : String) :
    n ∈ s.UnsortedList order ↔ n ∈ s :=
  (order.perm s).mem_iff

/-! ## Lemmas on keys -/

/-- The names that the API server accepts for a namespaced object: a namespace
that is not empty, and no `/` in the namespace or in the name. -/
theorem SplitMetaNamespaceKey_of_valid {D : Type} (o : Resource D) (key : String)
    (hk : DeletionHandlingMetaNamespaceKeyFunc (.object o) = .ok key)
    (hne : o.Namespace ≠ "") (hns : '/' ∉ o.Namespace.data) (hn : '/' ∉ o.Name.data) :
    SplitMetaNamespaceKey key = .ok (o.Namespace, o.Name) := by
  have hlen : o.Namespace.length > 0 := by
    rcases h : o.Namespace with ⟨l⟩
    cases l with
    | nil => exact absurd h hne
    | cons a b => simp [String.length]
  simp only [DeletionHandlingMetaNamespaceKeyFunc, MetaNamespaceKeyFunc, hlen, if_true] at hk
  injection hk with hk
  subst hk
  unfold SplitMetaNamespaceKey
  have : strings.Split (o.Namespace ++ "/" ++ o.Name) '/' = [o.Namespace, o.Name] :=
    Split_pair o.Namespace o.Name '/' hns hn
  rw [this]

theorem ResourceLister.Get_ok {D : Type} (l : ResourceLister D) (ns name : String)
    (o : Resource D) (h : l.Get ns name = .ok o) : o.Namespace = ns ∧ o.Name = name := by
  unfold ResourceLister.Get at h
  split at h
  · cases h
  · split at h
    · rename_i o' hf
      injection h with h
      subst h
      have := List.find?_some hf
      simpa [atKey] using this
    · cases h

/-! ## The shape of the key reconcilers -/

theorem Indexer.Delete_plainString {D : Type} (ix : Indexer D) (key : String) :
    (ix.Delete (.plainString key)).1 = ix := rfl

theorem cleanupConfigMap_fst {CD SD : Type} (env : Env) (c : Controller CD SD) (key : String) :
    (cleanupConfigMap env c key).1 = c := by
  unfold cleanupConfigMap
  cases c.deletedConfigMapIndexer.GetByKey key <;> rfl

theorem cleanupConfigMap_snd {CD SD : Type} (env : Env) (c : Controller CD SD) (key : String) :
    (cleanupConfigMap env c key).2 =
      match c.deletedConfigMapIndexer.GetByKey key with
      | some s => deleteSyncedConfigMaps env c s
      | none => [] := by
  unfold cleanupConfigMap
  cases c.deletedConfigMapIndexer.GetByKey key <;> rfl

theorem syncConfigMap_controller {CD SD : Type} [DecidableEq CD] (env : Env)
    (c : Controller CD SD) (key : String) : (syncConfigMap env c key).controller = c := by
  unfold syncConfigMap
  have h := cleanupConfigMap_fst env c key
  rcases hc : cleanupConfigMap env c key with ⟨c1, t⟩
  rw [hc] at h
  simp only at h
  subst h
  simp only
  split
  · rfl
  · split
    · split <;> rfl
    · split <;> rfl

theorem syncConfigMap_badKey {CD SD : Type} [DecidableEq CD] (env : Env)
    (c : Controller CD SD) (key : String) (e : Err) (hk : SplitMetaNamespaceKey key = .error e) :
    syncConfigMap env c key =
      { ret := none
        trace := (cleanupConfigMap env c key).2 ++
          [.logError (.other ("invalid resource key: " ++ key))]
        controller := c } := by
  unfold syncConfigMap
  have h := cleanupConfigMap_fst env c key
  rcases hc : cleanupConfigMap env c key with ⟨c1, t⟩
  rw [hc] at h
  simp only at h
  subst h
  simp only [hk]

theorem syncConfigMap_getError {CD SD : Type} [DecidableEq CD] (env : Env)
    (c : Controller CD SD) (key ns0 name : String) (e : Err)
    (hk : SplitMetaNamespaceKey key = .ok (ns0, name))
    (hg : c.configMapsLister.Get ns0 name = .error e) :
    syncConfigMap env c key =
      { ret := if errors.IsNotFound e then none else some e
        trace := (cleanupConfigMap env c key).2
        controller := c } := by
  unfold syncConfigMap
  have h := cleanupConfigMap_fst env c key
  rcases hc : cleanupConfigMap env c key with ⟨c1, t⟩
  rw [hc] at h
  simp only at h
  subst h
  simp only [hk, hg]
  split <;> rfl

theorem syncConfigMap_labelError {CD SD : Type} [DecidableEq CD] (env : Env)
    (c : Controller CD SD) (key ns0 name : String) (src : Resource CD) (e : Err)
    (hk : SplitMetaNamespaceKey key = .ok (ns0, name))
    (hg : c.configMapsLister.Get ns0 name = .ok src)
    (hl : namespacesForLabel c (src.Annotations.index syncAnnotation) = .error e) :
    syncConfigMap env c key =
      { ret := none, trace := (cleanupConfigMap env c key).2, controller := c } := by
  unfold syncConfigMap
  have h := cleanupConfigMap_fst env c key
  rcases hc : cleanupConfigMap env c key with ⟨c1, t⟩
  rw [hc] at h
  simp only at h
  subst h
  simp only [hk, hg, hl]

theorem syncConfigMap_converge {CD SD : Type} [DecidableEq CD] (env : Env)
    (c : Controller CD SD) (key ns0 name : String) (src : Resource CD) (nss : StringSet)
    (hk : SplitMetaNamespaceKey key = .ok (ns0, name))
    (hg : c.configMapsLister.Get ns0 name = .ok src)
    (hl : namespacesForLabel c (src.Annotations.index syncAnnotation) = .ok nss) :
    syncConfigMap env c key =
      { ret := none
        trace := (cleanupConfigMap env c key).2 ++
          (nss.UnsortedList env.mapOrder).flatMap
            (convergeConfigMap c src (createNewConfigMap env (env.clock 0) src))
        controller := c } := by
  unfold syncConfigMap
  have h := cleanupConfigMap_fst env c key
  rcases hc : cleanupConfigMap env c key with ⟨c1, t⟩
  rw [hc] at h
  simp only at h
  subst h
  simp only [hk, hg, hl]

theorem cleanupSecret_fst {CD SD : Type} (env : Env) (c : Controller CD SD) (key : String) :
    (cleanupSecret env c key).1 = c := by
  unfold cleanupSecret
  cases c.deletedSecretIndexer.GetByKey key <;> rfl

theorem cleanupSecret_snd_swap {CD SD : Type} (env : Env) (c : Controller CD SD)
    (key : String) : (cleanupSecret env c key).2 = (cleanupConfigMap env c.swap key).2 := by
  rw [cleanupConfigMap_snd]
  unfold cleanupSecret
  simp only [Controller.swap]
  cases c.deletedSecretIndexer.GetByKey key <;> rfl

theorem Controller.swap_swap {CD SD : Type} (c : Controller CD SD) : c.swap.swap = c := rfl

/-- The Secret reconciler is the ConfigMap reconciler of the controller with the
two sides exchanged. -/
theorem syncSecret_eq_swap {CD SD : Type} [DecidableEq SD] (env : Env)
    (c : Controller CD SD) (key : String) :
    syncSecret env c key =
      { ret := (syncConfigMap env c.swap key).ret
        trace := (syncConfigMap env c.swap key).trace
        controller := (syncConfigMap env c.swap key).controller.swap } := by
  rw [syncConfigMap_controller, Controller.swap_swap]
  have h1 := cleanupSecret_fst env c key
  have h2 := cleanupSecret_snd_swap env c key
  unfold syncSecret
  rcases hc : cleanupSecret env c key with ⟨c1, t⟩
  rw [hc] at h1 h2
  simp only at h1 h2
  subst h1
  subst h2
  simp only
  cases hk : SplitMetaNamespaceKey key with
  | error e => rw [syncConfigMap_badKey env c1.swap key e hk]
  | ok p =>
    obtain ⟨ns0, name⟩ := p
    cases hg : c1.secretsLister.Get ns0 name with
    | error e =>
      rw [syncConfigMap_getError env c1.swap key ns0 name e hk hg]
      simp only [hg]
      by_cases hnf : errors.IsNotFound e = true <;> simp [hnf]
    | ok src =>
      cases hl : namespacesForLabel c1 (src.Annotations.index syncAnnotation) with
      | error e =>
        rw [syncConfigMap_labelError env c1.swap key ns0 name src e hk hg hl]
        simp only [hg, hl]
      | ok nss =>
        rw [syncConfigMap_converge env c1.swap key ns0 name src nss hk hg hl]
        simp only [hg, hl]
        rfl

/-! ## What the resolver returns -/

theorem count_eq_one_of_pair (k v : String) (h : (k ++ "=" ++ v).data.count '=' = 1) :
    '=' ∉ k.data ∧ '=' ∉ v.data := by
  have hd : (k ++ "=" ++ v).data = k.data ++ '=' :: v.data := by simp
  rw [hd, List.count_append, List.count_cons_self] at h
  refine ⟨fun hm => ?_, fun hm => ?_⟩
  · have := List.count_pos_iff.2 hm
    omega
  · have := List.count_pos_iff.2 hm
    omega

theorem count_pair (k v : String) (hk : '=' ∉ k.data) (hv : '=' ∉ v.data) :
    (k ++ "=" ++ v).data.count '=' = 1 := by
  have hd : (k ++ "=" ++ v).data = k.data ++ '=' :: v.data := by simp
  rw [hd, List.count_append, List.count_cons_self, List.count_eq_zero_of_not_mem hk,
    List.count_eq_zero_of_not_mem hv]

/-- A selector that the resolver accepts is empty or has exactly one `=`, and the
listing did not fail. -/
theorem namespacesForLabel_ok_inv {CD SD : Type} (c : Controller CD SD) (sel : String)
    (s : StringSet) (h : namespacesForLabel c sel = .ok s) :
    c.namespacesLister.listFault = none ∧ (sel = "" ∨ sel.data.count '=' = 1) := by
  have hf : c.namespacesLister.listFault = none := by
    unfold namespacesForLabel namespaceNames NamespaceLister.list at h
    cases hc : c.namespacesLister.listFault with
    | none => rfl
    | some msg =>
      rw [hc] at h
      split at h
      · split at h <;> simp at h
      · simp at h
  refine ⟨hf, ?_⟩
  by_cases hne : sel = ""
  · exact Or.inl hne
  · right
    by_contra hc
    have := (namespacesForLabel_cases c sel).1.2 ⟨hne, hc⟩
    obtain ⟨l, hl⟩ := this
    rw [hl] at h
    cases h

/-- The members of the set that the resolver returns. -/
theorem mem_namespacesForLabel {CD SD : Type} (c : Controller CD SD) (sel : String)
    (s : StringSet) (h : namespacesForLabel c sel = .ok s) (n : String) :
    n ∈ s ↔ ∃ x ∈ c.namespacesLister.items, x.Name = n ∧
      (sel = "" ∨ ∃ k v, sel = k ++ "=" ++ v ∧
        (validation.IsQualifiedName k = true ∧ validation.IsValidLabelValue v = true →
          x.Labels.get? k = some v)) := by
  obtain ⟨hf, hwf⟩ := namespacesForLabel_ok_inv c sel s h
  have hC := (namespacesForLabel_cases c sel).2 hf
  by_cases hne : sel = ""
  · obtain ⟨s', hs', hmem⟩ := hC.1 hne
    rw [hs'] at h
    injection h with h
    subst h
    rw [hmem]
    constructor
    · rintro ⟨x, hx, hn⟩
      exact ⟨x, hx, hn, Or.inl hne⟩
    · rintro ⟨x, hx, hn, _⟩
      exact ⟨x, hx, hn⟩
  · have hc : sel.data.count '=' = 1 := hwf.resolve_left hne
    have hlen : (strings.Split sel '=').length = 2 := by rw [Split_length, hc]
    obtain ⟨k, v, hkv⟩ := Split_eq_pair_of_length _ _ hlen
    obtain ⟨hsel, hk, hv⟩ := Split_pair_inv sel k v '=' hkv
    have hsel' : sel = k ++ "=" ++ v := hsel
    obtain ⟨s', hs', hmem⟩ := hC.2 k v hsel' hc
    rw [hs'] at h
    injection h with h
    subst h
    rw [hmem]
    constructor
    · rintro ⟨x, hx, hn, hl⟩
      exact ⟨x, hx, hn, Or.inr ⟨k, v, hsel', hl⟩⟩
    · rintro ⟨x, hx, hn, hl⟩
      rcases hl with hl | ⟨k', v', hsel2, hl⟩
      · exact absurd hl hne
      · have hc' := hc
        rw [hsel2] at hc'
        obtain ⟨hk', hv'⟩ := count_eq_one_of_pair k' v' hc'
        have h1 : strings.Split sel '=' = [k', v'] := by
          rw [hsel2]
          exact Split_pair k' v' '=' hk' hv'
        rw [hkv] at h1
        simp only [List.cons.injEq, and_true] at h1
        obtain ⟨rfl, rfl⟩ := h1
        exact ⟨x, hx, hn, hl⟩

/-- A well-formed selector is resolved when the listing does not fail. -/
theorem namespacesForLabel_ok_of_wellFormed {CD SD : Type} (c : Controller CD SD)
    (sel : String) (hf : c.namespacesLister.listFault = none)
    (hwf : sel = "" ∨ sel.data.count '=' = 1) : ∃ s, namespacesForLabel c sel = .ok s := by
  have hC := (namespacesForLabel_cases c sel).2 hf
  by_cases hne : sel = ""
  · obtain ⟨s, hs, _⟩ := hC.1 hne
    exact ⟨s, hs⟩
  · have hc : sel.data.count '=' = 1 := hwf.resolve_left hne
    have hlen : (strings.Split sel '=').length = 2 := by rw [Split_length, hc]
    obtain ⟨k, v, hkv⟩ := Split_eq_pair_of_length _ _ hlen
    obtain ⟨hsel, _, _⟩ := Split_pair_inv sel k v '=' hkv
    obtain ⟨s, hs, _⟩ := hC.2 k v hsel hc
    exact ⟨s, hs⟩

theorem GoMap.index_of_get? (m : GoMap) (k v : String) (h : m.get? k = some v) :
    m.index k = v := by
  simp [GoMap.index, h]

/-! ## The writes of the two passes -/

theorem mem_calls_deleteSyncedConfigMaps {CD SD : Type} (env : Env) (c : Controller CD SD)
    (s : Resource CD) (op : Op CD) :
    op ∈ calls (deleteSyncedConfigMaps env c s) ↔
      ∃ nss ns, namespacesForLabel c (s.Annotations.index syncAnnotation) = .ok nss ∧
        ns ∈ nss ∧ ns ≠ s.Namespace ∧ op = .Delete ns s.Name := by
  unfold deleteSyncedConfigMaps
  cases h : namespacesForLabel c (s.Annotations.index syncAnnotation) with
  | error e => simp [calls]
  | ok nss =>
    simp only [calls_flatMap, List.mem_flatMap, mem_UnsortedList]
    constructor
    · rintro ⟨ns, hns, hop⟩
      by_cases hself : ns = s.Namespace
      · simp [hself, calls] at hop
      · rw [if_neg hself, calls_issue] at hop
        exact ⟨nss, ns, rfl, hns, hself, by simpa using hop⟩
    · rintro ⟨nss', ns, he, hns, hself, hop⟩
      injection he with he
      subst he
      refine ⟨ns, hns, ?_⟩
      rw [if_neg hself, calls_issue]
      simp [hop]

theorem calls_convergeConfigMap {CD SD : Type} [DecidableEq CD] (c : Controller CD SD)
    (src cand : Resource CD) (ns : String) :
    calls (convergeConfigMap c src cand ns) =
      if ns = src.Namespace then []
      else
        match c.configMapsLister.Get ns cand.Name with
        | .error e => if errors.IsNotFound e then [.Create ns cand] else []
        | .ok target => if target.Data = cand.Data then [] else [.Update ns cand] := by
  unfold convergeConfigMap
  by_cases hself : ns = src.Namespace
  · simp [hself, calls]
  · simp only [if_neg hself]
    cases c.configMapsLister.Get ns cand.Name with
    | error e =>
      simp only
      split
      · exact calls_issue _ _
      · rfl
    | ok target =>
      simp only
      split
      · rfl
      · exact calls_issue _ _

theorem createNewConfigMap_Name {D : Type} (env : Env) (now : String) (src : Resource D) :
    (createNewConfigMap env now src).Name = src.Name := rfl

theorem createNewConfigMap_Data {D : Type} (env : Env) (now : String) (src : Resource D) :
    (createNewConfigMap env now src).Data = src.Data := rfl

theorem createNewSecret_eq {D : Type} (env : Env) (now : String) (src : Resource D) :
    createNewSecret env now src = createNewConfigMap env now src := rfl

/-! ## Coverage -/

theorem ofStore_Get_notFound {D : Type} (store : Store D) (ns name : String)
    (h : ∀ o ∈ store, o.Name = name → o.Namespace ≠ ns) :
    (ResourceLister.ofStore store).Get ns name = .error .notFound := by
  unfold ResourceLister.Get ResourceLister.ofStore
  simp only
  have : store.find? (atKey ns name) = none := by
    rw [List.find?_eq_none]
    intro o ho
    simp only [atKey, decide_eq_true_eq, not_and]
    intro h1 h2
    exact h o ho h2 h1
  rw [this]

theorem not_create_mem_cleanupConfigMap {CD SD : Type} (env : Env) (c : Controller CD SD)
    (key ns : String) (obj : Resource CD) :
    Op.Create ns obj ∉ calls (cleanupConfigMap env c key).2 ∧
      Op.Update ns obj ∉ calls (cleanupConfigMap env c key).2 := by
  rw [cleanupConfigMap_snd]
  cases c.deletedConfigMapIndexer.GetByKey key with
  | none => simp [calls]
  | some s =>
    simp only [mem_calls_deleteSyncedConfigMaps]
    constructor <;> rintro ⟨_, _, _, _, _, h⟩ <;> cases h

/-- Coverage for ConfigMaps: the creations of one reconciliation of a live,
well-formed source that has no namesake outside its namespace.  The namespace has
to carry the pair only when key and value are valid for a label. -/
theorem mem_create_syncConfigMap {CD SD : Type} [DecidableEq CD] (env : Env)
    (c : Controller CD SD) (store : Store CD) (source : Resource CD) (key sel : String)
    (hkey : DeletionHandlingMetaNamespaceKeyFunc (.object source) = .ok key)
    (hvalid : ValidNames source.toObjectMeta)
    (hstore : c.configMapsLister = ResourceLister.ofStore store)
    (hlive : c.configMapsLister.Get source.Namespace source.Name = .ok source)
    (halone : ∀ o ∈ store, o.Name = source.Name → o.Namespace = source.Namespace)
    (hanno : source.Annotations.get? syncAnnotation = some sel)
    (hwf : sel = "" ∨ sel.data.count '=' = 1)
    (hlist : c.namespacesLister.listFault = none)
    (ns : String) (obj : Resource CD) :
    Op.Create ns obj ∈ calls (syncConfigMap env c key).trace ↔
      (obj = createNewConfigMap env (env.clock 0) source ∧ ns ≠ source.Namespace ∧
        ∃ x ∈ c.namespacesLister.items, x.Name = ns ∧
          (sel = "" ∨ ∃ k v, sel = k ++ "=" ++ v ∧
            (validation.IsQualifiedName k = true ∧ validation.IsValidLabelValue v = true →
              x.Labels.get? k = some v))) := by
  have hk := SplitMetaNamespaceKey_of_valid source key hkey hvalid.1 hvalid.2.1 hvalid.2.2
  have hidx := GoMap.index_of_get? _ _ _ hanno
  obtain ⟨nss, hnss⟩ := namespacesForLabel_ok_of_wellFormed c sel hlist hwf
  rw [← hidx] at hnss
  rw [syncConfigMap_converge env c key _ _ source nss hk hlive hnss]
  simp only [calls_append, List.mem_append, calls_flatMap, List.mem_flatMap, mem_UnsortedList]
  have hmem := mem_namespacesForLabel c _ nss hnss
  rw [hidx] at hmem
  constructor
  · rintro (h | ⟨n, hn, hop⟩)
    · exact absurd h (not_create_mem_cleanupConfigMap env c key ns obj).1
    · rw [calls_convergeConfigMap] at hop
      by_cases hself : n = source.Namespace
      · simp [hself] at hop
      · rw [if_neg hself, createNewConfigMap_Name, hstore,
          ofStore_Get_notFound store n source.Name
            (fun o ho hname hns => hself (hns.symm.trans (halone o ho hname)))] at hop
        simp only [errors.IsNotFound, if_true, List.mem_singleton, Op.Create.injEq] at hop
        obtain ⟨rfl, rfl⟩ := hop
        exact ⟨rfl, hself, (hmem ns).1 hn⟩
  · rintro ⟨rfl, hself, hx⟩
    right
    refine ⟨ns, (hmem ns).2 hx, ?_⟩
    rw [calls_convergeConfigMap, if_neg hself, createNewConfigMap_Name, hstore,
      ofStore_Get_notFound store ns source.Name
        (fun o ho hname hns => hself (hns.symm.trans (halone o ho hname)))]
    simp [errors.IsNotFound]

/-- Coverage for Secrets. -/
theorem mem_create_syncSecret {CD SD : Type} [DecidableEq SD] (env : Env)
    (c : Controller CD SD) (store : Store SD) (source : Resource SD) (key sel : String)
    (hkey : DeletionHandlingMetaNamespaceKeyFunc (.object source) = .ok key)
    (hvalid : ValidNames source.toObjectMeta)
    (hstore : c.secretsLister = ResourceLister.ofStore store)
    (hlive : c.secretsLister.Get source.Namespace source.Name = .ok source)
    (halone : ∀ o ∈ store, o.Name = source.Name → o.Namespace = source.Namespace)
    (hanno : source.Annotations.get? syncAnnotation = some sel)
    (hwf : sel = "" ∨ sel.data.count '=' = 1)
    (hlist : c.namespacesLister.listFault = none)
    (ns : String) (obj : Resource SD) :
    Op.Create ns obj ∈ calls (syncSecret env c key).trace ↔
      (obj = createNewSecret env (env.clock 0) source ∧ ns ≠ source.Namespace ∧
        ∃ x ∈ c.namespacesLister.items, x.Name = ns ∧
          (sel = "" ∨ ∃ k v, sel = k ++ "=" ++ v ∧
            (validation.IsQualifiedName k = true ∧ validation.IsValidLabelValue v = true →
              x.Labels.get? k = some v))) := by
  rw [syncSecret_eq_swap]
  exact mem_create_syncConfigMap env c.swap store source key sel hkey hvalid hstore hlive
    halone hanno hwf hlist ns obj

/-- C2 fails on the code for a selector whose pair is not valid for a label: the
same defect as in C1, reached through `syncConfigMap` and `syncSecret`.  The source
`src/cfg` with the sync annotation `tier=pr od` is live and well formed in the
sense of the claim (one `=`), no namesake exists, and no namespace has the label
`tier` with the value `pr od`; the reconciliation creates the copy in `a`, `b` and
`c`, every namespace but the source's own, where the claim allows none.  The
namespace reconciler of `a` creates nothing for the same source.  With the
selector `tier=prod` the copies are created in `a` and `c` only, as the claim
says. -/
theorem sync_creates_everywhere_for_invalid_pair :
    targets (calls (syncConfigMap Example.env
      (Example.controller [Example.source "tier=pr od"] []) "src/cfg").trace) =
      ["a", "b", "c"] ∧
    targets (calls (syncSecret Example.env
      (Example.controller [Example.source "tier=pr od"] []) "src/cfg").trace) =
      ["a", "b", "c"] ∧
    calls (syncConfigMap Example.env
      (Example.controller [Example.source "tier=pr od"] []) "src/cfg").trace =
      [.Create "a" (createNewConfigMap Example.env "t0" (Example.source "tier=pr od")),
        .Create "b" (createNewConfigMap Example.env "t0" (Example.source "tier=pr od")),
        .Create "c" (createNewConfigMap Example.env "t0" (Example.source "tier=pr od"))] ∧
    (∀ x ∈ (Example.controller [Example.source "tier=pr od"] []).namespacesLister.items,
      x.Labels.get? "tier" ≠ some "pr od") ∧
    syncConfigMapsToNamespace Example.env
      (Example.controller [Example.source "tier=pr od"] []) "a" (some [("tier", "prod")]) =
      { trace := [], panicked := false } ∧
    targets (calls (syncConfigMap Example.env
      (Example.controller [Example.source "tier=prod"] []) "src/cfg").trace) = ["a", "c"] ∧
    targets (calls (syncSecret Example.env
      (Example.controller [Example.source "tier=prod"] []) "src/cfg").trace) = ["a", "c"] := by
  refine ⟨by decide, by decide, by decide, by decide, by decide, by decide, by decide⟩

/-! ## Self-exclusion -/

theorem syncSecretsToNamespace_eq_swap {CD SD : Type} (env : Env) (c : Controller CD SD)
    (ns : String) (nsLabels : GoMap) :
    syncSecretsToNamespace env c ns nsLabels = syncConfigMapsToNamespace env c.swap ns nsLabels :=
  rfl

theorem deleteDeprecatedSecretsFromNs_eq_swap {CD SD : Type} (c : Controller CD SD)
    (ns : String) (nsLabels : GoMap) :
    deleteDeprecatedSecretsFromNs c ns nsLabels = deleteDeprecatedConfigMapsFromNs c.swap ns nsLabels :=
  rfl

/-- Where a write of `syncConfigMap` comes from: the cleanup pass, or the converge
loop at one resolved namespace. -/
theorem mem_calls_syncConfigMap {CD SD : Type} [DecidableEq CD] (env : Env)
    (c : Controller CD SD) (key : String) (op : Op CD)
    (h : op ∈ calls (syncConfigMap env c key).trace) :
    op ∈ calls (cleanupConfigMap env c key).2 ∨
      ∃ ns0 name src nss n, SplitMetaNamespaceKey key = .ok (ns0, name) ∧
        c.configMapsLister.Get ns0 name = .ok src ∧
        namespacesForLabel c (src.Annotations.index syncAnnotation) = .ok nss ∧ n ∈ nss ∧
        op ∈ calls (convergeConfigMap c src (createNewConfigMap env (env.clock 0) src) n) := by
  cases hk : SplitMetaNamespaceKey key with
  | error e =>
    rw [syncConfigMap_badKey env c key e hk] at h
    simp only [calls_append, calls_logError, List.append_nil] at h
    exact Or.inl h
  | ok p =>
    obtain ⟨ns0, name⟩ := p
    cases hg : c.configMapsLister.Get ns0 name with
    | error e =>
      rw [syncConfigMap_getError env c key ns0 name e hk hg] at h
      exact Or.inl h
    | ok src =>
      cases hl : namespacesForLabel c (src.Annotations.index syncAnnotation) with
      | error e =>
        rw [syncConfigMap_labelError env c key ns0 name src e hk hg hl] at h
        exact Or.inl h
      | ok nss =>
        rw [syncConfigMap_converge env c key ns0 name src nss hk hg hl] at h
        simp only [calls_append, List.mem_append, calls_flatMap, List.mem_flatMap,
          mem_UnsortedList] at h
        rcases h with h | ⟨n, hn, hop⟩
        · exact Or.inl h
        · exact Or.inr ⟨ns0, name, src, nss, n, rfl, hg, hl, hn, hop⟩

theorem mem_calls_convergeConfigMap {CD SD : Type} [DecidableEq CD] (c : Controller CD SD)
    (src cand : Resource CD) (n : String) (op : Op CD)
    (h : op ∈ calls (convergeConfigMap c src cand n)) :
    n ≠ src.Namespace ∧ (op = .Create n cand ∨ op = .Update n cand) := by
  rw [calls_convergeConfigMap] at h
  by_cases hself : n = src.Namespace
  · simp [hself] at h
  · refine ⟨hself, ?_⟩
    rw [if_neg hself] at h
    split at h
    · split at h
      · exact Or.inl (by simpa using h)
      · simp at h
    · split at h
      · simp at h
      · exact Or.inr (by simpa using h)

theorem hasKey_iff {D : Type} (key : String) (o : Resource D) :
    hasKey key o = true ↔ DeletionHandlingMetaNamespaceKeyFunc (.object o) = .ok key := by
  unfold hasKey
  cases h : DeletionHandlingMetaNamespaceKeyFunc (KeyArg.object o) with
  | error e => simp
  | ok k => simp

theorem Indexer.GetByKey_some {D : Type} (ix : Indexer D) (key : String) (s : Resource D)
    (h : ix.GetByKey key = some s) :
    s ∈ ix ∧ DeletionHandlingMetaNamespaceKeyFunc (.object s) = .ok key := by
  unfold Indexer.GetByKey at h
  exact ⟨List.mem_of_find?_eq_some h, (hasKey_iff key s).1 (List.find?_some h)⟩

/-- The key reconciler of ConfigMaps writes nothing into the namespace of the
object that the key names. -/
theorem syncConfigMap_not_own_namespace {CD SD : Type} [DecidableEq CD] (env : Env)
    (c : Controller CD SD) (source : Resource CD) (key : String)
    (hkey : DeletionHandlingMetaNamespaceKeyFunc (.object source) = .ok key)
    (hvalid : ValidNames source.toObjectMeta)
    (htracked : ∀ o ∈ c.deletedConfigMapIndexer, ValidNames o.toObjectMeta)
    (op : Op CD) (h : op ∈ calls (syncConfigMap env c key).trace) :
    op.ns ≠ source.Namespace := by
  have hk := SplitMetaNamespaceKey_of_valid source key hkey hvalid.1 hvalid.2.1 hvalid.2.2
  rcases mem_calls_syncConfigMap env c key op h with h | ⟨ns0, name, src, nss, n, hk', hg, _, _, hop⟩
  · rw [cleanupConfigMap_snd] at h
    cases hs : c.deletedConfigMapIndexer.GetByKey key with
    | none => simp [hs, calls] at h
    | some s =>
      rw [hs] at h
      simp only [mem_calls_deleteSyncedConfigMaps] at h
      obtain ⟨_, ns, _, _, hself, rfl⟩ := h
      obtain ⟨hmem, hkey'⟩ := Indexer.GetByKey_some _ _ _ hs
      have hv := htracked s hmem
      have hk2 := SplitMetaNamespaceKey_of_valid s key hkey' hv.1 hv.2.1 hv.2.2
      rw [hk] at hk2
      injection hk2 with hk2
      injection hk2 with h1 h2
      simp only [Op.ns]
      rw [h1]
      exact hself
  · rw [hk] at hk'
    injection hk' with hk'
    injection hk' with h1 h2
    obtain ⟨hns, _⟩ := ResourceLister.Get_ok _ _ _ _ hg
    obtain ⟨hself, hop⟩ := mem_calls_convergeConfigMap c src _ n op hop
    have : op.ns = n := by rcases hop with rfl | rfl <;> rfl
    rw [this, h1, ← hns]
    exact hself

theorem mem_calls_rangeLoop {α D : Type} (body : Nat → α → Option (List (Event D)))
    (i : Nat) (xs : List α) (op : Op D) (h : op ∈ calls (rangeLoop body i xs).1) :
    ∃ j x evs, x ∈ xs ∧ body j x = some evs ∧ op ∈ calls evs := by
  induction xs generalizing i with
  | nil => simp [rangeLoop, calls] at h
  | cons x xs ih =>
    unfold rangeLoop at h
    cases hb : body i x with
    | none => simp [hb, calls] at h
    | some evs =>
      rw [hb] at h
      simp only [calls_append, List.mem_append] at h
      rcases h with h | h
      · exact ⟨i, x, evs, by simp, hb, h⟩
      · obtain ⟨j, y, evs', hy, hb', hop⟩ := ih (i + 1) h
        exact ⟨j, y, evs', by simp [hy], hb', hop⟩

theorem create_mem_addConfigMapToNamespace {CD SD : Type} (env : Env) (c : Controller CD SD)
    (ns : String) (nsLabels : GoMap) (i : Nat) (cm : Resource CD) (evs : List (Event CD))
    (n : String) (obj : Resource CD)
    (hb : addConfigMapToNamespace env c ns nsLabels i cm = some evs)
    (h : Op.Create n obj ∈ calls evs) :
    n = ns ∧ obj = createNewConfigMap env (env.clock i) cm ∧
      c.configMapsLister.Get ns cm.Name = .error .notFound := by
  unfold addConfigMapToNamespace at hb
  split at hb
  · injection hb with hb
    subst hb
    simp [calls] at h
  · simp only at hb
    split at hb
    · injection hb with hb
      subst hb
      simp [calls] at h
    · split at hb
      · cases hb
      · injection hb with hb
        subst hb
        simp [calls] at h
      · split at hb
        · rename_i err hg
          split at hb
          · rename_i hnf
            injection hb with hb
            subst hb
            rw [calls_issue] at h
            simp only [List.mem_singleton, Op.Create.injEq] at h
            obtain ⟨rfl, rfl⟩ := h
            cases err <;> simp [errors.IsNotFound] at hnf
            exact ⟨rfl, rfl, hg⟩
          · injection hb with hb
            subst hb
            simp [calls] at h
        · injection hb with hb
          subst hb
          simp [calls] at h

theorem calls_deleteDeprecatedConfigMap {CD SD : Type} (c : Controller CD SD) (ns : String)
    (nsLabels : GoMap) (o : Resource CD) (op : Op CD)
    (h : op ∈ calls (deleteDeprecatedConfigMap c ns nsLabels o)) : op = .Delete ns o.Name := by
  unfold deleteDeprecatedConfigMap at h
  split at h
  · simp [calls] at h
  · simp only at h
    split at h
    · simp [calls] at h
    · split at h
      · split at h
        · simp [calls] at h
        · rw [calls_issue] at h
          simpa using h
      · rw [calls_issue] at h
        simpa using h

theorem mem_calls_deleteDeprecatedConfigMapsFromNs {CD SD : Type} (c : Controller CD SD)
    (ns : String) (nsLabels : GoMap) (op : Op CD)
    (h : op ∈ calls (deleteDeprecatedConfigMapsFromNs c ns nsLabels)) :
    ∃ o ∈ c.configMapsLister.items, o.Namespace = ns ∧ c.configMapsLister.listFault = none ∧
      op ∈ calls (deleteDeprecatedConfigMap c ns nsLabels o) := by
  unfold deleteDeprecatedConfigMapsFromNs ResourceLister.listIn at h
  cases hf : c.configMapsLister.listFault with
  | some msg => simp [hf, calls] at h
  | none =>
    rw [hf] at h
    simp only [calls_flatMap, List.mem_flatMap, List.mem_filter, decide_eq_true_eq] at h
    obtain ⟨o, ⟨ho, hns⟩, hop⟩ := h
    exact ⟨o, ho, hns, rfl, hop⟩

/-- Where a write of `syncConfigMapsToNamespace` comes from: the loop over the
listed ConfigMaps, or the removal of deprecated copies. -/
theorem mem_calls_syncConfigMapsToNamespace {CD SD : Type} (env : Env) (c : Controller CD SD)
    (ns : String) (nsLabels : GoMap) (op : Op CD)
    (h : op ∈ calls (syncConfigMapsToNamespace env c ns nsLabels).trace) :
    (∃ j cm evs, cm ∈ c.configMapsLister.items ∧
        addConfigMapToNamespace env c ns nsLabels j cm = some evs ∧ op ∈ calls evs) ∨
      op ∈ calls (deleteDeprecatedConfigMapsFromNs c ns nsLabels) := by
  unfold syncConfigMapsToNamespace ResourceLister.listAll at h
  cases hf : c.configMapsLister.listFault with
  | some msg =>
    rw [hf] at h
    simp only [rangeLoop, Bool.false_eq_true, if_false, List.append_nil, calls_append,
      calls_logError, List.nil_append] at h
    exact Or.inr h
  | none =>
    rw [hf] at h
    simp only [List.nil_append] at h
    split at h
    · exact Or.inl (mem_calls_rangeLoop _ _ _ _ h)
    · simp only [calls_append, List.mem_append] at h
      rcases h with h | h
      · exact Or.inl (mem_calls_rangeLoop _ _ _ _ h)
      · exact Or.inr h

/-- The namespace reconciler of ConfigMaps creates no object of the name of a
listed ConfigMap in the namespace where that ConfigMap lives. -/
theorem syncConfigMapsToNamespace_not_own_namespace {CD SD : Type} (env : Env)
    (c : Controller CD SD) (nsLabels : GoMap) (source : Resource CD)
    (hsrc : source ∈ c.configMapsLister.items) (obj : Resource CD)
    (h : Op.Create source.Namespace obj ∈
      calls (syncConfigMapsToNamespace env c source.Namespace nsLabels).trace) :
    obj.Name ≠ source.Name := by
  intro hname
  rcases mem_calls_syncConfigMapsToNamespace env c _ nsLabels _ h with
    ⟨j, cm, evs, _, hb, hop⟩ | h
  · obtain ⟨_, hobj, hg⟩ := create_mem_addConfigMapToNamespace env c _ nsLabels j cm evs _ _ hb hop
    have hcm : cm.Name = source.Name := by
      rw [← hname, hobj]
      rfl
    rw [hcm] at hg
    unfold ResourceLister.Get at hg
    split at hg
    · cases hg
    · split at hg
      · cases hg
      · rename_i hnone
        rw [List.find?_eq_none] at hnone
        exact hnone source hsrc (by simp [atKey])
  · obtain ⟨o, _, _, _, hop⟩ := mem_calls_deleteDeprecatedConfigMapsFromNs c _ nsLabels _ h
    have := calls_deleteDeprecatedConfigMap c _ nsLabels o _ hop
    cases this

/-- C3: no reconciler writes into the namespace of the source.  For a source with
well-formed names and key `key` (the tracked snapshots having well-formed names
too), every `Create`, `Update` or `Delete` that `syncConfigMap` or `syncSecret`
sends, cleanup pass included, is addressed to another namespace than the source's,
whatever the selector, the listers and the namespaces are.  For a source that the
lister shows, `syncConfigMapsToNamespace` and `syncSecretsToNamespace`, run for the
namespace of the source, create no object of the source's name there. -/
theorem no_write_into_own_namespace {CD SD : Type} [DecidableEq CD] [DecidableEq SD]
    (env : Env) (c : Controller CD SD) :
    (∀ (source : Resource CD) (key : String),
      DeletionHandlingMetaNamespaceKeyFunc (.object source) = .ok key →
      ValidNames source.toObjectMeta →
      (∀ o ∈ c.deletedConfigMapIndexer, ValidNames o.toObjectMeta) →
      ∀ op ∈ calls (syncConfigMap env c key).trace, op.ns ≠ source.Namespace) ∧
    (∀ (source : Resource SD) (key : String),
      DeletionHandlingMetaNamespaceKeyFunc (.object source) = .ok key →
      ValidNames source.toObjectMeta →
      (∀ o ∈ c.deletedSecretIndexer, ValidNames o.toObjectMeta) →
      ∀ op ∈ calls (syncSecret env c key).trace, op.ns ≠ source.Namespace) ∧
    (∀ (nsLabels : GoMap) (source : Resource CD), source ∈ c.configMapsLister.items →
      ∀ obj, Op.Create source.Namespace obj ∈
          calls (syncConfigMapsToNamespace env c source.Namespace nsLabels).trace →
        obj.Name ≠ source.Name) ∧
    (∀ (nsLabels : GoMap) (source : Resource SD), source ∈ c.secretsLister.items →
      ∀ obj, Op.Create source.Namespace obj ∈
          calls (syncSecretsToNamespace env c source.Namespace nsLabels).trace →
        obj.Name ≠ source.Name) := by
  refine ⟨?_, ?_, ?_, ?_⟩
  · intro source key hkey hvalid htracked op hop
    exact syncConfigMap_not_own_namespace env c source key hkey hvalid htracked op hop
  · intro source key hkey hvalid htracked op hop
    rw [syncSecret_eq_swap] at hop
    exact syncConfigMap_not_own_namespace env c.swap source key hkey hvalid htracked op hop
  · intro nsLabels source hsrc obj hop
    exact syncConfigMapsToNamespace_not_own_namespace env c nsLabels source hsrc obj hop
  · intro nsLabels source hsrc obj hop
    rw [syncSecretsToNamespace_eq_swap] at hop
    exact syncConfigMapsToNamespace_not_own_namespace env c.swap nsLabels source hsrc obj hop

/-- The instance of C3 for the example source `src/cfg` with the empty selector,
which matches the namespace `src` too, and with a tracked snapshot: no write of
`syncConfigMap` is addressed to `src`. -/
theorem no_write_into_own_namespace_witness :
    ∀ op ∈ calls (syncConfigMap Example.env
        (Example.controller [Example.source ""] [Example.source ""]) "src/cfg").trace,
      op.ns ≠ "src" :=
  (no_write_into_own_namespace Example.env
      (Example.controller [Example.source ""] [Example.source ""])).1
    (Example.source "") "src/cfg" rfl (by decide) (by decide)

/-! ## A source without the sync annotation -/

/-- C4 fails on the code: the key reconcilers read the annotation with
`Annotations[syncAnnotation]`, which is `""` for a missing key, and `""` is the
selector of all namespaces.  In the example cluster the source `src/cfg` has just
lost its annotation `tier=prod`: the tracker holds the old snapshot and the copies
in `a` and `c` are still there.  Both `syncSecret` and `syncConfigMap` delete the
copies in `a` and `c` and then create a copy of the source, which has no sync
annotation, in `b`; the store then holds a copy in `b`. -/
theorem sync_replicates_source_without_annotation :
    Example.bare.Annotations.get? syncAnnotation = none ∧
    calls (syncSecret Example.env
        (Example.controller
          [Example.bare, Example.copy "tier=prod" "a", Example.copy "tier=prod" "c"]
          [Example.source "tier=prod"]) "src/cfg").trace =
      [.Delete "a" "cfg", .Delete "c" "cfg",
        .Create "b" (createNewSecret Example.env "t0" Example.bare)] ∧
    calls (syncConfigMap Example.env
        (Example.controller
          [Example.bare, Example.copy "tier=prod" "a", Example.copy "tier=prod" "c"]
          [Example.source "tier=prod"]) "src/cfg").trace =
      [.Delete "a" "cfg", .Delete "c" "cfg",
        .Create "b" (createNewConfigMap Example.env "t0" Example.bare)] ∧
    (Store.applyAll
        [Example.bare, Example.copy "tier=prod" "a", Example.copy "tier=prod" "c"]
        (calls (syncSecret Example.env
          (Example.controller
            [Example.bare, Example.copy "tier=prod" "a", Example.copy "tier=prod" "c"]
            [Example.source "tier=prod"]) "src/cfg").trace)).map
      (fun o => (o.Namespace, o.Name)) = [("b", "cfg"), ("src", "cfg")] := by
  refine ⟨by decide, by decide, by decide, by decide⟩

/-! ## The deletion tracker -/

/-- C5 fails on the code: `syncConfigMap` and `syncSecret` call `Delete(key)` on
the tracker with the key, a plain string, where the indexer expects the object;
the indexer cannot compute a key for a string, returns an error that is dropped,
and removes nothing.  So no run changes the tracker, and in the example (snapshot
with `tier=prod`, live source with `tier=dev`) the snapshot is still tracked
after the run.  The writes are as the claim says: the copies in `a` and `c` are
deleted, then a copy is created in `b`. -/
theorem sync_keeps_tracker_entry :
    (∀ (env : Env) (c : Controller String String) (key : String),
      (syncConfigMap env c key).controller.deletedConfigMapIndexer =
          c.deletedConfigMapIndexer ∧
        (syncSecret env c key).controller.deletedSecretIndexer = c.deletedSecretIndexer) ∧
    (syncConfigMap Example.env
        (Example.controller
          [Example.source "tier=dev", Example.copy "tier=prod" "a",
            Example.copy "tier=prod" "c"]
          [Example.source "tier=prod"])
        "src/cfg").controller.deletedConfigMapIndexer.GetByKey "src/cfg" =
      some (Example.source "tier=prod") ∧
    calls (syncConfigMap Example.env
        (Example.controller
          [Example.source "tier=dev", Example.copy "tier=prod" "a",
            Example.copy "tier=prod" "c"]
          [Example.source "tier=prod"]) "src/cfg").trace =
      [.Delete "a" "cfg", .Delete "c" "cfg",
        .Create "b" (createNewConfigMap Example.env "t0" (Example.source "tier=dev"))] := by
  refine ⟨fun env c key => ⟨?_, ?_⟩, by decide, by decide⟩
  · rw [syncConfigMap_controller]
  · rw [syncSecret_eq_swap, syncConfigMap_controller]
    rfl

/-! ## Idempotence -/

/-- The object of a store under a namespace and a name, as the lister finds it. -/
theorem ofStore_Get {D : Type} (store : Store D) (ns name : String) :
    (ResourceLister.ofStore store).Get ns name =
      match store.find? (atKey ns name) with
      | some o => .ok o
      | none => .error .notFound := rfl

theorem find?_filter_of_imp {α : Type} (p q : α → Bool) (l : List α)
    (h : ∀ x, p x = true → q x = true) : (l.filter q).find? p = l.find? p := by
  induction l with
  | nil => rfl
  | cons x xs ih =>
    cases hq : q x with
    | true =>
      rw [List.filter_cons_of_pos hq, List.find?_cons, List.find?_cons, ih]
    | false =>
      have hp : p x = false := by
        cases hp : p x with
        | false => rfl
        | true => rw [h x hp] at hq; cases hq
      rw [List.filter_cons_of_neg (by simp [hq]), List.find?_cons, hp]
      exact ih

theorem atKey_iff {D : Type} (ns name : String) (o : Resource D) :
    atKey ns name o = true ↔ o.Namespace = ns ∧ o.Name = name := by
  simp [atKey]

theorem find?_filter_other {D : Type} (store : Store D) (ns name ns' name' : String)
    (h : ¬ (ns = ns' ∧ name = name')) :
    (store.filter (fun o => !atKey ns name o)).find? (atKey ns' name') =
      store.find? (atKey ns' name') := by
  apply find?_filter_of_imp
  intro x hx
  rw [atKey_iff] at hx
  have : atKey ns name x = false := by
    cases hk : atKey ns name x with
    | false => rfl
    | true =>
      rw [atKey_iff] at hk
      exact absurd ⟨hk.1.symm.trans hx.1, hk.2.symm.trans hx.2⟩ h
  simp [this]

/-- The lookup in a store after one `Create` or `Update` of `cand`. -/
theorem find?_apply_put {D : Type} (store : Store D) (op : Op D) (cand : Resource D)
    (n : String) (hop : op = .Create n cand ∨ op = .Update n cand) (ns' name' : String) :
    (store.apply op).find? (atKey ns' name') =
      if n = ns' ∧ cand.Name = name' then some { cand with Namespace := n }
      else store.find? (atKey ns' name') := by
  have hk : atKey ns' name' ({ cand with Namespace := n } : Resource D) =
      decide (n = ns' ∧ cand.Name = name') := rfl
  rcases hop with rfl | rfl
  · simp only [Store.apply, List.find?_cons, hk]
    by_cases h : n = ns' ∧ cand.Name = name'
    · simp [h]
    · simp [h]
  · simp only [Store.apply, List.find?_cons, hk]
    by_cases h : n = ns' ∧ cand.Name = name'
    · simp [h]
    · simp only [h, decide_False, if_false]
      exact find?_filter_other store n cand.Name ns' name' h

/-- The lookup in a store after a sequence of `Create` and `Update` of `cand`. -/
theorem find?_applyAll_put {D : Type} (ops : List (Op D)) (cand : Resource D)
    (hops : ∀ op ∈ ops, ∃ n, op = .Create n cand ∨ op = .Update n cand)
    (store : Store D) (ns' name' : String) :
    (store.applyAll ops).find? (atKey ns' name') =
      if (∃ op ∈ ops, op.ns = ns') ∧ cand.Name = name' then
        some { cand with Namespace := ns' }
      else store.find? (atKey ns' name') := by
  induction ops generalizing store with
  | nil => simp [Store.applyAll]
  | cons op rest ih =>
    have hrest : ∀ op' ∈ rest, ∃ n, op' = .Create n cand ∨ op' = .Update n cand :=
      fun op' h => hops op' (by simp [h])
    obtain ⟨n, hn⟩ := hops op (by simp)
    have hns : op.ns = n := by rcases hn with rfl | rfl <;> rfl
    have := ih hrest (store.apply op)
    simp only [Store.applyAll, List.foldl_cons] at this ⊢
    rw [this, find?_apply_put store op cand n hn ns' name']
    by_cases hname : cand.Name = name'
    · by_cases h1 : ∃ op' ∈ rest, op'.ns = ns'
      · have h2 : ∃ op' ∈ op :: rest, op'.ns = ns' := by
          obtain ⟨op', ho, hh⟩ := h1
          exact ⟨op', by simp [ho], hh⟩
        rw [if_pos ⟨h1, hname⟩, if_pos ⟨h2, hname⟩]
      · by_cases h3 : n = ns'
        · have h2 : ∃ op' ∈ op :: rest, op'.ns = ns' := ⟨op, by simp, hns.trans h3⟩
          rw [if_neg (fun h => h1 h.1), if_pos ⟨h3, hname⟩, if_pos ⟨h2, hname⟩, h3]
        · have h2 : ¬ ∃ op' ∈ op :: rest, op'.ns = ns' := by
            rintro ⟨op', ho, hh⟩
            rcases List.mem_cons.1 ho with rfl | ho
            · exact h3 (hns.symm.trans hh)
            · exact h1 ⟨op', ho, hh⟩
          rw [if_neg (fun h => h1 h.1), if_neg (fun h => h3 h.1), if_neg (fun h => h2 h.1)]
    · rw [if_neg (fun h => hname h.2), if_neg (fun h => hname h.2), if_neg (fun h => hname h.2)]

theorem namespacesForLabel_congr {CD SD CD' SD' : Type} (c : Controller CD SD)
    (c' : Controller CD' SD') (h : c'.namespacesLister = c.namespacesLister) (label : String) :
    namespacesForLabel c' label = namespacesForLabel c label := by
  unfold namespacesForLabel
  rw [h]

end KonfigSyncer
namespace KonfigSyncer

theorem cleanupConfigMap_snd_of_none {CD SD : Type} (env : Env) (c : Controller CD SD)
    (key : String) (h : c.deletedConfigMapIndexer.GetByKey key = none) :
    (cleanupConfigMap env c key).2 = [] := by
  rw [cleanupConfigMap_snd, h]

/-- Idempotence for ConfigMaps: after a run that found no tracked snapshot under
the key and read the store through its lister, a run that reads the resulting
store sends nothing. -/
theorem syncConfigMap_twice {CD SD : Type} [DecidableEq CD] (env env2 : Env)
    (c : Controller CD SD) (store : Store CD) (key : String)
    (hstore : c.configMapsLister = ResourceLister.ofStore store)
    (htracker : c.deletedConfigMapIndexer.GetByKey key = none) :
    calls (syncConfigMap env2
      { c with configMapsLister :=
          ResourceLister.ofStore (store.applyAll (calls (syncConfigMap env c key).trace)) }
      key).trace = [] := by
  have hcl := cleanupConfigMap_snd_of_none env c key htracker
  have hcl2 : ∀ l : ResourceLister CD,
      (cleanupConfigMap env2 { c with configMapsLister := l } key).2 = [] :=
    fun l => cleanupConfigMap_snd_of_none env2 _ key htracker
  cases hk : SplitMetaNamespaceKey key with
  | error e =>
    rw [syncConfigMap_badKey env2 _ key e hk, calls_append, hcl2]
    rfl
  | ok p =>
    obtain ⟨ns0, name⟩ := p
    cases hg : c.configMapsLister.Get ns0 name with
    | error e =>
      rw [syncConfigMap_getError env c key ns0 name e hk hg, hcl]
      simp only [calls, Store.applyAll, List.foldl_nil]
      rw [← hstore]
      rw [syncConfigMap_getError env2 _ key ns0 name e hk hg, hcl2]
      rfl
    | ok src =>
      cases hl : namespacesForLabel c (src.Annotations.index syncAnnotation) with
      | error e =>
        rw [syncConfigMap_labelError env c key ns0 name src e hk hg hl, hcl]
        simp only [calls, Store.applyAll, List.foldl_nil]
        rw [← hstore]
        rw [syncConfigMap_labelError env2 _ key ns0 name src e hk hg hl, hcl2]
        rfl
      | ok nss =>
        obtain ⟨hsns, hsname⟩ := ResourceLister.Get_ok _ _ _ _ hg
        rw [syncConfigMap_converge env c key ns0 name src nss hk hg hl, hcl]
        simp only [List.nil_append]
        generalize hops : calls ((nss.UnsortedList env.mapOrder).flatMap
          (convergeConfigMap c src (createNewConfigMap env (env.clock 0) src))) = ops
        have hput : ∀ op ∈ ops, ∃ n, op = .Create n (createNewConfigMap env (env.clock 0) src) ∨
            op = .Update n (createNewConfigMap env (env.clock 0) src) := by
          intro op hop
          rw [← hops, calls_flatMap, List.mem_flatMap] at hop
          obtain ⟨n, _, hop⟩ := hop
          exact ⟨n, (mem_calls_convergeConfigMap c src _ n op hop).2⟩
        have hother : ∀ op ∈ ops, op.ns ≠ src.Namespace := by
          intro op hop
          rw [← hops, calls_flatMap, List.mem_flatMap] at hop
          obtain ⟨n, _, hop⟩ := hop
          obtain ⟨h1, h2⟩ := mem_calls_convergeConfigMap c src _ n op hop
          rcases h2 with rfl | rfl <;> exact h1
        have hfind := find?_applyAll_put ops _ hput store
        -- the source is still there
        have hsrc : (ResourceLister.ofStore (store.applyAll ops)).Get ns0 name = .ok src := by
          rw [ofStore_Get, hfind, if_neg]
          · rw [hstore, ofStore_Get] at hg
            exact hg
          · rintro ⟨⟨op, hop, hns⟩, _⟩
            exact hother op hop (hns.trans hsns.symm)
        have hl2 : namespacesForLabel
            ({ c with configMapsLister := ResourceLister.ofStore (store.applyAll ops) } :
              Controller CD SD) (src.Annotations.index syncAnnotation) = .ok nss := by
          exact (namespacesForLabel_congr c _ rfl _).trans hl
        rw [syncConfigMap_converge env2 _ key ns0 name src nss hk hsrc hl2, calls_append, hcl2]
        simp only [calls, List.nil_append]
        rw [calls_flatMap, List.flatMap_eq_nil_iff]
        intro n hn
        rw [mem_UnsortedList] at hn
        rw [calls_convergeConfigMap]
        by_cases hself : n = src.Namespace
        · rw [if_pos hself]
        · rw [if_neg hself]
          simp only [createNewConfigMap_Name, createNewConfigMap_Data]
          rw [ofStore_Get, hfind]
          by_cases hop : ∃ op ∈ ops, op.ns = n
          · rw [if_pos ⟨hop, rfl⟩]
            simp only [createNewConfigMap_Data, if_true]
          · rw [if_neg (fun h => hop h.1)]
            -- the first run sent nothing for `n`
            have hfirst : calls (convergeConfigMap c src
                (createNewConfigMap env (env.clock 0) src) n) = [] := by
              rw [List.eq_nil_iff_forall_not_mem]
              intro op hmem
              apply hop
              have hns : op.ns = n := by
                rcases (mem_calls_convergeConfigMap c src _ n op hmem).2 with rfl | rfl <;> rfl
              refine ⟨op, ?_, hns⟩
              rw [← hops, calls_flatMap, List.mem_flatMap]
              exact ⟨n, (mem_UnsortedList nss env.mapOrder n).2 hn, hmem⟩
            rw [calls_convergeConfigMap, if_neg hself, hstore, ofStore_Get,
              createNewConfigMap_Name] at hfirst
            cases hf : store.find? (atKey n src.Name) with
            | none =>
              rw [hf] at hfirst
              simp [errors.IsNotFound] at hfirst
            | some t =>
              rw [hf] at hfirst
              simp only [createNewConfigMap_Data] at hfirst ⊢
              by_cases hd : t.Data = src.Data
              · rw [if_pos hd]
              · rw [if_neg hd] at hfirst
                cases hfirst

/-- The claim C6 as stated fails: in the example the source `src/cfg` has the
empty selector, the tracker holds its snapshot with the old selector `tier=prod`,
and the store, which the lister shows, holds the copies in `a` and `c`.  The first
run deletes those copies in its cleanup pass, skips `a` and `c` in the converge
loop because its lister still shows them with equal data, and creates the copy in
`b`; all writes succeed.  The second run, whose lister shows the resulting store,
creates the copy in `a` again. -/
theorem sync_twice_counterexample :
    calls (syncConfigMap Example.env Example.widened "src/cfg").trace =
      [.Delete "a" "cfg", .Delete "c" "cfg",
        .Create "b" (createNewConfigMap Example.env "t0" (Example.source ""))] ∧
    Op.Create "a" (createNewConfigMap Example.env "t0" (Example.source "")) ∈
      calls (syncConfigMap Example.env
        (afterConfigMapRun Example.widenedStore
          (syncConfigMap Example.env Example.widened "src/cfg")) "src/cfg").trace := by
  refine ⟨by decide, by decide⟩

/-- C6, amended: idempotence of a run that finds no tracked snapshot.  When the
tracker has no item under the key, the lister of the first run shows the store,
all writes of the first run succeed, and the lister of the second run shows the
resulting store (source and namespaces unchanged), then the second run of
`syncConfigMap` on the key, and likewise of `syncSecret`, sends no `Create`,
`Update` or `Delete`, whatever the clock and the iteration order of either run. -/
theorem sync_twice_without_tracked_snapshot {CD SD : Type} [DecidableEq CD]
    [DecidableEq SD] (env env2 : Env) (c : Controller CD SD) (key : String) :
    (∀ store : Store CD,
      c.configMapsLister = ResourceLister.ofStore store →
      c.deletedConfigMapIndexer.GetByKey key = none →
      (∀ op ∈ calls (syncConfigMap env c key).trace, c.kubeclientset.ConfigMaps op = none) →
      calls (syncConfigMap env2
        (afterConfigMapRun store (syncConfigMap env c key)) key).trace = []) ∧
    (∀ store : Store SD,
      c.secretsLister = ResourceLister.ofStore store →
      c.deletedSecretIndexer.GetByKey key = none →
      (∀ op ∈ calls (syncSecret env c key).trace, c.kubeclientset.Secrets op = none) →
      calls (syncSecret env2 (afterSecretRun store (syncSecret env c key)) key).trace = []) := by
  refine ⟨?_, ?_⟩
  · intro store hstore htracker _
    unfold afterConfigMapRun
    rw [syncConfigMap_controller]
    exact syncConfigMap_twice env env2 c store key hstore htracker
  · intro store hstore htracker _
    unfold afterSecretRun
    rw [syncSecret_eq_swap env2, syncSecret_eq_swap env]
    simp only [syncConfigMap_controller, Controller.swap_swap]
    exact syncConfigMap_twice env env2 c.swap store key hstore htracker

/-- The instance of the amended C6 in the example cluster: the source `src/cfg`
with the selector `tier=prod`, no copies yet and nothing tracked.  The first run
creates the copies in `a` and `c`, the second run sends nothing. -/
theorem sync_twice_without_tracked_snapshot_witness :
    targets (calls (syncConfigMap Example.env
      (Example.controller [Example.source "tier=prod"] []) "src/cfg").trace) = ["a", "c"] ∧
    calls (syncConfigMap Example.env
      (afterConfigMapRun [Example.source "tier=prod"]
        (syncConfigMap Example.env (Example.controller [Example.source "tier=prod"] [])
          "src/cfg")) "src/cfg").trace = [] :=
  ⟨by decide,
    (sync_twice_without_tracked_snapshot Example.env Example.env
      (Example.controller [Example.source "tier=prod"] []) "src/cfg").1
      [Example.source "tier=prod"] rfl rfl (fun _ _ => rfl)⟩

/-! ## The candidate copy -/

theorem assocGet_filter_ne (k k' : String) (l : List (String × String)) :
    assocGet k (l.filter (fun p => decide (p.1 ≠ k'))) =
      if k = k' then none else assocGet k l := by
  induction l with
  | nil => simp [assocGet]
  | cons p rest ih =>
    obtain ⟨a, b⟩ := p
    by_cases ha : a = k'
    · subst ha
      rw [List.filter_cons_of_neg (by simp), ih]
      by_cases hk : k = a
      · simp [hk]
      · have hk' : ¬ a = k := fun h => hk h.symm
        simp [hk, hk', assocGet]
    · rw [List.filter_cons_of_pos (by simp [ha])]
      by_cases hk : k = k'
      · subst hk
        simp only [assocGet, ha, if_false, if_true]
        simpa using ih
      · simp only [assocGet, hk, if_false] at ih ⊢
        rw [ih]

theorem GoMap.get?_delete (m : GoMap) (k k' : String) :
    (m.delete k').get? k = if k = k' then none else m.get? k := by
  cases m with
  | none => simp [GoMap.delete, GoMap.get?]
  | some l => exact assocGet_filter_ne k k' l

theorem GoMap.get?_set (m : GoMap) (k k' v : String) :
    (m.set k' v).get? k = if k = k' then some v else m.get? k := by
  unfold GoMap.set GoMap.get?
  by_cases hk : k = k'
  · subst hk
    simp [assocGet]
  · have hk' : ¬ k' = k := fun h => hk h.symm
    simp only [assocGet, hk', hk, if_false]
    rw [assocGet_filter_ne, if_neg hk]
    cases m <;> simp [assocGet]

/-- The annotations of the candidate copy. -/
theorem annotations_createNewConfigMap {D : Type} (env : Env) (now : String)
    (source : Resource D) (k : String) :
    (createNewConfigMap env now source).Annotations.get? k =
      if k = metadataAnnotation then some (kubeSyncAnnotationValue env now source)
      else if k = syncAnnotation then none
      else source.Annotations.get? k := by
  have h : (createNewConfigMap env now source).Annotations =
      GoMap.set (match source.Annotations.delete syncAnnotation with
        | none => some []
        | some l => some l) metadataAnnotation (kubeSyncAnnotationValue env now source) := rfl
  rw [h, GoMap.get?_set]
  by_cases hk : k = metadataAnnotation
  · simp [hk]
  · simp only [hk, if_false]
    have h2 : GoMap.get? (match source.Annotations.delete syncAnnotation with
        | none => some []
        | some l => some l) k = (source.Annotations.delete syncAnnotation).get? k := by
      cases source.Annotations.delete syncAnnotation <;> rfl
    rw [h2, GoMap.get?_delete]

/-- C7: the candidate copy built by `createNewConfigMap` and by `createNewSecret`
has the name and the payload of the source, has no sync annotation
(`konfig-syncer`), has namespace, UID, resourceVersion, generateName, selfLink and
creation timestamp cleared, carries the provenance value under
`konfig-syncer-metadata`, and has every other annotation, and the labels, as the
source has them.  The functions return a new object; the source is their
argument and is not changed. -/
theorem createNew_builds_candidate {D : Type} (env : Env) (now : String)
    (source : Resource D) :
    syncAnnotation = "konfig-syncer" ∧ metadataAnnotation = "konfig-syncer-metadata" ∧
    (∀ candidate : Resource D,
      candidate = createNewConfigMap env now source ∨
        candidate = createNewSecret env now source →
      candidate.Name = source.Name ∧ candidate.Data = source.Data ∧
      candidate.Annotations.get? syncAnnotation = none ∧
      candidate.Namespace = "" ∧ candidate.UID = "" ∧ candidate.ResourceVersion = "" ∧
      candidate.GenerateName = "" ∧ candidate.SelfLink = "" ∧
      candidate.CreationTimestamp = none ∧
      candidate.Annotations.get? metadataAnnotation =
        some (kubeSyncAnnotationValue env now source) ∧
      (∀ k, k ≠ syncAnnotation → k ≠ metadataAnnotation →
        candidate.Annotations.get? k = source.Annotations.get? k) ∧
      candidate.Labels = source.Labels) := by
  refine ⟨rfl, by decide, ?_⟩
  intro candidate hc
  have hc' : candidate = createNewConfigMap env now source := by
    rcases hc with h | h
    · exact h
    · exact h.trans (createNewSecret_eq env now source)
  subst hc'
  refine ⟨rfl, rfl, ?_, rfl, rfl, rfl, rfl, rfl, rfl, ?_, ?_, rfl⟩
  · rw [annotations_createNewConfigMap]
    have : syncAnnotation ≠ metadataAnnotation := by decide
    simp [this]
  · rw [annotations_createNewConfigMap]
    simp
  · intro k h1 h2
    rw [annotations_createNewConfigMap]
    simp [h1, h2]

/-- The instance of C7 at the example source with selector `tier=prod`: the
candidate built by `createNewSecret` has no sync annotation. -/
theorem createNew_builds_candidate_witness :
    (createNewSecret Example.env "t0" (Example.source "tier=prod")).Annotations.get?
      syncAnnotation = none :=
  ((createNew_builds_candidate Example.env "t0" (Example.source "tier=prod")).2.2
    _ (Or.inr rfl)).2.2.1

/-! ## Returned errors -/

/-- The error returned by `syncConfigMap`. -/
theorem syncConfigMap_ret {CD SD : Type} [DecidableEq CD] (env : Env) (c : Controller CD SD)
    (key : String) (e : Err) :
    (syncConfigMap env c key).ret = some e ↔
      ∃ ns name, SplitMetaNamespaceKey key = .ok (ns, name) ∧
        c.configMapsLister.Get ns name = .error e ∧ errors.IsNotFound e = false := by
  cases hk : SplitMetaNamespaceKey key with
  | error e' =>
    rw [syncConfigMap_badKey env c key e' hk]
    simp
  | ok p =>
    obtain ⟨ns0, name⟩ := p
    cases hg : c.configMapsLister.Get ns0 name with
    | error e' =>
      rw [syncConfigMap_getError env c key ns0 name e' hk hg]
      constructor
      · intro h
        simp only at h
        by_cases hnf : errors.IsNotFound e' = true
        · simp [hnf] at h
        · have hnf' : errors.IsNotFound e' = false := by simpa using hnf
          rw [hnf'] at h
          simp only [Bool.false_eq_true, if_false, Option.some.injEq] at h
          subst h
          exact ⟨ns0, name, rfl, hg, hnf'⟩
      · rintro ⟨ns, name', h1, h2, h3⟩
        injection h1 with h1
        injection h1 with h1 h1'
        subst h1
        subst h1'
        rw [hg] at h2
        injection h2 with h2
        subst h2
        simp [h3]
    | ok src =>
      have hno : ¬ ∃ ns name', (Except.ok (ns0, name) : Except Err (String × String)) =
          .ok (ns, name') ∧ c.configMapsLister.Get ns name' = .error e ∧
          errors.IsNotFound e = false := by
        rintro ⟨ns, name', h1, h2, _⟩
        injection h1 with h1
        injection h1 with h1 h1'
        subst h1
        subst h1'
        rw [hg] at h2
        cases h2
      cases hl : namespacesForLabel c (src.Annotations.index syncAnnotation) with
      | error e' =>
        rw [syncConfigMap_labelError env c key ns0 name src e' hk hg hl]
        exact ⟨fun h => (by cases h), fun h => absurd h hno⟩
      | ok nss =>
        rw [syncConfigMap_converge env c key ns0 name src nss hk hg hl]
        exact ⟨fun h => (by cases h), fun h => absurd h hno⟩

theorem calls_deleteSyncedConfigMaps {CD SD : Type} (env : Env) (c : Controller CD SD)
    (s : Resource CD) :
    calls (deleteSyncedConfigMaps env c s) =
      match namespacesForLabel c (s.Annotations.index syncAnnotation) with
      | .error _ => []
      | .ok nss =>
        (nss.UnsortedList env.mapOrder).flatMap
          (fun ns => if ns = s.Namespace then [] else [.Delete ns s.Name]) := by
  unfold deleteSyncedConfigMaps
  cases namespacesForLabel c (s.Annotations.index syncAnnotation) with
  | error e => rfl
  | ok nss =>
    simp only [calls_flatMap]
    congr 1
    funext ns
    split
    · rfl
    · exact calls_issue _ _

/-- The writes and the returned error of `syncConfigMap` do not depend on what the
server answers to the writes. -/
theorem syncConfigMap_client {CD SD : Type} [DecidableEq CD] (env : Env)
    (c : Controller CD SD) (key : String) (k : KubeClient CD SD) :
    (syncConfigMap env { c with kubeclientset := k } key).ret = (syncConfigMap env c key).ret ∧
      calls (syncConfigMap env { c with kubeclientset := k } key).trace =
        calls (syncConfigMap env c key).trace := by
  have hcl : calls (cleanupConfigMap env { c with kubeclientset := k } key).2 =
      calls (cleanupConfigMap env c key).2 := by
    rw [cleanupConfigMap_snd, cleanupConfigMap_snd]
    show calls (match c.deletedConfigMapIndexer.GetByKey key with
      | some s => deleteSyncedConfigMaps env { c with kubeclientset := k } s
      | none => []) = _
    cases c.deletedConfigMapIndexer.GetByKey key with
    | none => rfl
    | some s =>
      simp only
      rw [calls_deleteSyncedConfigMaps, calls_deleteSyncedConfigMaps,
        namespacesForLabel_congr c ({ c with kubeclientset := k } : Controller CD SD) rfl]
  cases hk : SplitMetaNamespaceKey key with
  | error e =>
    rw [syncConfigMap_badKey env c key e hk, syncConfigMap_badKey env _ key e hk]
    simp only [calls_append, hcl, and_self]
  | ok p =>
    obtain ⟨ns0, name⟩ := p
    cases hg : c.configMapsLister.Get ns0 name with
    | error e =>
      have hg' : ({ c with kubeclientset := k } : Controller CD SD).configMapsLister.Get
          ns0 name = .error e := hg
      rw [syncConfigMap_getError env c key ns0 name e hk hg,
        syncConfigMap_getError env _ key ns0 name e hk hg']
      exact ⟨rfl, hcl⟩
    | ok src =>
      have hg' : ({ c with kubeclientset := k } : Controller CD SD).configMapsLister.Get
          ns0 name = .ok src := hg
      cases hl : namespacesForLabel c (src.Annotations.index syncAnnotation) with
      | error e =>
        have hl' := (namespacesForLabel_congr c ({ c with kubeclientset := k } :
          Controller CD SD) rfl (src.Annotations.index syncAnnotation)).trans hl
        rw [syncConfigMap_labelError env c key ns0 name src e hk hg hl,
          syncConfigMap_labelError env _ key ns0 name src e hk hg' hl']
        exact ⟨rfl, hcl⟩
      | ok nss =>
        have hl' := (namespacesForLabel_congr c ({ c with kubeclientset := k } :
          Controller CD SD) rfl (src.Annotations.index syncAnnotation)).trans hl
        rw [syncConfigMap_converge env c key ns0 name src nss hk hg hl,
          syncConfigMap_converge env _ key ns0 name src nss hk hg' hl']
        refine ⟨rfl, ?_⟩
        simp only [calls_append, hcl, calls_flatMap]
        congr 2
        funext n
        rw [calls_convergeConfigMap, calls_convergeConfigMap]

/-- With a malformed selector on the live source, `syncConfigMap` returns `nil`
and sends no `Create` and no `Update`. -/
theorem syncConfigMap_malformed {CD SD : Type} [DecidableEq CD] (env : Env)
    (c : Controller CD SD) (key ns0 name : String) (src : Resource CD)
    (hk : SplitMetaNamespaceKey key = .ok (ns0, name))
    (hg : c.configMapsLister.Get ns0 name = .ok src)
    (hne : src.Annotations.index syncAnnotation ≠ "")
    (hc : (src.Annotations.index syncAnnotation).data.count '=' ≠ 1) :
    (syncConfigMap env c key).ret = none ∧
      ∀ n obj, Op.Create n obj ∉ calls (syncConfigMap env c key).trace ∧
        Op.Update n obj ∉ calls (syncConfigMap env c key).trace := by
  obtain ⟨l, hl⟩ := (namespacesForLabel_cases c (src.Annotations.index syncAnnotation)).1.2
    ⟨hne, hc⟩
  rw [syncConfigMap_labelError env c key ns0 name src _ hk hg hl]
  exact ⟨rfl, fun n obj => not_create_mem_cleanupConfigMap env c key n obj⟩


theorem processConfigMapKey_requeue {CD SD : Type} [DecidableEq CD] (env : Env)
    (c : Controller CD SD) (key : String) :
    processConfigMapKey env c key = .AddRateLimited key ↔
      ∃ e, (syncConfigMap env c key).ret = some e := by
  unfold processConfigMapKey
  cases (syncConfigMap env c key).ret <;> simp

theorem processSecretKey_requeue {CD SD : Type} [DecidableEq SD] (env : Env)
    (c : Controller CD SD) (key : String) :
    processSecretKey env c key = .AddRateLimited key ↔
      ∃ e, (syncSecret env c key).ret = some e := by
  unfold processSecretKey
  cases (syncSecret env c key).ret <;> simp

/-- C10: `syncConfigMap` and `syncSecret` return an error, and the worker requeues
the key with rate limiting, exactly when the lookup of the live source fails with
an error that is not NotFound; the returned error is that of the lookup.  In
particular they return `nil` when the source is not found.  When the selector of
the live source is malformed (not empty, and not exactly one `=`) they return
`nil` and send no `Create` and no `Update`.  The returned value and the sequence
of writes are the same whatever the server answers to the writes, so a failing
write does not end the loop; a failing lookup of a target is not the lookup of the
source, so it does not make the run fail either.  For the selector `a=b=c` on the
example source nothing is written and the key is forgotten. -/
theorem sync_error_iff_source_lookup_fails {CD SD : Type} [DecidableEq CD]
    [DecidableEq SD] (env : Env) (c : Controller CD SD) (key : String) :
    (∀ e, (syncConfigMap env c key).ret = some e ↔
      ∃ ns name, SplitMetaNamespaceKey key = .ok (ns, name) ∧
        c.configMapsLister.Get ns name = .error e ∧ errors.IsNotFound e = false) ∧
    (∀ e, (syncSecret env c key).ret = some e ↔
      ∃ ns name, SplitMetaNamespaceKey key = .ok (ns, name) ∧
        c.secretsLister.Get ns name = .error e ∧ errors.IsNotFound e = false) ∧
    (processConfigMapKey env c key = .AddRateLimited key ↔
      ∃ e, (syncConfigMap env c key).ret = some e) ∧
    (processSecretKey env c key = .AddRateLimited key ↔
      ∃ e, (syncSecret env c key).ret = some e) ∧
    (∀ ns name src, SplitMetaNamespaceKey key = .ok (ns, name) →
      c.configMapsLister.Get ns name = .ok src →
      src.Annotations.index syncAnnotation ≠ "" →
      (src.Annotations.index syncAnnotation).data.count '=' ≠ 1 →
      (syncConfigMap env c key).ret = none ∧
        ∀ n obj, Op.Create n obj ∉ calls (syncConfigMap env c key).trace ∧
          Op.Update n obj ∉ calls (syncConfigMap env c key).trace) ∧
    (∀ ns name src, SplitMetaNamespaceKey key = .ok (ns, name) →
      c.secretsLister.Get ns name = .ok src →
      src.Annotations.index syncAnnotation ≠ "" →
      (src.Annotations.index syncAnnotation).data.count '=' ≠ 1 →
      (syncSecret env c key).ret = none ∧
        ∀ n obj, Op.Create n obj ∉ calls (syncSecret env c key).trace ∧
          Op.Update n obj ∉ calls (syncSecret env c key).trace) ∧
    (∀ k : KubeClient CD SD,
      (syncConfigMap env { c with kubeclientset := k } key).ret =
          (syncConfigMap env c key).ret ∧
        calls (syncConfigMap env { c with kubeclientset := k } key).trace =
          calls (syncConfigMap env c key).trace) ∧
    (∀ k : KubeClient CD SD,
      (syncSecret env { c with kubeclientset := k } key).ret = (syncSecret env c key).ret ∧
        calls (syncSecret env { c with kubeclientset := k } key).trace =
          calls (syncSecret env c key).trace) ∧
    ((syncConfigMap Example.env (Example.controller [Example.source "a=b=c"] [])
        "src/cfg").ret = none ∧
      calls (syncConfigMap Example.env (Example.controller [Example.source "a=b=c"] [])
        "src/cfg").trace = [] ∧
      processConfigMapKey Example.env (Example.controller [Example.source "a=b=c"] [])
        "src/cfg" = .Forget "src/cfg") := by
  refine ⟨fun e => syncConfigMap_ret env c key e, fun e => ?_,
    processConfigMapKey_requeue env c key, processSecretKey_requeue env c key,
    fun ns name src hk hg hne hc => syncConfigMap_malformed env c key ns name src hk hg hne hc,
    fun ns name src hk hg hne hc => ?_, fun k => syncConfigMap_client env c key k,
    fun k => ?_, by decide, by decide, by decide⟩
  · rw [syncSecret_eq_swap]
    exact syncConfigMap_ret env c.swap key e
  · rw [syncSecret_eq_swap]
    exact syncConfigMap_malformed env c.swap key ns name src hk hg hne hc
  · rw [syncSecret_eq_swap, syncSecret_eq_swap]
    exact syncConfigMap_client env c.swap key { ConfigMaps := k.Secrets, Secrets := k.ConfigMaps }

/-- The instance of C10 for the example source with the malformed selector
`a=b=c`: the lookup succeeds, the selector is not empty and has two `=`, and the
run returns `nil` without a `Create` or an `Update`. -/
theorem sync_error_iff_source_lookup_fails_witness :
    (syncConfigMap Example.env (Example.controller [Example.source "a=b=c"] [])
        "src/cfg").ret = none ∧
      ∀ n obj,
        Op.Create n obj ∉ calls (syncConfigMap Example.env
          (Example.controller [Example.source "a=b=c"] []) "src/cfg").trace ∧
        Op.Update n obj ∉ calls (syncConfigMap Example.env
          (Example.controller [Example.source "a=b=c"] []) "src/cfg").trace :=
  (sync_error_iff_source_lookup_fails Example.env
      (Example.controller [Example.source "a=b=c"] []) "src/cfg").2.2.2.2.1
    "src" "cfg" (Example.source "a=b=c") rfl rfl (by decide) (by decide)

/-! ## The provenance value -/

/-- C8 fails on the code: the provenance value is written with the verb `%q`,
which quotes in Go syntax, and read back as JSON.  The selector `k=` followed by
the character U+0007 has exactly one `=` and is accepted by `namespacesForLabel`,
which answers with the names of all namespaces, the value being no valid label
value; `%q` writes the character as `\a`, which is no escape of JSON, so
`jsonLabelToArray` fails on the value that `createNewConfigMap` and
`createNewSecret` attach.  For the selectors `tier=prod` and the empty one the
round trip succeeds, as the claim says. -/
theorem provenance_of_control_character_not_decoded :
    (namespacesForLabel (Example.controller [] []) "k=\x07" = .ok ["a", "b", "c", "src"]) ∧
    (createNewConfigMap Example.env "t0" (Example.source "k=\x07")).Annotations.get?
        metadataAnnotation =
      some ("\x7b\"namespace\":\"src\",\"name\":\"cfg\",\"uid\":\"u1\"," ++
        "\"resourceVersion\":\"7\",\"label\":\"k=\\a\",\"last-update\":\"t0\"\x7d") ∧
    jsonLabelToArray (kubeSyncAnnotationValue Example.env "t0" (Example.source "k=\x07")) =
      ([], false) ∧
    (createNewSecret Example.env "t0" (Example.source "k=\x07")).Annotations.get?
        metadataAnnotation =
      some (kubeSyncAnnotationValue Example.env "t0" (Example.source "k=\x07")) ∧
    jsonLabelToArray (kubeSyncAnnotationValue Example.env "t0" (Example.source "tier=prod")) =
      (["tier", "prod"], true) ∧
    jsonLabelToArray (kubeSyncAnnotationValue Example.env "t0" (Example.source "")) =
      ([], true) := by
  refine ⟨rfl, by decide, by decide, by decide, by decide, by decide⟩

/-! ## Orphan cleanup -/

/-- What `jsonLabelToArray` returns, in terms of the decoded field `label`. -/
theorem jsonLabelToArray_of_unmarshal (value : String) (m : GoMap)
    (h : json.Unmarshal value = some m) :
    jsonLabelToArray value =
      if m.index "label" = "" then ([], true)
      else if (strings.Split (m.index "label") '=').length > 2 then ([], false)
      else (strings.Split (m.index "label") '=', true) := by
  unfold jsonLabelToArray
  rw [h]

/-- The writes of `deleteDeprecatedConfigMapsFromNs` for one object, by its
recorded selector: nothing without a decodable provenance, nothing for the empty
selector or for a selector with two `=` or more; for `k=v` nothing when the read
`nsLabels[k]` gives `v`, a delete otherwise; a delete for a selector that is not
empty and has no `=`. -/
theorem calls_deleteDeprecatedConfigMap_cases {CD SD : Type} (c : Controller CD SD)
    (ns : String) (nsLabels : GoMap) (o : Resource CD) :
    calls (deleteDeprecatedConfigMap c ns nsLabels o) =
      match recordedSelector o with
      | none => []
      | some sel =>
        if sel = "" then []
        else
          match strings.Split sel '=' with
          | [_] => [.Delete ns o.Name]
          | [k, v] => if nsLabels.index k = v then [] else [.Delete ns o.Name]
          | _ => [] := by
  unfold deleteDeprecatedConfigMap recordedSelector
  cases ha : o.Annotations.get? metadataAnnotation with
  | none => rfl
  | some value =>
    simp only
    cases hu : json.Unmarshal value with
    | none => simp [jsonLabelToArray, hu, calls]
    | some m =>
      simp only [Option.map_some']
      rw [jsonLabelToArray_of_unmarshal value m hu]
      by_cases he : m.index "label" = ""
      · simp [he, calls]
      · simp only [he, if_false]
        have hne := splitChars_ne_nil '=' (m.index "label").data
        match hs : strings.Split (m.index "label") '=' with
        | [] =>
          unfold strings.Split at hs
          simp only [List.map_eq_nil_iff] at hs
          exact absurd hs hne
        | [a] => simp [calls_issue]
        | [k, v] =>
          by_cases hm : nsLabels.index k = v
          · simp [hm, calls]
          · simp [hm, calls_issue]
        | a :: b :: d :: rest => simp [calls]

/-- Orphan cleanup for a recorded selector `k=v` with a value that is not empty:
the object is deleted exactly when the labels of the namespace do not hold the
pair. -/
theorem calls_deleteDeprecatedConfigMap_pair {CD SD : Type} (c : Controller CD SD)
    (ns : String) (nsLabels : GoMap) (o : Resource CD) (k v : String)
    (hrec : recordedSelector o = some (k ++ "=" ++ v))
    (hk : '=' ∉ k.data) (hv : '=' ∉ v.data) (hne : v ≠ "") :
    calls (deleteDeprecatedConfigMap c ns nsLabels o) =
      if nsLabels.get? k = some v then [] else [.Delete ns o.Name] := by
  rw [calls_deleteDeprecatedConfigMap_cases, hrec]
  have hs : strings.Split (k ++ "=" ++ v) '=' = [k, v] := Split_pair k v '=' hk hv
  have hnonempty : k ++ "=" ++ v ≠ "" := by
    intro h
    have := congrArg String.length h
    simp only [String.length_append] at this
    have h1 : "=".length = 1 := rfl
    have h0 : "".length = 0 := rfl
    omega
  simp only [hnonempty, if_false, hs]
  have hiff : nsLabels.index k = v ↔ nsLabels.get? k = some v := by
    unfold GoMap.index
    cases hg : nsLabels.get? k with
    | none =>
      simp only [Option.getD_none]
      exact ⟨fun h => absurd h.symm hne, fun h => by cases h⟩
    | some w => simp
  by_cases h : nsLabels.get? k = some v
  · rw [if_pos h, if_pos (hiff.2 h)]
  · rw [if_neg h, if_neg (fun h' => h (hiff.1 h'))]

/-- C9 fails on the code in two places, both in the test
`len(l) == 2 && nsLabels[l[0]] == l[1]` and in `jsonLabelToArray`.  A copy in `b`
recorded with `tier=dev` is deleted when `b` has no labels, as the claim says.
But a copy recorded with `tier=` (empty value) is kept when `b` has no label
`tier` at all: the read `nsLabels["tier"]` of a missing key is `""`, which equals
the recorded value.  And an object recorded with `abc`, which is no `key=value`
selector, is deleted: `jsonLabelToArray` rejects only more than two pieces.  The
same holds for Secrets. -/
theorem orphan_cleanup_wrong_for_empty_value_and_no_equals :
    (recordedSelector (Example.copy "tier=dev" "b") = some "tier=dev" ∧
      calls (deleteDeprecatedConfigMapsFromNs
        (Example.controller [Example.copy "tier=dev" "b"] []) "b" (some [])) =
        [.Delete "b" "cfg"]) ∧
    (recordedSelector (Example.copy "tier=" "b") = some "tier=" ∧
      GoMap.get? (some []) "tier" = none ∧
      calls (deleteDeprecatedConfigMapsFromNs
        (Example.controller [Example.copy "tier=" "b"] []) "b" (some [])) = [] ∧
      calls (deleteDeprecatedSecretsFromNs
        (Example.controller [Example.copy "tier=" "b"] []) "b" (some [])) = []) ∧
    (recordedSelector (Example.foreign "b" "\x7b\"label\":\"abc\"\x7d") = some "abc" ∧
      calls (deleteDeprecatedConfigMapsFromNs
        (Example.controller [Example.foreign "b" "\x7b\"label\":\"abc\"\x7d"] []) "b"
        (some [("abc", "")])) = [.Delete "b" "cfg"] ∧
      calls (deleteDeprecatedSecretsFromNs
        (Example.controller [Example.foreign "b" "\x7b\"label\":\"abc\"\x7d"] []) "b"
        (some [("abc", "")])) = [.Delete "b" "cfg"]) := by
  refine ⟨⟨by decide, by decide⟩, ⟨by decide, by decide, by decide, by decide⟩,
    ⟨by decide, by decide, by decide⟩⟩

/-! ## The round trip of the provenance value, in general -/

theorem hexVal_lowerhex (m : Nat) : json.hexVal (lowerhex m) = some (m % 16) := by
  have h : ∀ i, i < 16 → json.hexVal ("0123456789abcdef".data.getD i '0') = some i := by
    decide
  exact h (m % 16) (Nat.mod_lt _ (by decide))

theorem hex4_lowerhex (n : Nat) (h : n < 65536) :
    json.hex4 (lowerhex (n / 4096)) (lowerhex (n / 256)) (lowerhex (n / 16)) (lowerhex n) =
      some n := by
  unfold json.hex4
  simp only [hexVal_lowerhex]
  congr 1
  omega

theorem char_eq_of_toNat (c : Char) (k : Nat) (h : c.toNat = k) : c = Char.ofNat k := by
  rw [← h, Char.ofNat_toNat]

theorem IsPrint_ge (tbl : Char → Bool) (c : Char) (h : strconv.IsPrint tbl c = true) :
    ¬ c.toNat < 0x20 := by
  unfold strconv.IsPrint at h
  split at h
  · split at h
    · omega
    · split at h
      · omega
      · cases h
  · omega

theorem parseStringAux_plain (c : Char) (h1 : c ≠ '"') (h2 : c ≠ '\\') (h3 : ¬ c.toNat < 0x20)
    (fuel : Nat) (rest : List Char) :
    json.parseStringAux (fuel + 1) (c :: rest) =
      (json.parseStringAux fuel rest).map (fun r => (c :: r.1, r.2)) := by
  rw [json.parseStringAux.eq_def]
  simp only [h1, h2, h3, if_false]

theorem parseStringAux_simple (e ch : Char) (he : e ≠ 'u') (hs : json.simpleEscape e = some ch)
    (fuel : Nat) (rest : List Char) :
    json.parseStringAux (fuel + 1) ('\\' :: e :: rest) =
      (json.parseStringAux fuel rest).map (fun r => (ch :: r.1, r.2)) := by
  rw [json.parseStringAux.eq_def]
  have h1 : ('\\' : Char) ≠ '"' := by decide
  simp only [h1, if_false, if_true, he, hs]

theorem parseStringAux_u (n : Nat) (hn : n < 65536) (hs : ¬ (0xD800 ≤ n ∧ n < 0xE000))
    (fuel : Nat) (rest : List Char) :
    json.parseStringAux (fuel + 1)
        ('\\' :: 'u' :: lowerhex (n / 4096) :: lowerhex (n / 256) :: lowerhex (n / 16) ::
          lowerhex n :: rest) =
      (json.parseStringAux fuel rest).map (fun r => (Char.ofNat n :: r.1, r.2)) := by
  rw [json.parseStringAux.eq_def]
  have h1 : ('\\' : Char) ≠ '"' := by decide
  have h2 : ¬ (0xD800 ≤ n ∧ n < 0xDC00) := fun h => hs ⟨h.1, by omega⟩
  have h3 : ¬ (0xDC00 ≤ n ∧ n < 0xE000) := fun h => hs ⟨by omega, h.2⟩
  simp only [h1, if_false, if_true, hex4_lowerhex n hn, h2, h3]

theorem Char.not_surrogate (c : Char) : ¬ (0xD800 ≤ c.toNat ∧ c.toNat < 0xE000) := by
  have := c.valid
  unfold Char.toNat
  rcases this with h | ⟨h1, h2⟩
  · intro h'
    have : c.val.toNat < 0xD800 := h
    omega
  · intro h'
    have : 0xDFFF < c.val.toNat := h1
    omega

theorem parseStringAux_escaped (tbl : Char → Bool) (c : Char) (hc : jsonCompatible tbl c = true)
    (fuel : Nat) (rest : List Char) :
    json.parseStringAux (fuel + 1) (appendEscapedRune tbl c ++ rest) =
      (json.parseStringAux fuel rest).map (fun r => (c :: r.1, r.2)) := by
  unfold appendEscapedRune
  by_cases hq : c = '"' ∨ c = '\\'
  · rw [if_pos hq]
    rcases hq with rfl | rfl
    · exact parseStringAux_simple '"' '"' (by decide) (by decide) fuel rest
    · exact parseStringAux_simple '\\' '\\' (by decide) (by decide) fuel rest
  · rw [if_neg hq]
    have hq1 : c ≠ '"' := fun h => hq (Or.inl h)
    have hq2 : c ≠ '\\' := fun h => hq (Or.inr h)
    by_cases hp : strconv.IsPrint tbl c = true
    · rw [if_pos hp]
      exact parseStringAux_plain c hq1 hq2 (IsPrint_ge tbl c hp) fuel rest
    · rw [if_neg hp]
      by_cases h7 : c.toNat = 7
      · simp [jsonCompatible, hq1, hq2, hp, h7] at hc
      · rw [if_neg h7]
        by_cases h8 : c.toNat = 8
        · rw [if_pos h8, char_eq_of_toNat c 8 h8]
          exact parseStringAux_simple 'b' (Char.ofNat 8) (by decide) (by decide) fuel rest
        · rw [if_neg h8]
          by_cases h12 : c.toNat = 12
          · rw [if_pos h12, char_eq_of_toNat c 12 h12]
            exact parseStringAux_simple 'f' (Char.ofNat 12) (by decide) (by decide) fuel rest
          · rw [if_neg h12]
            by_cases h10 : c.toNat = 10
            · rw [if_pos h10, char_eq_of_toNat c 10 h10]
              exact parseStringAux_simple 'n' (Char.ofNat 10) (by decide) (by decide) fuel rest
            · rw [if_neg h10]
              by_cases h13 : c.toNat = 13
              · rw [if_pos h13, char_eq_of_toNat c 13 h13]
                exact parseStringAux_simple 'r' (Char.ofNat 13) (by decide) (by decide) fuel rest
              · rw [if_neg h13]
                by_cases h9 : c.toNat = 9
                · rw [if_pos h9, char_eq_of_toNat c 9 h9]
                  exact parseStringAux_simple 't' (Char.ofNat 9) (by decide) (by decide) fuel rest
                · rw [if_neg h9]
                  have hrange : 0x7F < c.toNat ∧ c.toNat < 0x10000 := by
                    simpa [jsonCompatible, hq1, hq2, hp, h8, h9, h10, h12, h13] using hc
                  have h11 : ¬ c.toNat = 11 := by omega
                  have hx : ¬ (c.toNat < 0x20 ∨ c.toNat = 0x7F) := by omega
                  rw [if_neg h11, if_neg hx, if_pos hrange.2]
                  have := parseStringAux_u c.toNat hrange.2 (Char.not_surrogate c) fuel rest
                  rw [Char.ofNat_toNat] at this
                  exact this

theorem appendEscapedRune_length_pos (tbl : Char → Bool) (c : Char) :
    0 < (appendEscapedRune tbl c).length := by
  unfold appendEscapedRune
  by_cases h0 : c = '"' ∨ c = '\\'
  · rw [if_pos h0]
    exact Nat.succ_pos _
  rw [if_neg h0]
  by_cases h1 : strconv.IsPrint tbl c = true
  · rw [if_pos h1]
    exact Nat.succ_pos _
  rw [if_neg h1]
  by_cases h2 : c.toNat = 7
  · rw [if_pos h2]
    exact Nat.succ_pos _
  rw [if_neg h2]
  by_cases h3 : c.toNat = 8
  · rw [if_pos h3]
    exact Nat.succ_pos _
  rw [if_neg h3]
  by_cases h4 : c.toNat = 12
  · rw [if_pos h4]
    exact Nat.succ_pos _
  rw [if_neg h4]
  by_cases h5 : c.toNat = 10
  · rw [if_pos h5]
    exact Nat.succ_pos _
  rw [if_neg h5]
  by_cases h6 : c.toNat = 13
  · rw [if_pos h6]
    exact Nat.succ_pos _
  rw [if_neg h6]
  by_cases h7 : c.toNat = 9
  · rw [if_pos h7]
    exact Nat.succ_pos _
  rw [if_neg h7]
  by_cases h8 : c.toNat = 11
  · rw [if_pos h8]
    exact Nat.succ_pos _
  rw [if_neg h8]
  by_cases h9 : c.toNat < 0x20 ∨ c.toNat = 0x7F
  · rw [if_pos h9]
    exact Nat.succ_pos _
  rw [if_neg h9]
  by_cases h10 : c.toNat < 0x10000
  · rw [if_pos h10]
    exact Nat.succ_pos _
  rw [if_neg h10]
  exact Nat.succ_pos _

theorem escaped_length_ge (tbl : Char → Bool) (s : List Char) :
    s.length ≤ (s.flatMap (appendEscapedRune tbl)).length := by
  induction s with
  | nil => simp
  | cons c cs ih =>
    have := appendEscapedRune_length_pos tbl c
    simp only [List.flatMap_cons, List.length_append, List.length_cons]
    omega

/-- The body of a quoted string of compatible characters is read back. -/
theorem parseStringAux_quoted (tbl : Char → Bool) (s : List Char)
    (hs : ∀ c ∈ s, jsonCompatible tbl c = true) (fuel : Nat) (hf : s.length + 1 ≤ fuel)
    (rest : List Char) :
    json.parseStringAux fuel (s.flatMap (appendEscapedRune tbl) ++ '"' :: rest) =
      some (s, rest) := by
  induction s generalizing fuel with
  | nil =>
    obtain ⟨f, rfl⟩ : ∃ f, fuel = f + 1 := ⟨fuel - 1, by simp at hf; omega⟩
    rw [json.parseStringAux.eq_def]
    simp
  | cons c cs ih =>
    obtain ⟨f, rfl⟩ : ∃ f, fuel = f + 1 := ⟨fuel - 1, by simp at hf; omega⟩
    have hc := hs c (by simp)
    have hcs : ∀ c' ∈ cs, jsonCompatible tbl c' = true := fun c' h => hs c' (by simp [h])
    rw [List.flatMap_cons, List.append_assoc, parseStringAux_escaped tbl c hc f,
      ih hcs f (by simp at hf; omega)]
    rfl

theorem parseString_quoted (tbl : Char → Bool) (s : List Char)
    (hs : ∀ c ∈ s, jsonCompatible tbl c = true) (rest : List Char) :
    json.parseString (s.flatMap (appendEscapedRune tbl) ++ '"' :: rest) = some (s, rest) := by
  unfold json.parseString
  apply parseStringAux_quoted tbl s hs
  have := escaped_length_ge tbl s
  simp only [List.length_append, List.length_cons]
  omega

theorem parseStringAux_plainString (s : List Char) (hs : ∀ c ∈ s, json.plain c = true)
    (fuel : Nat) (hf : s.length + 1 ≤ fuel) (rest : List Char) :
    json.parseStringAux fuel (s ++ '"' :: rest) = some (s, rest) := by
  induction s generalizing fuel with
  | nil =>
    obtain ⟨f, rfl⟩ : ∃ f, fuel = f + 1 := ⟨fuel - 1, by simp at hf; omega⟩
    rw [json.parseStringAux.eq_def]
    simp
  | cons c cs ih =>
    obtain ⟨f, rfl⟩ : ∃ f, fuel = f + 1 := ⟨fuel - 1, by simp at hf; omega⟩
    have hc := hs c (by simp)
    simp only [json.plain, decide_eq_true_eq] at hc
    have hcs : ∀ c' ∈ cs, json.plain c' = true := fun c' h => hs c' (by simp [h])
    rw [List.cons_append, parseStringAux_plain c hc.1 hc.2.1 hc.2.2 f,
      ih hcs f (by simp at hf; omega)]
    rfl

theorem parseString_plainString (s : List Char) (hs : ∀ c ∈ s, json.plain c = true)
    (rest : List Char) : json.parseString (s ++ '"' :: rest) = some (s, rest) := by
  unfold json.parseString
  apply parseStringAux_plainString s hs
  simp only [List.length_append, List.length_cons]
  omega

theorem skipSpace_of_not_space (c : Char) (cs : List Char) (h : json.isSpace c = false) :
    json.skipSpace (c :: cs) = c :: cs := by
  rw [json.skipSpace, h]
  rfl

theorem parseValue_string (fuel : Nat) (body : List Char) :
    json.parseValue (fuel + 1) ('"' :: body) =
      (json.parseString body).map (fun r => (json.Kind.str (String.mk r.1), r.2)) := by
  rw [json.parseValue.eq_def]
  simp

theorem parseMembers_more (tbl : Char → Bool) (key value : List Char)
    (hk : ∀ c ∈ key, json.plain c = true) (hv : ∀ c ∈ value, jsonCompatible tbl c = true)
    (fuel : Nat) (more : List Char) :
    json.parseMembers (fuel + 2) (json.member tbl key value ++ ',' :: '"' :: more) =
      (json.parseMembers (fuel + 1) ('"' :: more)).map
        (fun r => ((String.mk key, json.Kind.str (String.mk value)) :: r.1, r.2)) := by
  unfold json.member
  rw [json.parseMembers.eq_def]
  simp only [List.cons_append, List.append_assoc, List.nil_append, if_true]
  rw [parseString_plainString key hk]
  simp only
  rw [skipSpace_of_not_space ':' _ (by decide)]
  simp only
  rw [skipSpace_of_not_space '"' _ (by decide), parseValue_string, parseString_quoted tbl value hv]
  simp only [Option.map_some']
  rw [skipSpace_of_not_space ',' _ (by decide)]
  simp only
  rw [skipSpace_of_not_space '"' _ (by decide)]

theorem parseMembers_last (tbl : Char → Bool) (key value : List Char)
    (hk : ∀ c ∈ key, json.plain c = true) (hv : ∀ c ∈ value, jsonCompatible tbl c = true)
    (fuel : Nat) (rest : List Char) :
    json.parseMembers (fuel + 2) (json.member tbl key value ++ '\x7d' :: rest) =
      some ([(String.mk key, json.Kind.str (String.mk value))], rest) := by
  unfold json.member
  rw [json.parseMembers.eq_def]
  simp only [List.cons_append, List.append_assoc, List.nil_append, if_true]
  rw [parseString_plainString key hk]
  simp only
  rw [skipSpace_of_not_space ':' _ (by decide)]
  simp only
  rw [skipSpace_of_not_space '"' _ (by decide), parseValue_string, parseString_quoted tbl value hv]
  simp only [Option.map_some']
  rw [skipSpace_of_not_space '\x7d' _ (by decide)]
  rfl

/-- The characters of the provenance value: six members between braces. -/
theorem kubeSyncAnnotationValue_data {D : Type} (env : Env) (now : String)
    (source : Resource D) :
    (kubeSyncAnnotationValue env now source).data =
      '\x7b' :: (json.member env.isPrintTable "namespace".data source.Namespace.data ++ ',' ::
        (json.member env.isPrintTable "name".data source.Name.data ++ ',' ::
        (json.member env.isPrintTable "uid".data source.UID.data ++ ',' ::
        (json.member env.isPrintTable "resourceVersion".data source.ResourceVersion.data ++
          ',' ::
        (json.member env.isPrintTable "label".data
          (source.Annotations.index syncAnnotation).data ++ ',' ::
        (json.member env.isPrintTable "last-update".data now.data ++ ['\x7d'])))))) := by
  have h1 : "\x7b\"namespace\":".data = '\x7b' :: '"' :: "namespace".data ++ ['"', ':'] := rfl
  have h2 : ",\"name\":".data = ',' :: '"' :: "name".data ++ ['"', ':'] := rfl
  have h3 : ",\"uid\":".data = ',' :: '"' :: "uid".data ++ ['"', ':'] := rfl
  have h4 : ",\"resourceVersion\":".data =
      ',' :: '"' :: "resourceVersion".data ++ ['"', ':'] := rfl
  have h5 : ",\"label\":".data = ',' :: '"' :: "label".data ++ ['"', ':'] := rfl
  have h6 : ",\"last-update\":".data = ',' :: '"' :: "last-update".data ++ ['"', ':'] := rfl
  have h7 : "\x7d".data = ['\x7d'] := rfl
  simp only [kubeSyncAnnotationValue, strconv.Quote, json.member, String.data_append, h1, h2,
    h3, h4, h5, h6, h7, List.append_assoc, List.cons_append, List.nil_append]

theorem plain_keys :
    (∀ c ∈ "namespace".data, json.plain c = true) ∧ (∀ c ∈ "name".data, json.plain c = true) ∧
    (∀ c ∈ "uid".data, json.plain c = true) ∧
    (∀ c ∈ "resourceVersion".data, json.plain c = true) ∧
    (∀ c ∈ "label".data, json.plain c = true) ∧
    (∀ c ∈ "last-update".data, json.plain c = true) := by
  decide

/-- The provenance value of a source whose strings have only characters that `%q`
writes compatibly decodes to the map of its six fields. -/
theorem Unmarshal_kubeSyncAnnotationValue {D : Type} (env : Env) (now : String)
    (source : Resource D)
    (h1 : ∀ c ∈ source.Namespace.data, jsonCompatible env.isPrintTable c = true)
    (h2 : ∀ c ∈ source.Name.data, jsonCompatible env.isPrintTable c = true)
    (h3 : ∀ c ∈ source.UID.data, jsonCompatible env.isPrintTable c = true)
    (h4 : ∀ c ∈ source.ResourceVersion.data, jsonCompatible env.isPrintTable c = true)
    (h5 : ∀ c ∈ (source.Annotations.index syncAnnotation).data,
      jsonCompatible env.isPrintTable c = true)
    (h6 : ∀ c ∈ now.data, jsonCompatible env.isPrintTable c = true) :
    ∃ m : GoMap, json.Unmarshal (kubeSyncAnnotationValue env now source) = some m ∧
      m.index "label" = source.Annotations.index syncAnnotation := by
  obtain ⟨k1, k2, k3, k4, k5, k6⟩ := plain_keys
  have hd := kubeSyncAnnotationValue_data env now source
  have hlen : 6 ≤ (kubeSyncAnnotationValue env now source).data.length := by
    rw [hd]
    simp [json.member]
  obtain ⟨f, hf⟩ : ∃ f, (kubeSyncAnnotationValue env now source).data.length + 2 = f + 8 :=
    ⟨(kubeSyncAnnotationValue env now source).data.length - 6, by omega⟩
  unfold json.Unmarshal
  simp only [hf]
  rw [hd, skipSpace_of_not_space '\x7b' _ (by decide)]
  simp only [if_true]
  have hm : ∀ key value rest, json.member env.isPrintTable key value ++ rest =
      '"' :: (key ++ '"' :: ':' :: '"' ::
        (value.flatMap (appendEscapedRune env.isPrintTable) ++ '"' :: rest)) := by
    intro key value rest
    simp [json.member]
  have e6 : json.parseMembers (f + 2)
      (json.member env.isPrintTable "last-update".data now.data ++ ['\x7d']) =
      some ([("last-update", .str now)], []) :=
    parseMembers_last env.isPrintTable _ _ k6 h6 f []
  have e5 : json.parseMembers (f + 3)
      (json.member env.isPrintTable "label".data
          (source.Annotations.index syncAnnotation).data ++ ',' ::
        (json.member env.isPrintTable "last-update".data now.data ++ ['\x7d'])) =
      some ([("label", .str (source.Annotations.index syncAnnotation)),
        ("last-update", .str now)], []) := by
    rw [hm "last-update".data now.data, parseMembers_more env.isPrintTable _ _ k5 h5 (f + 1),
      ← hm, e6]
    rfl
  have e4 : json.parseMembers (f + 4)
      (json.member env.isPrintTable "resourceVersion".data source.ResourceVersion.data ++
          ',' ::
        (json.member env.isPrintTable "label".data
          (source.Annotations.index syncAnnotation).data ++ ',' ::
        (json.member env.isPrintTable "last-update".data now.data ++ ['\x7d']))) =
      some ([("resourceVersion", .str source.ResourceVersion),
        ("label", .str (source.Annotations.index syncAnnotation)),
        ("last-update", .str now)], []) := by
    rw [hm "label".data (source.Annotations.index syncAnnotation).data,
      parseMembers_more env.isPrintTable _ _ k4 h4 (f + 2), ← hm, e5]
    rfl
  have e3 : json.parseMembers (f + 5)
      (json.member env.isPrintTable "uid".data source.UID.data ++ ',' ::
        (json.member env.isPrintTable "resourceVersion".data source.ResourceVersion.data ++
          ',' ::
        (json.member env.isPrintTable "label".data
          (source.Annotations.index syncAnnotation).data ++ ',' ::
        (json.member env.isPrintTable "last-update".data now.data ++ ['\x7d'])))) =
      some ([("uid", .str source.UID), ("resourceVersion", .str source.ResourceVersion),
        ("label", .str (source.Annotations.index syncAnnotation)),
        ("last-update", .str now)], []) := by
    rw [hm "resourceVersion".data source.ResourceVersion.data,
      parseMembers_more env.isPrintTable _ _ k3 h3 (f + 3), ← hm, e4]
    rfl
  have e2 : json.parseMembers (f + 6)
      (json.member env.isPrintTable "name".data source.Name.data ++ ',' ::
        (json.member env.isPrintTable "uid".data source.UID.data ++ ',' ::
        (json.member env.isPrintTable "resourceVersion".data source.ResourceVersion.data ++
          ',' ::
        (json.member env.isPrintTable "label".data
          (source.Annotations.index syncAnnotation).data ++ ',' ::
        (json.member env.isPrintTable "last-update".data now.data ++ ['\x7d']))))) =
      some ([("name", .str source.Name), ("uid", .str source.UID),
        ("resourceVersion", .str source.ResourceVersion),
        ("label", .str (source.Annotations.index syncAnnotation)),
        ("last-update", .str now)], []) := by
    rw [hm "uid".data source.UID.data,
      parseMembers_more env.isPrintTable _ _ k2 h2 (f + 4), ← hm, e3]
    rfl
  have e1 : json.parseMembers (f + 7)
      (json.member env.isPrintTable "namespace".data source.Namespace.data ++ ',' ::
        (json.member env.isPrintTable "name".data source.Name.data ++ ',' ::
        (json.member env.isPrintTable "uid".data source.UID.data ++ ',' ::
        (json.member env.isPrintTable "resourceVersion".data source.ResourceVersion.data ++
          ',' ::
        (json.member env.isPrintTable "label".data
          (source.Annotations.index syncAnnotation).data ++ ',' ::
        (json.member env.isPrintTable "last-update".data now.data ++ ['\x7d'])))))) =
      some ([("namespace", .str source.Namespace), ("name", .str source.Name),
        ("uid", .str source.UID), ("resourceVersion", .str source.ResourceVersion),
        ("label", .str (source.Annotations.index syncAnnotation)),
        ("last-update", .str now)], []) := by
    rw [hm "name".data source.Name.data,
      parseMembers_more env.isPrintTable _ _ k1 h1 (f + 5), ← hm, e2]
    rfl
  rw [hm "namespace".data source.Namespace.data, skipSpace_of_not_space '"' _ (by decide),
    json.parseObject.eq_def]
  simp only [show ('"' = '\x7d') = False from by decide, if_false]
  rw [← hm, e1]
  simp only [json.skipSpace, if_true, json.storeMembers]
  refine ⟨_, rfl, ?_⟩
  simp [GoMap.index, GoMap.get?_set]

/-- The round trip of the provenance value for a source whose strings have only
characters that `%q` writes compatibly with JSON: `jsonLabelToArray` recovers the
empty list for the empty selector and `[k, v]` for the selector `k=v`. -/
theorem jsonLabelToArray_kubeSyncAnnotationValue {D : Type} (env : Env) (now : String)
    (source : Resource D)
    (h1 : ∀ c ∈ source.Namespace.data, jsonCompatible env.isPrintTable c = true)
    (h2 : ∀ c ∈ source.Name.data, jsonCompatible env.isPrintTable c = true)
    (h3 : ∀ c ∈ source.UID.data, jsonCompatible env.isPrintTable c = true)
    (h4 : ∀ c ∈ source.ResourceVersion.data, jsonCompatible env.isPrintTable c = true)
    (h5 : ∀ c ∈ (source.Annotations.index syncAnnotation).data,
      jsonCompatible env.isPrintTable c = true)
    (h6 : ∀ c ∈ now.data, jsonCompatible env.isPrintTable c = true) :
    (source.Annotations.index syncAnnotation = "" →
      jsonLabelToArray (kubeSyncAnnotationValue env now source) = ([], true)) ∧
    (∀ k v, source.Annotations.index syncAnnotation = k ++ "=" ++ v →
      (source.Annotations.index syncAnnotation).data.count '=' = 1 →
      jsonLabelToArray (kubeSyncAnnotationValue env now source) = ([k, v], true)) := by
  obtain ⟨m, hm, hl⟩ := Unmarshal_kubeSyncAnnotationValue env now source h1 h2 h3 h4 h5 h6
  rw [jsonLabelToArray_of_unmarshal _ m hm, hl]
  refine ⟨fun h => by rw [if_pos h], fun k v hkv hc => ?_⟩
  have hne : source.Annotations.index syncAnnotation ≠ "" := by
    intro h
    rw [h] at hc
    simp at hc
  obtain ⟨hk, hv⟩ := count_eq_one_of_pair k v (hkv ▸ hc)
  have hs : strings.Split (source.Annotations.index syncAnnotation) '=' = [k, v] := by
    rw [hkv]
    exact Split_pair k v '=' hk hv
  rw [if_neg hne, hs]
  simp

/-! ## The update handlers -/

/-- The Secret update handler when both objects carry the sync annotation with
different values: with an unchanged payload the old object is tracked and the key
queued; with a changed payload the key is queued and nothing is tracked. -/
theorem secretUpdateFunc_annotation_changed {CD SD : Type} [DecidableEq SD]
    (c : Controller CD SD) (olds news : Resource SD) (o n : String)
    (ho : olds.Annotations.get? syncAnnotation = some o)
    (hn : news.Annotations.get? syncAnnotation = some n) (hne : n ≠ o) :
    (news.Data = olds.Data →
      (secretUpdateFunc c olds news).controller.deletedSecretIndexer =
          c.deletedSecretIndexer.Add olds ∧
        (secretUpdateFunc c olds news).enqueued = enqueueSecret (.object news)) ∧
    (news.Data ≠ olds.Data →
      (secretUpdateFunc c olds news).controller.deletedSecretIndexer =
          c.deletedSecretIndexer ∧
        (secretUpdateFunc c olds news).enqueued = enqueueSecret (.object news)) := by
  have hi : news.Annotations.index syncAnnotation ≠ olds.Annotations.index syncAnnotation := by
    rw [GoMap.index_of_get? _ _ _ ho, GoMap.index_of_get? _ _ _ hn]
    exact hne
  unfold secretUpdateFunc
  simp only [ho, hn, Option.isSome_some, not_true_eq_false, false_or, true_and, false_and,
    if_false]
  constructor
  · intro hd
    simp [hd, hi]
  · intro hd
    simp [hd]

/-- The ConfigMap update handler in the same situation. -/
theorem configMapUpdateFunc_annotation_changed {CD SD : Type} [DecidableEq CD]
    (c : Controller CD SD) (olds news : Resource CD) (o n : String)
    (ho : olds.Annotations.get? syncAnnotation = some o)
    (hn : news.Annotations.get? syncAnnotation = some n) (hne : n ≠ o) :
    (news.Data = olds.Data →
      (configMapUpdateFunc c olds news).controller.deletedConfigMapIndexer =
          c.deletedConfigMapIndexer.Add olds ∧
        (configMapUpdateFunc c olds news).enqueued = enqueueConfigMap (.object news)) ∧
    (news.Data ≠ olds.Data →
      (configMapUpdateFunc c olds news).controller.deletedConfigMapIndexer =
          c.deletedConfigMapIndexer ∧
        (configMapUpdateFunc c olds news).enqueued = enqueueConfigMap (.object news)) := by
  have hi : news.Annotations.index syncAnnotation ≠ olds.Annotations.index syncAnnotation := by
    rw [GoMap.index_of_get? _ _ _ ho, GoMap.index_of_get? _ _ _ hn]
    exact hne
  unfold configMapUpdateFunc
  simp only [ho, hn, Option.isSome_some, not_true_eq_false, false_or, true_and, false_and,
    if_false]
  constructor
  · intro hd
    simp [hd, hi]
  · intro hd
    simp [hd]

/-- C11 fails on the code when the payload changes in the same update.  In both
update handlers the first test, `newHasAnno && (!oldHasAnno ||
!reflect.DeepEqual(news.Data, olds.Data))`, already holds then, so the key is
queued and the branch that tracks the old object is not reached.  In the example
the Secret (and the ConfigMap) `src/cfg` goes from `tier=prod` with payload
`payload` to `tier=dev` with payload `changed`: the key `src/cfg` is queued and
the tracker stays empty, and the reconciliation of the key then only creates the
copy in `b`, leaving the copies in `a` and `c`.  With the payload unchanged the
old object is tracked and the key queued, as the claim says. -/
theorem update_with_changed_data_not_tracked :
    ((secretUpdateFunc (Example.controller [] []) (Example.source "tier=prod")
        (Example.object "src" (some [( syncAnnotation, "tier=dev")]) "changed")).enqueued =
        ["src/cfg"] ∧
      (secretUpdateFunc (Example.controller [] []) (Example.source "tier=prod")
        (Example.object "src" (some [( syncAnnotation, "tier=dev")])
          "changed")).controller.deletedSecretIndexer = []) ∧
    ((configMapUpdateFunc (Example.controller [] []) (Example.source "tier=prod")
        (Example.object "src" (some [( syncAnnotation, "tier=dev")]) "changed")).enqueued =
        ["src/cfg"] ∧
      (configMapUpdateFunc (Example.controller [] []) (Example.source "tier=prod")
        (Example.object "src" (some [( syncAnnotation, "tier=dev")])
          "changed")).controller.deletedConfigMapIndexer = []) ∧
    calls (syncSecret Example.env
        (secretUpdateFunc
          (Example.controller
            [Example.object "src" (some [( syncAnnotation, "tier=dev")]) "changed",
              Example.copy "tier=prod" "a", Example.copy "tier=prod" "c"] [])
          (Example.source "tier=prod")
          (Example.object "src" (some [( syncAnnotation, "tier=dev")])
            "changed")).controller "src/cfg").trace =
      [.Create "b" (createNewSecret Example.env "t0"
        (Example.object "src" (some [( syncAnnotation, "tier=dev")]) "changed"))] ∧
    ((secretUpdateFunc (Example.controller [] []) (Example.source "tier=prod")
        (Example.source "tier=dev")).enqueued = ["src/cfg"] ∧
      (secretUpdateFunc (Example.controller [] []) (Example.source "tier=prod")
        (Example.source "tier=dev")).controller.deletedSecretIndexer =
        [Example.source "tier=prod"] ∧
      (configMapUpdateFunc (Example.controller [] []) (Example.source "tier=prod")
        (Example.source "tier=dev")).enqueued = ["src/cfg"] ∧
      (configMapUpdateFunc (Example.controller [] []) (Example.source "tier=prod")
        (Example.source "tier=dev")).controller.deletedConfigMapIndexer =
        [Example.source "tier=prod"]) := by
  refine ⟨⟨by decide, by decide⟩, ⟨by decide, by decide⟩, by decide,
    ⟨by decide, by decide, by decide, by decide⟩⟩

/-! ## Membership in the namespace reconcilers -/

theorem labelCondition_pair (k v : String) (hk : '=' ∉ k.data) (hv : '=' ∉ v.data)
    (nsLabels : GoMap) :
    labelCondition (k ++ "=" ++ v) (strings.Split (k ++ "=" ++ v) '=') nsLabels =
      some (decide (nsLabels.index k = v)) := by
  have hs : strings.Split (k ++ "=" ++ v) '=' = [k, v] := Split_pair k v '=' hk hv
  have hne : k ++ "=" ++ v ≠ "" := by
    intro h
    have := congrArg String.length h
    simp only [String.length_append] at this
    have h1 : "=".length = 1 := rfl
    have h0 : "".length = 0 := rfl
    omega
  rw [hs]
  unfold labelCondition
  rw [if_neg hne]
  rfl

/-- A sync annotation that is not empty and has no `=` makes the test of the
namespace reconcilers read `l[1]` of a slice of length one: a panic. -/
theorem labelCondition_no_equals (sel : String) (hne : sel ≠ "") (h : '=' ∉ sel.data)
    (nsLabels : GoMap) : labelCondition sel (strings.Split sel '=') nsLabels = none := by
  have hs : strings.Split sel '=' = [sel] := by
    unfold strings.Split
    rw [splitChars_of_not_mem '=' _ h]
    rfl
  rw [hs]
  unfold labelCondition
  rw [if_neg hne]
  rfl

theorem GoMap.index_eq_iff_get? (m : GoMap) (k v : String) (hv : v ≠ "") :
    m.index k = v ↔ m.get? k = some v := by
  unfold GoMap.index
  cases hg : m.get? k with
  | none =>
    simp only [Option.getD_none]
    exact ⟨fun h => absurd h.symm hv, fun h => by cases h⟩
  | some w => simp

/-- Where the two notions of membership agree: for the empty selector, and for a
selector `k=v` with exactly one `=`, a key and a value that are valid for a label
and a value that is not empty, the test of the namespace reconcilers on the labels
of the namespace `x` holds exactly when the resolver lists `x` (the lister having
no other namespace of that name). -/
theorem labelCondition_iff_resolved {CD SD : Type} (c : Controller CD SD) (sel : String)
    (nss : StringSet) (hres : namespacesForLabel c sel = .ok nss) (x : v1.Namespace)
    (hx : x ∈ c.namespacesLister.items)
    (huniq : ∀ y ∈ c.namespacesLister.items, y.Name = x.Name → y = x)
    (hgood : sel = "" ∨ ∃ k v, sel = k ++ "=" ++ v ∧ v ≠ "" ∧
      validation.IsQualifiedName k = true ∧ validation.IsValidLabelValue v = true) :
    labelCondition sel (strings.Split sel '=') x.Labels = some (decide (x.Name ∈ nss)) := by
  have hmem := mem_namespacesForLabel c sel nss hres x.Name
  obtain ⟨_, hwf⟩ := namespacesForLabel_ok_inv c sel nss hres
  rcases hgood with rfl | ⟨k, v, rfl, hv, hvk, hvv⟩
  · have : x.Name ∈ nss := hmem.2 ⟨x, hx, rfl, Or.inl rfl⟩
    simp [labelCondition, this]
  · have hc : (k ++ "=" ++ v).data.count '=' = 1 := by
      rcases hwf with h | h
      · have := congrArg String.length h
        simp only [String.length_append] at this
        have h1 : "=".length = 1 := rfl
        have h0 : "".length = 0 := rfl
        omega
      · exact h
    obtain ⟨hk, hv'⟩ := count_eq_one_of_pair k v hc
    rw [labelCondition_pair k v hk hv']
    congr 1
    rw [decide_eq_decide, GoMap.index_eq_iff_get? _ _ _ hv, hmem]
    constructor
    · intro h
      exact ⟨x, hx, rfl, Or.inr ⟨k, v, rfl, fun _ => h⟩⟩
    · rintro ⟨y, hy, hn, hl⟩
      have hyx := huniq y hy hn
      subst hyx
      rcases hl with hl | ⟨k', v', hsel, hl⟩
      · have := congrArg String.length hl
        simp only [String.length_append] at this
        have h1 : "=".length = 1 := rfl
        have h0 : "".length = 0 := rfl
        omega
      · have hc' := hc
        rw [hsel] at hc'
        obtain ⟨hk2, hv2⟩ := count_eq_one_of_pair k' v' hc'
        have e1 : strings.Split (k ++ "=" ++ v) '=' = [k, v] := Split_pair k v '=' hk hv'
        have e2 : strings.Split (k ++ "=" ++ v) '=' = [k', v'] := by
          rw [hsel]
          exact Split_pair k' v' '=' hk2 hv2
        rw [e1] at e2
        simp only [List.cons.injEq, and_true] at e2
        obtain ⟨rfl, rfl⟩ := e2
        exact hl ⟨hvk, hvv⟩

/-- C12 fails on the code.  The namespace reconcilers skip a sync annotation only
when `strings.Split` gives more than two pieces (`len(l) > 2`), where
`namespacesForLabel` rejects every length but two.  For the annotation `abc`, which
the resolver rejects, `syncConfigMapsToNamespace` and `syncSecretsToNamespace`
evaluate `l[1]` on a slice of length one and stop in a panic; the source `other`
listed after it, which selects every namespace, gets no copy.  For `a=b=c` they
do complete and go on to `other`, as the claim says.  The membership test differs
too: for the selector `tier=` the resolver lists no namespace, but the reconciler
of the namespace `src`, which has no label `tier`, creates a copy there, because
the read `nsLabels["tier"]` of the missing key is `""`. -/
theorem namespace_reconciler_differs_from_resolver :
    (namespacesForLabel (Example.controller [] []) "abc" = .error (.notValidLabel "abc") ∧
      syncConfigMapsToNamespace Example.env
        (Example.controller
          [Example.source "abc",
            Example.named "other" "src" (some [( syncAnnotation, "")]) "payload"] [])
        "b" (some [("tier", "dev")]) = { trace := [], panicked := true } ∧
      syncSecretsToNamespace Example.env
        (Example.controller
          [Example.source "abc",
            Example.named "other" "src" (some [( syncAnnotation, "")]) "payload"] [])
        "b" (some [("tier", "dev")]) = { trace := [], panicked := true } ∧
      (syncNamespace Example.env
        (Example.controller
          [Example.source "abc",
            Example.named "other" "src" (some [( syncAnnotation, "")]) "payload"] [])
        "b").configMaps = some { trace := [], panicked := true }) ∧
    (namespacesForLabel (Example.controller [] []) "a=b=c" =
        .error (.notValidLabel "a=b=c") ∧
      (syncConfigMapsToNamespace Example.env
        (Example.controller
          [Example.source "a=b=c",
            Example.named "other" "src" (some [( syncAnnotation, "")]) "payload"] [])
        "b" (some [("tier", "dev")])).panicked = false ∧
      calls (syncConfigMapsToNamespace Example.env
        (Example.controller
          [Example.source "a=b=c",
            Example.named "other" "src" (some [( syncAnnotation, "")]) "payload"] [])
        "b" (some [("tier", "dev")])).trace =
        [.Create "b" (createNewConfigMap Example.env "t0"
          (Example.named "other" "src" (some [( syncAnnotation, "")]) "payload"))]) ∧
    (namespacesForLabel (Example.controller [] []) "tier=" = .ok [] ∧
      (syncNamespace Example.env
        (Example.controller
          [Example.object "a" (some [( syncAnnotation, "tier=")]) "payload"] [])
        "src").configMaps.map (fun r => calls r.trace) =
        some [.Create "src" (createNewConfigMap Example.env "t0"
          (Example.object "a" (some [( syncAnnotation, "tier=")]) "payload"))] ∧
      (syncNamespace Example.env
        (Example.controller
          [Example.object "a" (some [( syncAnnotation, "tier=")]) "payload"] [])
        "src").secrets.map (fun r => calls r.trace) =
        some [.Create "src" (createNewSecret Example.env "t0"
          (Example.object "a" (some [( syncAnnotation, "tier=")]) "payload"))]) := by
  refine ⟨⟨rfl, by decide, by decide, by decide⟩, ⟨rfl, by decide, by decide⟩,
    ⟨rfl, by decide, by decide⟩⟩

/-! ## Provenance is not consulted by the key reconcilers -/

theorem SameButAnnotations.fields {D : Type} {own : String} {o o' : Resource D}
    (h : SameButAnnotations own o o') :
    o'.Namespace = o.Namespace ∧ o'.Name = o.Name ∧ o'.Data = o.Data := by
  obtain ⟨h1, _⟩ := h
  refine ⟨?_, ?_, ?_⟩
  · rw [h1]
  · rw [h1]
  · rw [h1]

theorem atKey_congr {D : Type} {own : String} {o o' : Resource D}
    (h : SameButAnnotations own o o') (ns name : String) : atKey ns name o' = atKey ns name o := by
  obtain ⟨h1, h2, _⟩ := h.fields
  unfold atKey
  rw [h1, h2]

/-- Looking up a key in two lists of objects that differ in annotations only
finds nothing in both, or two objects that differ in annotations only. -/
theorem find?_sameButAnnotations {D : Type} (own : String) (l l' : List (Resource D))
    (h : List.Forall₂ (SameButAnnotations own) l l') (ns name : String) :
    (l.find? (atKey ns name) = none ∧ l'.find? (atKey ns name) = none) ∨
      ∃ o o', l.find? (atKey ns name) = some o ∧ l'.find? (atKey ns name) = some o' ∧
        SameButAnnotations own o o' := by
  induction h with
  | nil => exact Or.inl ⟨rfl, rfl⟩
  | @cons o o' rest rest' hoo _ ih =>
    rw [List.find?_cons, List.find?_cons, atKey_congr hoo]
    cases hk : atKey ns name o with
    | true => exact Or.inr ⟨o, o', rfl, rfl, hoo⟩
    | false => exact ih

/-- The lookups of two listers that differ in annotations only. -/
theorem Get_sameButAnnotations {D : Type} (own : String) (l l' : ResourceLister D)
    (h : ListersDifferInAnnotations own l l') (ns name : String) :
    (∃ e, l.Get ns name = .error e ∧ l'.Get ns name = .error e) ∨
      ∃ o o', l.Get ns name = .ok o ∧ l'.Get ns name = .ok o' ∧ SameButAnnotations own o o' := by
  obtain ⟨hg, _, hitems⟩ := h
  unfold ResourceLister.Get
  rw [hg]
  cases l.getFault ns name with
  | some msg => exact Or.inl ⟨_, rfl, rfl⟩
  | none =>
    rcases find?_sameButAnnotations own l.items l'.items hitems ns name with
      ⟨h1, h2⟩ | ⟨o, o', h1, h2, hoo⟩
    · rw [h1, h2]
      exact Or.inl ⟨_, rfl, rfl⟩
    · rw [h1, h2]
      exact Or.inr ⟨o, o', rfl, rfl, hoo⟩

theorem calls_cleanupConfigMap_congr {CD SD : Type} (env : Env) (c c' : Controller CD SD)
    (key : String) (ht : c'.deletedConfigMapIndexer = c.deletedConfigMapIndexer)
    (hn : c'.namespacesLister = c.namespacesLister) :
    calls (cleanupConfigMap env c' key).2 = calls (cleanupConfigMap env c key).2 := by
  rw [cleanupConfigMap_snd, cleanupConfigMap_snd, ht]
  cases c.deletedConfigMapIndexer.GetByKey key with
  | none => rfl
  | some s =>
    simp only
    rw [calls_deleteSyncedConfigMaps, calls_deleteSyncedConfigMaps,
      namespacesForLabel_congr c c' hn]

/-- The writes of `syncConfigMap` are the same for two listers that differ only
in the annotations of objects outside the namespace of the key. -/
theorem calls_syncConfigMap_sameButAnnotations {CD SD : Type} [DecidableEq CD] (env : Env)
    (c : Controller CD SD) (l' : ResourceLister CD) (key ns0 name : String)
    (hk : SplitMetaNamespaceKey key = .ok (ns0, name))
    (h : ListersDifferInAnnotations ns0 c.configMapsLister l') :
    calls (syncConfigMap env { c with configMapsLister := l' } key).trace =
      calls (syncConfigMap env c key).trace := by
  have hcl : calls (cleanupConfigMap env ({ c with configMapsLister := l' } :
      Controller CD SD) key).2 = calls (cleanupConfigMap env c key).2 :=
    calls_cleanupConfigMap_congr env c _ key rfl rfl
  rcases Get_sameButAnnotations ns0 _ _ h ns0 name with ⟨e, hg, hg'⟩ | ⟨src, src', hg, hg', hss⟩
  · rw [syncConfigMap_getError env c key ns0 name e hk hg,
      syncConfigMap_getError env _ key ns0 name e hk hg']
    exact hcl
  · have hsrc : src' = src := hss.2 (ResourceLister.Get_ok _ _ _ _ hg).1
    subst hsrc
    cases hl : namespacesForLabel c (src'.Annotations.index syncAnnotation) with
    | error e =>
      have hl' := (namespacesForLabel_congr c ({ c with configMapsLister := l' } :
        Controller CD SD) rfl (src'.Annotations.index syncAnnotation)).trans hl
      rw [syncConfigMap_labelError env c key ns0 name src' e hk hg hl,
        syncConfigMap_labelError env _ key ns0 name src' e hk hg' hl']
      exact hcl
    | ok nss =>
      have hl' := (namespacesForLabel_congr c ({ c with configMapsLister := l' } :
        Controller CD SD) rfl (src'.Annotations.index syncAnnotation)).trans hl
      rw [syncConfigMap_converge env c key ns0 name src' nss hk hg hl,
        syncConfigMap_converge env _ key ns0 name src' nss hk hg' hl']
      simp only [calls_append, hcl, calls_flatMap]
      congr 2
      funext n
      rw [calls_convergeConfigMap, calls_convergeConfigMap]
      by_cases hself : n = src'.Namespace
      · rw [if_pos hself, if_pos hself]
      · rw [if_neg hself, if_neg hself]
        rcases Get_sameButAnnotations ns0 _ _ h n
            (createNewConfigMap env (env.clock 0) src').Name with
          ⟨e, h1, h2⟩ | ⟨t, t', h1, h2, htt⟩
        · have h2' : ({ c with configMapsLister := l' } : Controller CD SD).configMapsLister.Get
              n (createNewConfigMap env (env.clock 0) src').Name = .error e := h2
          rw [h1, h2']
        · have h2' : ({ c with configMapsLister := l' } : Controller CD SD).configMapsLister.Get
              n (createNewConfigMap env (env.clock 0) src').Name = .ok t' := h2
          rw [h1, h2']
          simp only [htt.fields.2.2]

/-- The converge loop of `syncConfigMap` updates a target that holds an object of
the source's name with another payload, whatever else that object carries. -/
theorem update_mem_calls_syncConfigMap {CD SD : Type} [DecidableEq CD] (env : Env)
    (c : Controller CD SD) (key ns0 name : String) (src t : Resource CD) (nss : StringSet)
    (n : String)
    (hk : SplitMetaNamespaceKey key = .ok (ns0, name))
    (hg : c.configMapsLister.Get ns0 name = .ok src)
    (hl : namespacesForLabel c (src.Annotations.index syncAnnotation) = .ok nss)
    (hn : n ∈ nss) (hself : n ≠ src.Namespace)
    (ht : c.configMapsLister.Get n src.Name = .ok t) (hd : t.Data ≠ src.Data) :
    Op.Update n (createNewConfigMap env (env.clock 0) src) ∈
      calls (syncConfigMap env c key).trace := by
  rw [syncConfigMap_converge env c key ns0 name src nss hk hg hl, calls_append,
    List.mem_append, calls_flatMap, List.mem_flatMap]
  right
  refine ⟨n, (mem_UnsortedList nss env.mapOrder n).2 hn, ?_⟩
  rw [calls_convergeConfigMap, if_neg hself, createNewConfigMap_Name, ht]
  simp only [createNewConfigMap_Data, hd, if_false, List.mem_singleton]

theorem calls_cleanup_sublist {CD SD : Type} [DecidableEq CD] (env : Env)
    (c : Controller CD SD) (key : String) (op : Op CD)
    (h : op ∈ calls (cleanupConfigMap env c key).2) :
    op ∈ calls (syncConfigMap env c key).trace := by
  cases hk : SplitMetaNamespaceKey key with
  | error e =>
    rw [syncConfigMap_badKey env c key e hk, calls_append]
    exact List.mem_append_left _ h
  | ok p =>
    obtain ⟨ns0, name⟩ := p
    cases hg : c.configMapsLister.Get ns0 name with
    | error e =>
      rw [syncConfigMap_getError env c key ns0 name e hk hg]
      exact h
    | ok src =>
      cases hl : namespacesForLabel c (src.Annotations.index syncAnnotation) with
      | error e =>
        rw [syncConfigMap_labelError env c key ns0 name src e hk hg hl]
        exact h
      | ok nss =>
        rw [syncConfigMap_converge env c key ns0 name src nss hk hg hl, calls_append]
        exact List.mem_append_left _ h

/-- The cleanup pass of `syncConfigMap` deletes the name of the tracked snapshot in
every namespace that its selector resolves to, other than its own, whatever the
lister shows there. -/
theorem delete_mem_calls_syncConfigMap {CD SD : Type} [DecidableEq CD] (env : Env)
    (c : Controller CD SD) (key : String) (s : Resource CD) (nss : StringSet) (n : String)
    (hs : c.deletedConfigMapIndexer.GetByKey key = some s)
    (hl : namespacesForLabel c (s.Annotations.index syncAnnotation) = .ok nss)
    (hn : n ∈ nss) (hself : n ≠ s.Namespace) :
    Op.Delete n s.Name ∈ calls (syncConfigMap env c key).trace := by
  apply calls_cleanup_sublist
  rw [cleanupConfigMap_snd, hs]
  exact (mem_calls_deleteSyncedConfigMaps env c s _).2 ⟨nss, n, hl, hn, hself, rfl⟩

/-- C13: the key reconcilers never consult the provenance annotation.  In a
target namespace that holds an object of the source's name whose payload differs
from the source's, `syncConfigMap` (and `syncSecret`) sends an `Update` with the
candidate copy; the cleanup pass sends a `Delete` of the snapshot's name to every
namespace that the snapshot's selector resolves to, other than the snapshot's
own; neither depends on the annotations of the object found there.  And the
sequence of writes is the same for two listers that show the same objects with
the same faults, except that objects outside the namespace of the key may have
other annotations. -/
theorem key_reconcilers_ignore_provenance {CD SD : Type} [DecidableEq CD] [DecidableEq SD]
    (env : Env) (c : Controller CD SD) (key ns0 name : String)
    (hk : SplitMetaNamespaceKey key = .ok (ns0, name)) :
    (∀ (src t : Resource CD) (nss : StringSet) (n : String),
      c.configMapsLister.Get ns0 name = .ok src →
      namespacesForLabel c (src.Annotations.index syncAnnotation) = .ok nss →
      n ∈ nss → n ≠ src.Namespace →
      c.configMapsLister.Get n src.Name = .ok t → t.Data ≠ src.Data →
      Op.Update n (createNewConfigMap env (env.clock 0) src) ∈
        calls (syncConfigMap env c key).trace) ∧
    (∀ (src t : Resource SD) (nss : StringSet) (n : String),
      c.secretsLister.Get ns0 name = .ok src →
      namespacesForLabel c (src.Annotations.index syncAnnotation) = .ok nss →
      n ∈ nss → n ≠ src.Namespace →
      c.secretsLister.Get n src.Name = .ok t → t.Data ≠ src.Data →
      Op.Update n (createNewSecret env (env.clock 0) src) ∈
        calls (syncSecret env c key).trace) ∧
    (∀ (s : Resource CD) (nss : StringSet) (n : String),
      c.deletedConfigMapIndexer.GetByKey key = some s →
      namespacesForLabel c (s.Annotations.index syncAnnotation) = .ok nss →
      n ∈ nss → n ≠ s.Namespace →
      Op.Delete n s.Name ∈ calls (syncConfigMap env c key).trace) ∧
    (∀ (s : Resource SD) (nss : StringSet) (n : String),
      c.deletedSecretIndexer.GetByKey key = some s →
      namespacesForLabel c (s.Annotations.index syncAnnotation) = .ok nss →
      n ∈ nss → n ≠ s.Namespace →
      Op.Delete n s.Name ∈ calls (syncSecret env c key).trace) ∧
    (∀ l' : ResourceLister CD, ListersDifferInAnnotations ns0 c.configMapsLister l' →
      calls (syncConfigMap env { c with configMapsLister := l' } key).trace =
        calls (syncConfigMap env c key).trace) ∧
    (∀ l' : ResourceLister SD, ListersDifferInAnnotations ns0 c.secretsLister l' →
      calls (syncSecret env { c with secretsLister := l' } key).trace =
        calls (syncSecret env c key).trace) := by
  refine ⟨?_, ?_, ?_, ?_, ?_, ?_⟩
  · intro src t nss n hg hl hn hself ht hd
    exact update_mem_calls_syncConfigMap env c key ns0 name src t nss n hk hg hl hn hself ht hd
  · intro src t nss n hg hl hn hself ht hd
    rw [syncSecret_eq_swap]
    exact update_mem_calls_syncConfigMap env c.swap key ns0 name src t nss n hk hg hl hn hself
      ht hd
  · intro s nss n hs hl hn hself
    exact delete_mem_calls_syncConfigMap env c key s nss n hs hl hn hself
  · intro s nss n hs hl hn hself
    rw [syncSecret_eq_swap]
    exact delete_mem_calls_syncConfigMap env c.swap key s nss n hs hl hn hself
  · intro l' h
    exact calls_syncConfigMap_sameButAnnotations env c l' key ns0 name hk h
  · intro l' h
    rw [syncSecret_eq_swap, syncSecret_eq_swap]
    exact calls_syncConfigMap_sameButAnnotations env c.swap l' key ns0 name hk h

/-- The instance of C13 in the example cluster: the namespace `a` holds an object
`cfg` with the payload `old`, once without annotations and once with a provenance
annotation.  The key `src/cfg` splits, the two listers differ in annotations only,
and `syncConfigMap` sends the same writes for both, among them the `Update` in
`a`. -/
theorem key_reconcilers_ignore_provenance_witness :
    calls (syncConfigMap Example.env
        { (Example.controller Example.unmarkedStore []) with
          configMapsLister := (ResourceLister.ofStore Example.markedStore) }
        "src/cfg").trace =
      calls (syncConfigMap Example.env (Example.controller Example.unmarkedStore [])
        "src/cfg").trace ∧
    Op.Update "a" (createNewConfigMap Example.env "t0" (Example.source "tier=prod")) ∈
      calls (syncConfigMap Example.env (Example.controller Example.unmarkedStore [])
        "src/cfg").trace :=
  ⟨(key_reconcilers_ignore_provenance Example.env
      (Example.controller Example.unmarkedStore []) "src/cfg" "src" "cfg" rfl).2.2.2.2.1
      (ResourceLister.ofStore Example.markedStore)
      ⟨rfl, rfl, List.Forall₂.cons ⟨rfl, fun _ => rfl⟩
        (List.Forall₂.cons ⟨rfl, fun h => absurd h (by decide)⟩ List.Forall₂.nil)⟩,
    by decide⟩

end KonfigSyncer
